import Mathlib

/-!
# smctool: Apple SMC port protocol and typed codec

A shallow embedding of `smc.c` (port transport) and `smctool.c` (type
resolution and decoding).  Port I/O is modelled by explicit state passing:
the state `Hw` holds the bytes that the coming `inb` calls will return and a
chronological trace of every externally visible action.
-/

namespace Smctool

/-! ## Constants of `smc.h` and `smctool.h` -/

/-- Data port used by Apple SMC. -/
@[reducible] def APPLESMC_DATA_PORT : Nat := 0x300
/-- Command/status port used by Apple SMC. -/
@[reducible] def APPLESMC_CMD_PORT : Nat := 0x304
@[reducible] def APPLESMC_MAX_DATA_LENGTH : Nat := 32
@[reducible] def APPLESMC_MIN_WAIT : Nat := 0x0010
@[reducible] def APPLESMC_RETRY_WAIT : Nat := 0x0100
@[reducible] def APPLESMC_MAX_WAIT : Nat := 0x20000
@[reducible] def APPLESMC_READ_CMD : Nat := 0x10
@[reducible] def APPLESMC_WRITE_CMD : Nat := 0x11
@[reducible] def KEYBUFSIZE : Nat := 5
/-- The value of `EIO` in `errno.h`. -/
@[reducible] def EIO_errno : Int := 5

/-! ## The machine: ports, sleeping and the two output streams -/

/-- An argument handed to a `printf`-style call. -/
inductive Arg where
  | str (s : List Char)
  | num (n : Int)
deriving DecidableEq

/-- One externally visible action of the program. -/
inductive Event where
  | usleep (us : Nat)
  | inb (port : Nat) (value : Nat)
  | outb (value : Nat) (port : Nat)
  | stderr (fmt : String) (args : List Arg)
  | stdout (fmt : String) (args : List Arg)
deriving DecidableEq

/-- State of the outside world: `input n` is what the `n`-th coming `inb`
call will deliver, `trace` lists the actions performed so far, oldest first. -/
structure Hw where
  input : Nat → Nat
  trace : List Event

/-- Model of `usleep(us)`. -/
def usleep (us : Nat) (hw : Hw) : Hw :=
  ⟨hw.input, hw.trace ++ [Event.usleep us]⟩

/-- Model of `inb(port)`: delivers the next input byte. -/
def inb (port : Nat) (hw : Hw) : Nat × Hw :=
  (hw.input 0 % 256,
   ⟨fun n => hw.input (n + 1), hw.trace ++ [Event.inb port (hw.input 0 % 256)]⟩)

/-- Model of `outb(value, port)`. -/
def outb (value port : Nat) (hw : Hw) : Hw :=
  ⟨hw.input, hw.trace ++ [Event.outb value port]⟩

/-- Model of `fprintf(stderr, fmt, args...)`; the call is recorded unrendered. -/
def fprintf_stderr (fmt : String) (args : List Arg) (hw : Hw) : Hw :=
  ⟨hw.input, hw.trace ++ [Event.stderr fmt args]⟩

/-- Model of `printf(fmt, args...)`; the call is recorded unrendered. -/
def printf (fmt : String) (args : List Arg) (hw : Hw) : Hw :=
  ⟨hw.input, hw.trace ++ [Event.stdout fmt args]⟩

/-! ## `smc.c` -/

/-- Exit path of `wait_read`: the diagnostic and `return -EIO`. -/
def wait_read_fail (status : Nat) (hw : Hw) : Int × Hw :=
  (-EIO_errno,
   fprintf_stderr "%s() fail: 0x%02x\n" [Arg.str "wait_read".toList, Arg.num status] hw)

/-- The `for (us = ...; us < APPLESMC_MAX_WAIT; us <<= 1)` loop of `wait_read`,
entered at the loop test with the current `us` and the last `status` read.
`hus` is a ghost argument recording that `us` is positive (it starts at
`APPLESMC_MIN_WAIT`), which is what makes the doubling reach the ceiling. -/
def wait_read_loop (us : Nat) (hus : 0 < us) (status : Nat) (hw : Hw) : Int × Hw :=
  if h : us < APPLESMC_MAX_WAIT then
    let hw1 := usleep us hw
    let r := inb APPLESMC_CMD_PORT hw1
    if r.1 &&& 0x01 ≠ 0 then
      (0, r.2)
    else
      wait_read_loop (us <<< 1) (by rw [Nat.shiftLeft_eq]; omega) r.1 r.2
  else
    wait_read_fail status hw
termination_by APPLESMC_MAX_WAIT - us
decreasing_by
  simp only [Nat.shiftLeft_eq, APPLESMC_MAX_WAIT] at *
  omega

/-- Model of `wait_read`.  `status` is uninitialised in the source; the loop
body always runs once before it is used, so its initial value is immaterial. -/
def wait_read (hw : Hw) : Int × Hw :=
  wait_read_loop APPLESMC_MIN_WAIT (by decide) 0 hw

/-- Exit path of `send_byte`: the diagnostic and `return -EIO`. -/
def send_byte_fail (cmd port status : Nat) (hw : Hw) : Int × Hw :=
  (-EIO_errno,
   fprintf_stderr "%s(0x%02x, 0x%04x) fail: 0x%02x\n"
     [Arg.str "send_byte".toList, Arg.num cmd, Arg.num port, Arg.num status] hw)

/-- The polling loop of `send_byte`, entered at the loop test. -/
def send_byte_loop (cmd port : Nat) (us : Nat) (hus : 0 < us) (status : Nat) (hw : Hw) :
    Int × Hw :=
  if h : us < APPLESMC_MAX_WAIT then
    let hw1 := usleep us hw
    let r := inb APPLESMC_CMD_PORT hw1
    /- write: wait for smc to settle -/
    if r.1 &&& 0x02 ≠ 0 then
      send_byte_loop cmd port (us <<< 1) (by rw [Nat.shiftLeft_eq]; omega) r.1 r.2
    /- ready: cmd accepted, return -/
    else if r.1 &&& 0x04 ≠ 0 then
      (0, r.2)
    /- timeout: give up -/
    else if us <<< 1 = APPLESMC_MAX_WAIT then
      send_byte_fail cmd port r.1 r.2
    /- busy: long wait and resend -/
    else
      let hw2 := usleep APPLESMC_RETRY_WAIT r.2
      let hw3 := outb cmd port hw2
      send_byte_loop cmd port (us <<< 1) (by rw [Nat.shiftLeft_eq]; omega) r.1 hw3
  else
    send_byte_fail cmd port status hw
termination_by APPLESMC_MAX_WAIT - us
decreasing_by
  all_goals simp only [Nat.shiftLeft_eq, APPLESMC_MAX_WAIT] at *
  all_goals omega

/-- Model of `send_byte(cmd, port)`. -/
def send_byte (cmd port : Nat) (hw : Hw) : Int × Hw :=
  send_byte_loop cmd port APPLESMC_MIN_WAIT (by decide) 0 (outb cmd port hw)

/-- Model of `send_command`. -/
def send_command (cmd : Nat) (hw : Hw) : Int × Hw :=
  send_byte cmd APPLESMC_CMD_PORT hw

/-- The character `key[i]` of a C string held in a zero-filled buffer, converted
to `uint8_t`. -/
def key_byte (key : List Char) (i : Nat) : Nat :=
  (key.getD i (Char.ofNat 0)).toNat % 256

/-- The loop `for (i = 0; i < 4; i++)` of `send_argument`; `n` counts the
iterations still to run, so that `i = 4 - n` on entry from `send_argument`. -/
def send_argument_loop (key : List Char) : Nat → Nat → Hw → Int × Hw
  | 0, _, hw => (0, hw)
  | n + 1, i, hw =>
    let r := send_byte (key_byte key i) APPLESMC_DATA_PORT hw
    if r.1 ≠ 0 then (-EIO_errno, r.2)
    else send_argument_loop key n (i + 1) r.2

/-- Model of `send_argument`. -/
def send_argument (key : List Char) (hw : Hw) : Int × Hw :=
  send_argument_loop key 4 0 hw

/-- Result of a register transaction: return value, buffer memory, machine. -/
structure SmcResult where
  ret : Int
  buffer : Nat → Nat
  hw : Hw

/-- The payload loop `for (i = 0; i < len; i++)` of `read_smc`; `n` counts the
iterations still to run. -/
def read_smc_data (key : List Char) : Nat → Nat → (Nat → Nat) → Hw → SmcResult
  | 0, _, buffer, hw => ⟨0, buffer, hw⟩
  | n + 1, i, buffer, hw =>
    let w := wait_read hw
    if w.1 ≠ 0 then
      ⟨-EIO_errno, buffer,
        fprintf_stderr "%.4s: read data[%d] fail\n" [Arg.str key, Arg.num i] w.2⟩
    else
      let r := inb APPLESMC_DATA_PORT w.2
      read_smc_data key n (i + 1) (Function.update buffer i r.1) r.2

/-- The flush loop `for (i = 0; i < 16; i++)` of `read_smc`; returns the final
`i`, the last `data` read and the machine.  `n` counts the iterations still
to run. -/
def read_smc_flush : Nat → Nat → Nat → Hw → Nat × Nat × Hw
  | 0, i, data, hw => (i, data, hw)
  | n + 1, i, data, hw =>
    let hw1 := usleep APPLESMC_MIN_WAIT hw
    let r := inb APPLESMC_CMD_PORT hw1
    if r.1 &&& 0x01 = 0 then (i, data, r.2)
    else
      let d := inb APPLESMC_DATA_PORT r.2
      read_smc_flush n (i + 1) d.1 d.2

/-- Model of `read_smc(cmd, key, buffer, len)`. -/
def read_smc (cmd : Nat) (key : List Char) (buffer : Nat → Nat) (len : Nat) (hw : Hw) :
    SmcResult :=
  let c := send_command cmd hw
  if c.1 ≠ 0 then
    ⟨-EIO_errno, buffer, fprintf_stderr "%.4s: read arg fail\n" [Arg.str key] c.2⟩
  else
  let a := send_argument key c.2
  if a.1 ≠ 0 then
    ⟨-EIO_errno, buffer, fprintf_stderr "%.4s: read arg fail\n" [Arg.str key] a.2⟩
  else
  /- This has no effect on newer (2012) SMCs -/
  let l := send_byte len APPLESMC_DATA_PORT a.2
  if l.1 ≠ 0 then
    ⟨-EIO_errno, buffer, fprintf_stderr "%.4s: read len fail\n" [Arg.str key] l.2⟩
  else
  let d := read_smc_data key len 0 buffer l.2
  if d.ret ≠ 0 then d
  else
  /- Read the data port until bit0 is cleared -/
  let f := read_smc_flush 16 0 0 d.hw
  let hw1 :=
    if f.1 ≠ 0 then
      fprintf_stderr "flushed %d bytes, last value is: %d\n" [Arg.num f.1, Arg.num f.2.1] f.2.2
    else f.2.2
  ⟨0, d.buffer, hw1⟩

/-- The payload loop `for (i = 0; i < len; i++)` of `write_smc`; `n` counts
the iterations still to run. -/
def write_smc_data (key : List Char) (buffer : Nat → Nat) : Nat → Nat → Hw → Int × Hw
  | 0, _, hw => (0, hw)
  | n + 1, i, hw =>
    let r := send_byte (buffer i) APPLESMC_DATA_PORT hw
    if r.1 ≠ 0 then
      (-EIO_errno, fprintf_stderr "%s: write data fail\n" [Arg.str key] r.2)
    else write_smc_data key buffer n (i + 1) r.2

/-- Model of `write_smc(cmd, key, buffer, len)`. -/
def write_smc (cmd : Nat) (key : List Char) (buffer : Nat → Nat) (len : Nat) (hw : Hw) :
    Int × Hw :=
  let c := send_command cmd hw
  if c.1 ≠ 0 then
    (-EIO_errno, fprintf_stderr "%s: write arg fail\n" [Arg.str key] c.2)
  else
  let a := send_argument key c.2
  if a.1 ≠ 0 then
    (-EIO_errno, fprintf_stderr "%s: write arg fail\n" [Arg.str key] a.2)
  else
  let l := send_byte len APPLESMC_DATA_PORT a.2
  if l.1 ≠ 0 then
    (-EIO_errno, fprintf_stderr "%.4s: write len fail\n" [Arg.str key] l.2)
  else
  write_smc_data key buffer len 0 l.2

/-! ## C strings and integer conversions used by `smctool.c` -/

/-- The NUL character. -/
def NUL : Char := Char.ofNat 0

/-- The C string held in a character buffer: everything before the first NUL. -/
def cstr (buf : List Char) : List Char :=
  buf.takeWhile (fun c => c ≠ NUL)

/-- Model of `strlen`. -/
def strlen (buf : List Char) : Nat :=
  (cstr buf).length

/-- Model of `strcmp`; only whether the result is zero is modelled (the one
thing the program tests): `0` when the two C strings are equal, `1` otherwise. -/
def strcmp (a b : List Char) : Int :=
  if cstr a = cstr b then 0 else 1

/-- Model of `snprintf(buf, size, "%s", s)`: at most `size - 1` characters of
the C string `s` followed by a NUL are stored at the start of `buf`; the
cells behind them keep their content. -/
def snprintf (buf : List Char) (size : Nat) (s : List Char) : List Char :=
  if size = 0 then buf
  else
    let out := (cstr s).take (size - 1) ++ [NUL]
    out ++ buf.drop out.length

/-- The array element `buf[i]` of a character buffer. -/
def char_at (buf : List Char) (i : Nat) : Char :=
  buf.getD i NUL

/-- The declaration `char name[KEYBUFSIZE+1] = {0}`. -/
def zero_buffer : List Char :=
  List.replicate (KEYBUFSIZE + 1) NUL

/-- Conversion to `int8_t`. -/
def int8_t_cast (x : Int) : Int :=
  if x % 256 < 128 then x % 256 else x % 256 - 256

/-- Conversion to `int16_t`. -/
def int16_t_cast (x : Int) : Int :=
  if x % 65536 < 32768 then x % 65536 else x % 65536 - 65536

/-- Conversion to `int32_t`. -/
def int32_t_cast (x : Int) : Int :=
  if x % 4294967296 < 2147483648 then x % 4294967296 else x % 4294967296 - 4294967296

/-- Conversion to `uint32_t`. -/
def uint32_t_cast (x : Int) : Nat :=
  (x % 4294967296).toNat

/-- Conversion to `uint16_t`. -/
def uint16_t_cast (x : Nat) : Nat :=
  x % 65536

/-- What `strtol(&c, NULL, 16)` yields for the single character `c`, the
conversion being taken to stop right behind `c`. -/
def strtol16 (c : Char) : Nat :=
  if '0'.toNat ≤ c.toNat ∧ c.toNat ≤ '9'.toNat then c.toNat - '0'.toNat
  else if 'a'.toNat ≤ c.toNat ∧ c.toNat ≤ 'f'.toNat then c.toNat - 'a'.toNat + 10
  else if 'A'.toNat ≤ c.toNat ∧ c.toNat ≤ 'F'.toNat then c.toNat - 'A'.toNat + 10
  else 0

/-- What `be32toh` makes of the four bytes that `buffer` points to. -/
def be32toh_bytes (buffer : Nat → Nat) : Nat :=
  (buffer 0 % 256) <<< 24 ||| (buffer 1 % 256) <<< 16 ||| (buffer 2 % 256) <<< 8
    ||| (buffer 3 % 256)

/-- What the conversion `%d` shows for a 32-bit argument. -/
def printf_d (x : Nat) : Int :=
  int32_t_cast x

/-! ## `smctool.c` -/

/-- Model of `fp_bits(c, dest)`: `some v` stands for `true` with `*dest = v`,
`none` for `false` with `*dest` left alone. -/
def fp_bits (c : Char) : Option Nat :=
  if ('0'.toNat ≤ c.toNat ∧ c.toNat ≤ '9'.toNat) ∨ ('a'.toNat ≤ c.toNat ∧ c.toNat ≤ 'f'.toNat)
  then some (strtol16 c % 256)
  else none

inductive output_format where
  | dec | hex | bin
deriving DecidableEq

inductive smctype where
  | none | ui8 | ui16 | ui32 | si8 | si16 | flag | fp | sp
deriving DecidableEq

/-- One row of the table `types[]`. -/
structure TypeRow where
  type : smctype
  len : Nat
  str : List Char
  decfmt : String
  hexfmt : String

/-- The table `types[]`. -/
def types : List TypeRow :=
  [ ⟨smctype.ui8,  1, ['u', 'i', '8'],      "%u", "0x%02x"⟩,
    ⟨smctype.ui16, 2, ['u', 'i', '1', '6'], "%u", "0x%04x"⟩,
    ⟨smctype.ui32, 4, ['u', 'i', '3', '2'], "%u", "0x%08x"⟩,
    ⟨smctype.si8,  1, ['s', 'i', '8'],      "%d", "0x%02x"⟩,
    ⟨smctype.si16, 2, ['s', 'i', '1', '6'], "%d", "0x%04x"⟩,
    ⟨smctype.flag, 1, ['f', 'l', 'a', 'g'], "%u", "0x%01x"⟩ ]

/-- The variables of `main` set while the key type is validated; `ofmt = none`
stands for the `NULL` pointer. -/
structure TypeVars where
  type : smctype
  len : Nat
  ofmt : Option String
  fp_int_bits : Nat
  fp_fraction_bits : Nat
deriving DecidableEq

/-- The fixed-point block of "Validate key type" in `main`: `none` when the
block is not entered (the name does not start with `fp` or `sp`), otherwise
the `fprintf(stderr, ...)` call it exits with or the variables it sets. -/
def validate_fixed_point (typebuf : List Char) :
    Option (Except (String × List Arg) TypeVars) :=
  if (char_at typebuf 0 = 'f' ∨ char_at typebuf 0 = 's') ∧ char_at typebuf 1 = 'p' then
    match fp_bits (char_at typebuf 2) with
    | Option.none => some (Except.error ("Invalid fixed point data type.\n", []))
    | some fp_int_bits =>
      match fp_bits (char_at typebuf 3) with
      | Option.none => some (Except.error ("Invalid fixed point data type.\n", []))
      | some fp_fraction_bits =>
        if char_at typebuf 0 = 'f' ∧ fp_int_bits + fp_fraction_bits ≠ 16 then
          some (Except.error ("Invalid unsigned fixed point data type.\n", []))
        else if char_at typebuf 0 = 's' ∧ fp_int_bits + fp_fraction_bits ≠ 15 then
          some (Except.error ("Invalid signed fixed point data type.\n", []))
        else
          some (Except.ok
            ⟨if char_at typebuf 0 = 'f' then smctype.fp else smctype.sp, 2, some "%d.%u",
             fp_int_bits, fp_fraction_bits⟩)
  else Option.none

/-- The loop over `types[]` in `main`: the first row whose name equals
`typebuf`, with the output format chosen from `of`. -/
def lookup_type (typebuf : List Char) (of : output_format) : Option TypeVars :=
  match types.find? (fun row => strcmp typebuf row.str == 0) with
  | Option.none => Option.none
  | some row =>
    some ⟨row.type, row.len,
      (match of with
       | output_format.dec => some row.decfmt
       | output_format.hex => some row.hexfmt
       | output_format.bin => Option.none),
      0, 0⟩

/-- The section "Validate key type" of `main`: the `fprintf(stderr, ...)` call
the program exits with, or the variables it has set. -/
def validate_type (typebuf : List Char) (of : output_format) :
    Except (String × List Arg) TypeVars :=
  match validate_fixed_point typebuf with
  | some r => r
  | Option.none =>
    match lookup_type typebuf of with
    | some v => Except.ok v
    | Option.none => Except.error ("Key type \"%s\" is not known.\n", [Arg.str (cstr typebuf)])

/-- The variables of `main` after the `switch (type)`. -/
structure Decoded where
  buf : Nat
  fp_int : Int
  fp_fraction : Nat
  fp_sign : Bool
deriving DecidableEq

/-- The `switch (type)` of `main`, applied to `buf` after `be32toh`. -/
def decode (type : smctype) (of : output_format) (fp_int_bits fp_fraction_bits : Nat)
    (buf : Nat) : Decoded :=
  match type with
  | smctype.flag => ⟨(buf >>> 24) &&& 1, 0, 0, false⟩
  | smctype.ui8 => ⟨(buf >>> 24) &&& 0xff, 0, 0, false⟩
  | smctype.si8 =>
    let buf1 := (buf >>> 24) &&& 0xff
    ⟨if of = output_format.dec then uint32_t_cast (int8_t_cast buf1) else buf1, 0, 0, false⟩
  | smctype.ui16 => ⟨(buf >>> 16) &&& 0xffff, 0, 0, false⟩
  | smctype.si16 =>
    let buf1 := (buf >>> 16) &&& 0xffff
    ⟨if of = output_format.dec then uint32_t_cast (int16_t_cast buf1) else buf1, 0, 0, false⟩
  | smctype.fp =>
    let buf1 := (buf >>> 16) &&& 0xffff
    ⟨buf1, int32_t_cast (buf1 >>> fp_fraction_bits),
      uint16_t_cast (buf1 &&& (0xffff >>> fp_int_bits)), false⟩
  | smctype.sp =>
    let buf1 := (buf >>> 16) &&& 0xffff
    let fp_sign := decide (((buf1 >>> 15) &&& 1) = 1)
    /- `buf &= ~(1 << 15)` -/
    let buf2 := buf1 &&& (0xffffffff - (1 <<< 15))
    let fp_int := int32_t_cast (buf2 >>> fp_fraction_bits)
    let fp_fraction := uint16_t_cast (buf2 &&& (0xffff >>> fp_int_bits))
    ⟨buf2, if fp_sign then int32_t_cast (fp_int * -1) else fp_int, fp_fraction, fp_sign⟩
  | smctype.ui32 => ⟨buf, 0, 0, false⟩
  | smctype.none => ⟨buf, 0, 0, false⟩

/-- Model of `print_bits(len, ptr)`. -/
def print_bits (len : Nat) (ptr : Nat → Nat) (hw : Hw) : Hw :=
  (List.range len).reverse.foldl
    (fun h i =>
      let h1 := (List.range 8).reverse.foldl
        (fun g j => printf "%u" [Arg.num (((ptr i >>> j) &&& 1 : Nat) : Int)] g) h
      if i > 0 then printf " " [] h1 else h1)
    hw

/-- How a run of `main` ends. -/
inductive Outcome where
  | exit (status : Nat)
  | abort
  | ret (value : Nat)
deriving DecidableEq

/-- The section "Output the result" of `main`.  With `--output-bin` the bytes
of `buf` are taken in the little-endian layout of the x86 hosts that offer
port I/O. -/
def output_result (name : List Char) (of : output_format) (v : TypeVars) (d : Decoded)
    (hw : Hw) : Hw :=
  if of ≠ output_format.bin then
    let fmtbuf := "%s = " ++ v.ofmt.getD "" ++ "\n"
    if v.type = smctype.fp ∨ v.type = smctype.sp then
      printf fmtbuf [Arg.str (cstr name), Arg.num d.fp_int, Arg.num d.fp_fraction] hw
    else
      printf fmtbuf [Arg.str (cstr name), Arg.num d.buf] hw
  else
    let hw1 := printf "%s = " [Arg.str (cstr name)] hw
    let hw2 := print_bits v.len (fun i => (d.buf >>> (8 * i)) &&& 0xff) hw1
    printf "\n" [] hw2

/-- Model of `main` from the point where the options have been parsed, for a
run without `--help` and without extra parameters: `karg` and `targ` are the
arguments of `-k` and `-t` (empty when the option is absent), `of` the output
format selected, `euid` the result of `geteuid()` and `ioperm_error` the
`strerror` text when `ioperm` fails. -/
def main (karg targ : List Char) (of : output_format) (euid : Nat)
    (ioperm_error : Option (List Char)) (hw : Hw) : Outcome × Hw :=
  let name := snprintf zero_buffer KEYBUFSIZE karg
  let typebuf := snprintf zero_buffer KEYBUFSIZE targ
  /- Validate key name -/
  if strlen name ≠ 4 then
    (Outcome.exit 1, fprintf_stderr "Key name must be 4 characters long.\n" [] hw)
  else
  /- Validate key type -/
  match validate_type typebuf of with
  | Except.error msg => (Outcome.exit 1, fprintf_stderr msg.1 msg.2 hw)
  | Except.ok v =>
    /- Check permissions -/
    if euid ≠ 0 then
      (Outcome.exit 1, fprintf_stderr "You must be root.\n" [] hw)
    else
    /- Open SMC port -/
    match ioperm_error with
    | some e => (Outcome.exit 1, fprintf_stderr "ioperm: %s\n" [Arg.str e] hw)
    | Option.none =>
      /- Read key from SMC -/
      let r := read_smc APPLESMC_READ_CMD name (fun _ => 0) v.len hw
      if r.ret ≠ 0 then (Outcome.abort, r.hw)
      else
        /- Handle returned value according to the requested type -/
        let buf := be32toh_bytes r.buffer
        let d := decode v.type of v.fp_int_bits v.fp_fraction_bits buf
        /- Output the result -/
        (Outcome.ret 0, output_result name of v d r.hw)

/-- The memory of `uint32_t buf = 0` after the bytes `bs` have been stored from
its start. -/
def bytes_mem (bs : List Nat) : Nat → Nat :=
  fun i => bs.getD i 0

/-- The lowercase hexadecimal digit character of value `x`, as the
specification's grammar `[0-9a-f]` has it. -/
def hex_digit (x : Nat) : Char :=
  "0123456789abcdef".toList.getD x '0'

/-! ## Auxiliary definitions used to state and prove the transport claims -/

/-- The input stream after `k` bytes have been consumed. -/
def skip (k : Nat) (input : Nat → Nat) : Nat → Nat :=
  fun n => input (n + k)

/-- The actions of `k` successive status polls with doubling sleep intervals,
the first interval being `us`. -/
def poll_trace (us : Nat) (input : Nat → Nat) : Nat → List Event
  | 0 => []
  | k + 1 =>
    poll_trace us input k
      ++ [Event.usleep (us <<< k), Event.inb APPLESMC_CMD_PORT (input k % 256)]

/-- The loop of `wait_read` unrolled over the number `n` of doublings that are
left until `us` reaches `APPLESMC_MAX_WAIT`; equal to `wait_read_loop` by
`wait_read_loop_eq_iter`. -/
def wait_read_iter : Nat → Nat → Nat → Hw → Int × Hw
  | 0, _, status, hw => wait_read_fail status hw
  | n + 1, us, _, hw =>
    let hw1 := usleep us hw
    let r := inb APPLESMC_CMD_PORT hw1
    if r.1 &&& 0x01 ≠ 0 then
      (0, r.2)
    else
      wait_read_iter n (us <<< 1) r.1 r.2

/-- The loop of `send_byte` unrolled over the number `n` of doublings that are
left until `us` reaches `APPLESMC_MAX_WAIT`; equal to `send_byte_loop` by
`send_byte_loop_eq_iter`. -/
def send_byte_iter (cmd port : Nat) : Nat → Nat → Nat → Hw → Int × Hw
  | 0, _, status, hw => send_byte_fail cmd port status hw
  | n + 1, us, _, hw =>
    let hw1 := usleep us hw
    let r := inb APPLESMC_CMD_PORT hw1
    if r.1 &&& 0x02 ≠ 0 then
      send_byte_iter cmd port n (us <<< 1) r.1 r.2
    else if r.1 &&& 0x04 ≠ 0 then
      (0, r.2)
    else if us <<< 1 = APPLESMC_MAX_WAIT then
      send_byte_fail cmd port r.1 r.2
    else
      let hw2 := usleep APPLESMC_RETRY_WAIT r.2
      let hw3 := outb cmd port hw2
      send_byte_iter cmd port n (us <<< 1) r.1 hw3

/-- The `(value, port)` pairs written with `outb` in a trace, in order. -/
def port_writes (trace : List Event) : List (Nat × Nat) :=
  trace.filterMap (fun e =>
    match e with
    | Event.outb value port => some (value, port)
    | _ => Option.none)

/-- The bytes read from the data port in a trace, in order. -/
def data_reads (trace : List Event) : List Nat :=
  trace.filterMap (fun e =>
    match e with
    | Event.inb port value => if port = APPLESMC_DATA_PORT then some value else Option.none
    | _ => Option.none)

/-- The status port answers a `send_byte` at its poll number `k` (counted from
0): among the coming status bytes the first one with bit 0x04 set and bit
0x02 clear has index `k`, and `k` is below the 13 polls `send_byte` makes. -/
def SendOk (input : Nat → Nat) (k : Nat) : Prop :=
  k < 13 ∧ (input k % 256 &&& 0x02 = 0 ∧ input k % 256 &&& 0x04 ≠ 0) ∧
    ∀ j, j < k → ¬ (input j % 256 &&& 0x02 = 0 ∧ input j % 256 &&& 0x04 ≠ 0)

/-- The status port answers a `wait_read` at its poll number `k`: the first
coming status byte with bit 0 set has index `k < 13`. -/
def WaitOk (input : Nat → Nat) (k : Nat) : Prop :=
  k < 13 ∧ input k % 256 &&& 0x01 ≠ 0 ∧ ∀ j, j < k → input j % 256 &&& 0x01 = 0

/-- Successive `send_byte` calls are answered at the polls `ks`; each call
consumes the status bytes up to and including its answer. -/
def SendsOk : List Nat → (Nat → Nat) → Prop
  | [], _ => True
  | k :: ks, input => SendOk input k ∧ SendsOk ks (skip (k + 1) input)

/-- The input stream left behind by `send_byte` calls answered at `ks`. -/
def after_sends : List Nat → (Nat → Nat) → (Nat → Nat)
  | [], input => input
  | k :: ks, input => after_sends ks (skip (k + 1) input)

/-- Successive payload reads succeed with their `wait_read` answered at the
polls `ws`; each read consumes the status bytes up to its answer and then one
data byte. -/
def ReadsOk : List Nat → (Nat → Nat) → Prop
  | [], _ => True
  | w :: ws, input => WaitOk input w ∧ ReadsOk ws (skip (w + 2) input)

/-- The actions of payload reads answered at `ws`: for each byte the polls of
a successful `wait_read`, then one read of the data port. -/
def payload_trace : List Nat → (Nat → Nat) → List Event
  | [], _ => []
  | w :: ws, input =>
    poll_trace APPLESMC_MIN_WAIT input (w + 1)
      ++ Event.inb APPLESMC_DATA_PORT (input (w + 1) % 256)
        :: payload_trace ws (skip (w + 2) input)

/-- The sum of all sleep intervals requested in a trace, in microseconds. -/
def total_sleep (trace : List Event) : Nat :=
  (trace.map (fun e =>
    match e with
    | Event.usleep us => us
    | _ => 0)).sum

/-- The status bytes read from the command port in a trace, in order. -/
def status_reads (trace : List Event) : List Nat :=
  trace.filterMap (fun e =>
    match e with
    | Event.inb port value => if port = APPLESMC_CMD_PORT then some value else Option.none
    | _ => Option.none)

/-- The actions of `j` rounds of the flush loop of `read_smc` in which the
status had bit 0 set: per round the sleep, the status poll and the read of
one byte from the data port. -/
def flush_trace (input : Nat → Nat) : Nat → List Event
  | 0 => []
  | j + 1 =>
    flush_trace input j
      ++ [Event.usleep APPLESMC_MIN_WAIT,
          Event.inb APPLESMC_CMD_PORT (input (2 * j) % 256),
          Event.inb APPLESMC_DATA_PORT (input (2 * j + 1) % 256)]

/-- The sequence of `(byte, port)` pairs that the specification gives for a
write transaction: the command to the command port, then the 4 key
characters, the length and the `len` payload bytes to the data port. -/
def write_sequence (cmd : Nat) (key : List Char) (buffer : Nat → Nat) (len : Nat) :
    List (Nat × Nat) :=
  (cmd, APPLESMC_CMD_PORT)
    :: ((List.range 4).map (fun i => (key_byte key i, APPLESMC_DATA_PORT))
      ++ (len, APPLESMC_DATA_PORT)
        :: (List.range len).map (fun i => (buffer i, APPLESMC_DATA_PORT)))

/-- The specification's reading of a transaction's send phase: every pair of
the sequence goes through `send_byte` in order, each call starting in the
state its predecessor left, and the first failing call ends the phase with
`-EIO`. -/
def send_all : List (Nat × Nat) → Hw → Int × Hw
  | [], hw => (0, hw)
  | e :: rest, hw =>
    let r := send_byte e.1 e.2 hw
    if r.1 ≠ 0 then (-EIO_errno, r.2) else send_all rest r.2

/-- The port writes of successive sends: the `i`-th pair of the sequence is
written `ms[i]` times in a row; pairs without a count are not written. -/
def write_runs : List (Nat × Nat) → List Nat → List (Nat × Nat)
  | e :: es, m :: ms => List.replicate m e ++ write_runs es ms
  | _, _ => []

/-! # Theorems -/

/-! ### C strings and the option buffers -/

theorem cstr_nil : cstr [] = [] := rfl

theorem cstr_cons_nul (l : List Char) : cstr (NUL :: l) = [] := by
  simp [cstr, List.takeWhile_cons]

theorem cstr_cons_of_ne (a : Char) (l : List Char) (ha : a ≠ NUL) :
    cstr (a :: l) = a :: cstr l := by
  simp [cstr, List.takeWhile_cons, ha]

theorem cstr_no_nul (s : List Char) : ∀ c ∈ cstr s, c ≠ NUL := by
  intro c hc
  have h := List.mem_takeWhile_imp hc
  simpa using h

theorem cstr_append_nul (t rest : List Char) (h : ∀ c ∈ t, c ≠ NUL) :
    cstr (t ++ NUL :: rest) = t := by
  induction t with
  | nil => exact cstr_cons_nul rest
  | cons a t ih =>
    have ha : a ≠ NUL := h a (List.mem_cons_self a t)
    have ht : ∀ c ∈ t, c ≠ NUL := fun c hc => h c (List.mem_cons_of_mem a hc)
    rw [List.cons_append, cstr_cons_of_ne _ _ ha, ih ht]

theorem cstr_of_no_nul (t : List Char) (h : ∀ c ∈ t, c ≠ NUL) : cstr t = t := by
  induction t with
  | nil => rfl
  | cons a t ih =>
    have ha : a ≠ NUL := h a (List.mem_cons_self a t)
    have ht : ∀ c ∈ t, c ≠ NUL := fun c hc => h c (List.mem_cons_of_mem a hc)
    rw [cstr_cons_of_ne _ _ ha, ih ht]

theorem take_cstr_no_nul (s : List Char) (n : Nat) : ∀ c ∈ (cstr s).take n, c ≠ NUL :=
  fun c hc => cstr_no_nul s c (List.mem_of_mem_take hc)

/-- The buffer `snprintf` leaves behind when it starts from a zero-filled one. -/
theorem snprintf_zero_buffer (s : List Char) :
    snprintf zero_buffer KEYBUFSIZE s
      = (cstr s).take 4 ++ NUL :: List.replicate (5 - ((cstr s).take 4).length) NUL := by
  have hlen : ((cstr s).take 4).length ≤ 4 := by
    rw [List.length_take]; omega
  simp only [snprintf, zero_buffer, KEYBUFSIZE]
  simp only [List.append_assoc, List.singleton_append, List.drop_replicate, List.length_append,
    List.length_cons, List.length_nil]
  simp

theorem cstr_snprintf (s : List Char) :
    cstr (snprintf zero_buffer KEYBUFSIZE s) = (cstr s).take 4 := by
  rw [snprintf_zero_buffer]
  exact cstr_append_nul _ _ (take_cstr_no_nul s 4)

theorem getD_append_nuls (t : List Char) (n i : Nat) :
    (t ++ List.replicate n NUL).getD i NUL = t.getD i NUL := by
  induction t generalizing i with
  | nil =>
    simp only [List.nil_append, List.getD_eq_getElem?_getD, List.getElem?_replicate]
    split <;> simp
  | cons a t ih =>
    cases i with
    | zero => simp
    | succ i => simpa using ih i

theorem char_at_snprintf (s : List Char) (i : Nat) :
    char_at (snprintf zero_buffer KEYBUFSIZE s) i = char_at ((cstr s).take 4) i := by
  rw [snprintf_zero_buffer]
  have : NUL :: List.replicate (5 - ((cstr s).take 4).length) NUL
      = List.replicate (5 - ((cstr s).take 4).length + 1) NUL := by
    simp [List.replicate_succ]
  rw [this]
  exact getD_append_nuls _ _ _

/-- Validation reads the buffer only through the C string it holds and its
first four cells. -/
theorem validate_type_congr (a b : List Char) (of : output_format)
    (hc : cstr a = cstr b) (h : ∀ i, char_at a i = char_at b i) :
    validate_type a of = validate_type b of := by
  simp only [validate_type, validate_fixed_point, lookup_type, strcmp, h, hc]

theorem validate_type_snprintf (s : List Char) (of : output_format) :
    validate_type (snprintf zero_buffer KEYBUFSIZE s) of
      = validate_type ((cstr s).take 4) of := by
  apply validate_type_congr
  · rw [cstr_snprintf, cstr_of_no_nul _ (take_cstr_no_nul s 4)]
  · exact char_at_snprintf s


/-! ### Arithmetic of the decode step -/

theorem and_0xff (x : Nat) : x &&& 0xff = x % 256 :=
  Nat.and_pow_two_sub_one_eq_mod x 8

theorem and_0xffff (x : Nat) : x &&& 0xffff = x % 65536 :=
  Nat.and_pow_two_sub_one_eq_mod x 16

theorem be32toh_bytes_eq (buffer : Nat → Nat) :
    be32toh_bytes buffer
      = buffer 0 % 256 * 2 ^ 24 + buffer 1 % 256 * 2 ^ 16 + buffer 2 % 256 * 2 ^ 8
        + buffer 3 % 256 := by
  unfold be32toh_bytes
  have hA := Nat.mod_lt (buffer 0) (show 256 > 0 by decide)
  have hB := Nat.mod_lt (buffer 1) (show 256 > 0 by decide)
  have hC := Nat.mod_lt (buffer 2) (show 256 > 0 by decide)
  have hD := Nat.mod_lt (buffer 3) (show 256 > 0 by decide)
  generalize buffer 0 % 256 = A at *
  generalize buffer 1 % 256 = B at *
  generalize buffer 2 % 256 = C at *
  generalize buffer 3 % 256 = D at *
  simp only [Nat.shiftLeft_eq]
  have h1 : A * 2 ^ 24 ||| B * 2 ^ 16 = A * 2 ^ 24 + B * 2 ^ 16 := by
    have := Nat.mul_add_lt_is_or (i := 24) (b := B * 2 ^ 16) (by omega) A
    rw [Nat.mul_comm (2 ^ 24) A] at this
    exact this.symm
  have h2 : (A * 2 ^ 24 + B * 2 ^ 16) ||| C * 2 ^ 8 = A * 2 ^ 24 + B * 2 ^ 16 + C * 2 ^ 8 := by
    have := Nat.mul_add_lt_is_or (i := 16) (b := C * 2 ^ 8) (by omega) (A * 2 ^ 8 + B)
    have e : 2 ^ 16 * (A * 2 ^ 8 + B) = A * 2 ^ 24 + B * 2 ^ 16 := by omega
    rw [e] at this
    exact this.symm
  have h3 : (A * 2 ^ 24 + B * 2 ^ 16 + C * 2 ^ 8) ||| D
      = A * 2 ^ 24 + B * 2 ^ 16 + C * 2 ^ 8 + D := by
    have := Nat.mul_add_lt_is_or (i := 8) (b := D) (by omega) (A * 2 ^ 16 + B * 2 ^ 8 + C)
    have e : 2 ^ 8 * (A * 2 ^ 16 + B * 2 ^ 8 + C) = A * 2 ^ 24 + B * 2 ^ 16 + C * 2 ^ 8 := by
      omega
    rw [e] at this
    exact this.symm
  rw [h1, h2, h3]

/-- The most-significant 16 bits of the converted buffer. -/
theorem be32toh_top16 (buffer : Nat → Nat) :
    (be32toh_bytes buffer >>> 16) &&& 0xffff = buffer 0 % 256 * 256 + buffer 1 % 256 := by
  rw [be32toh_bytes_eq, and_0xffff, Nat.shiftRight_eq_div_pow]
  have hA := Nat.mod_lt (buffer 0) (show 256 > 0 by decide)
  have hB := Nat.mod_lt (buffer 1) (show 256 > 0 by decide)
  have hC := Nat.mod_lt (buffer 2) (show 256 > 0 by decide)
  have hD := Nat.mod_lt (buffer 3) (show 256 > 0 by decide)
  omega

theorem int32_t_cast_of_lt (n : Nat) (h : n < 2147483648) : int32_t_cast (n : Int) = n := by
  unfold int32_t_cast
  have h1 : ((n : Int)) % 4294967296 = n := by omega
  rw [h1]
  split
  · rfl
  · omega

theorem mask_eq (x : Nat) (h : x ≤ 16) : 0xffff >>> x = (1 <<< (16 - x)) - 1 := by
  interval_cases x <;> rfl

theorem fp_bits_lt (c : Char) (x : Nat) (h : fp_bits c = some x) : x < 16 := by
  unfold fp_bits at h
  split at h
  · rename_i hc
    have hx : x = strtol16 c % 256 := by
      injection h with h; exact h.symm
    subst hx
    unfold strtol16
    simp only [Char.reduceToNat] at hc ⊢
    split
    · omega
    · split
      · omega
      · omega
  · cases h


/-! ### Fixed-point type names -/

theorem fp_bits_NUL : fp_bits NUL = Option.none := by decide

theorem cstr_name4 (a b X Y : Char) (ha : a ≠ NUL) (hb : b ≠ NUL) (hX : X ≠ NUL)
    (hY : Y ≠ NUL) : (cstr [a, b, X, Y]).take 4 = [a, b, X, Y] := by
  simp [cstr_cons_of_ne, cstr_nil, ha, hb, hX, hY]

/-- Validation of a four-character name starting with `f` or `s`, then `p`. -/
theorem validate_type_fixed (a X Y : Char) (of : output_format) (ha : a = 'f' ∨ a = 's') :
    validate_type (snprintf zero_buffer KEYBUFSIZE [a, 'p', X, Y]) of
      = match fp_bits X, fp_bits Y with
        | some x, some y =>
          if a = 'f' ∧ x + y ≠ 16 then
            Except.error ("Invalid unsigned fixed point data type.\n", [])
          else if a = 's' ∧ x + y ≠ 15 then
            Except.error ("Invalid signed fixed point data type.\n", [])
          else
            Except.ok ⟨if a = 'f' then smctype.fp else smctype.sp, 2, some "%d.%u", x, y⟩
        | _, _ => Except.error ("Invalid fixed point data type.\n", []) := by
  have ha0 : a ≠ NUL := by
    rcases ha with h | h <;> subst h <;> decide
  have hp : 'p' ≠ NUL := by decide
  rw [validate_type_snprintf]
  by_cases hX : X = NUL
  · subst hX
    simp only [cstr_cons_of_ne _ _ ha0, cstr_cons_of_ne _ _ hp, cstr_cons_nul]
    simp [validate_type, validate_fixed_point, char_at, fp_bits_NUL, ha]
  · by_cases hY : Y = NUL
    · subst hY
      simp only [cstr_cons_of_ne _ _ ha0, cstr_cons_of_ne _ _ hp, cstr_cons_of_ne _ _ hX,
        cstr_cons_nul]
      rcases ha with rfl | rfl <;> cases hx : fp_bits X <;>
        simp [validate_type, validate_fixed_point, char_at, fp_bits_NUL, hx]
    · rw [cstr_name4 _ _ _ _ ha0 hp hX hY]
      simp only [validate_type, validate_fixed_point, char_at, List.getD_cons_zero,
        List.getD_cons_succ, ha]
      cases fp_bits X <;> cases fp_bits Y <;> simp
      split_ifs <;> rfl

/-- What validation makes of a name `fpXY`. -/
theorem validate_type_fp (X Y : Char) (of : output_format) :
    validate_type (snprintf zero_buffer KEYBUFSIZE ['f', 'p', X, Y]) of
      = match fp_bits X, fp_bits Y with
        | some x, some y =>
          if x + y ≠ 16 then Except.error ("Invalid unsigned fixed point data type.\n", [])
          else Except.ok ⟨smctype.fp, 2, some "%d.%u", x, y⟩
        | _, _ => Except.error ("Invalid fixed point data type.\n", []) := by
  rw [validate_type_fixed 'f' X Y of (Or.inl rfl)]
  cases fp_bits X <;> cases fp_bits Y <;> simp

/-- What validation makes of a name `spXY`. -/
theorem validate_type_sp (X Y : Char) (of : output_format) :
    validate_type (snprintf zero_buffer KEYBUFSIZE ['s', 'p', X, Y]) of
      = match fp_bits X, fp_bits Y with
        | some x, some y =>
          if x + y ≠ 15 then Except.error ("Invalid signed fixed point data type.\n", [])
          else Except.ok ⟨smctype.sp, 2, some "%d.%u", x, y⟩
        | _, _ => Except.error ("Invalid fixed point data type.\n", []) := by
  rw [validate_type_fixed 's' X Y of (Or.inr rfl)]
  cases fp_bits X <;> cases fp_bits Y <;> simp

/-! ### Claims on the decode step -/

/-- C1 (unsigned fixed-point decoding).  For every accepted type name `fpXY`
and every two-byte big-endian buffer `b0 b1` with 16-bit value
`V = b0 * 256 + b1`, the decode step of `main` yields
`fp_int = V >> fracb` and `fp_fraction = V & ((1 << (16 - intb)) - 1)`, where
`intb + fracb = 16` are the bit counts validation stored.  The instance
`fpe2`, `V = 0x0302` (giving 192 and 2) is `fp_decode_unsigned_fpe2`. -/
theorem fp_decode_unsigned (X Y : Char) (of : output_format) (v : TypeVars) (b0 b1 : Nat)
    (hacc : validate_type (snprintf zero_buffer KEYBUFSIZE ['f', 'p', X, Y]) of = Except.ok v)
    (hb0 : b0 < 256) (hb1 : b1 < 256) :
    v.type = smctype.fp ∧ v.fp_int_bits + v.fp_fraction_bits = 16 ∧
    (decode v.type of v.fp_int_bits v.fp_fraction_bits
        (be32toh_bytes (bytes_mem [b0, b1]))).fp_int
      = (((b0 * 256 + b1) >>> v.fp_fraction_bits : Nat) : Int) ∧
    (decode v.type of v.fp_int_bits v.fp_fraction_bits
        (be32toh_bytes (bytes_mem [b0, b1]))).fp_fraction
      = (b0 * 256 + b1) &&& ((1 <<< (16 - v.fp_int_bits)) - 1) := by
  rw [validate_type_fp] at hacc
  cases hx : fp_bits X with
  | none => simp [hx] at hacc
  | some x =>
    cases hy : fp_bits Y with
    | none => simp [hx, hy] at hacc
    | some y =>
      simp only [hx, hy] at hacc
      split at hacc
      · cases hacc
      · rename_i hsum
        have hsum : x + y = 16 := by simpa using hsum
        injection hacc with hv
        subst hv
        have hx16 := fp_bits_lt X x hx
        have hV : (be32toh_bytes (bytes_mem [b0, b1]) >>> 16) &&& 0xffff = b0 * 256 + b1 := by
          rw [be32toh_top16]
          simp [bytes_mem, Nat.mod_eq_of_lt hb0, Nat.mod_eq_of_lt hb1]
        have hVlt : b0 * 256 + b1 < 65536 := by omega
        refine ⟨rfl, hsum, ?_, ?_⟩
        · simp only [decode, hV]
          apply int32_t_cast_of_lt
          have : (b0 * 256 + b1) >>> y ≤ b0 * 256 + b1 := by
            rw [Nat.shiftRight_eq_div_pow]
            exact Nat.div_le_self _ _
          omega
        · simp only [decode, hV, uint16_t_cast]
          rw [mask_eq x (by omega)]
          apply Nat.mod_eq_of_lt
          have : (b0 * 256 + b1) &&& ((1 <<< (16 - x)) - 1) ≤ b0 * 256 + b1 := Nat.and_le_left
          omega

/-- C1, the instance of the claim: `fpe2` is accepted with 14 integer and 2
fraction bits, and the raw value `0x0302` decodes to 192 and 2. -/
theorem fp_decode_unsigned_fpe2 :
    validate_type (snprintf zero_buffer KEYBUFSIZE ['f', 'p', 'e', '2']) output_format.dec
      = Except.ok ⟨smctype.fp, 2, some "%d.%u", 14, 2⟩ ∧
    (0x03 : Nat) < 256 ∧ (0x02 : Nat) < 256 ∧
    (decode smctype.fp output_format.dec 14 2 (be32toh_bytes (bytes_mem [0x03, 0x02]))).fp_int
      = 192 ∧
    (decode smctype.fp output_format.dec 14 2
      (be32toh_bytes (bytes_mem [0x03, 0x02]))).fp_fraction = 2 := by
  have h : validate_type (snprintf zero_buffer KEYBUFSIZE ['f', 'p', 'e', '2'])
      output_format.dec = Except.ok ⟨smctype.fp, 2, some "%d.%u", 14, 2⟩ := by
    have e1 : fp_bits 'e' = some 14 := by decide
    have e2 : fp_bits '2' = some 2 := by decide
    rw [validate_type_fp, e1, e2]
    rfl
  have t := fp_decode_unsigned 'e' '2' output_format.dec _ 0x03 0x02 h (by decide) (by decide)
  exact ⟨h, by decide, by decide, t.2.2.1, t.2.2.2⟩

theorem clear_bit15 (V : Nat) (h : V < 65536) :
    V &&& (0xffffffff - (1 <<< 15)) = V &&& 0x7fff := by
  have h1 : V &&& 0xffff = V := Nat.and_pow_two_sub_one_of_lt_two_pow (n := 16) h
  calc V &&& (0xffffffff - (1 <<< 15))
      = (V &&& 0xffff) &&& (0xffffffff - (1 <<< 15)) := by rw [h1]
    _ = V &&& (0xffff &&& (0xffffffff - (1 <<< 15))) := Nat.and_assoc _ _ _
    _ = V &&& 0x7fff := rfl

theorem sign_bit_eq (V : Nat) : decide (((V >>> 15) &&& 1) = 1) = V.testBit 15 := by
  rw [Nat.testBit_to_div_mod, Nat.and_one_is_mod, Nat.shiftRight_eq_div_pow]

theorem int32_t_cast_neg_of_lt (n : Nat) (h : n < 2147483648) :
    int32_t_cast ((n : Int) * -1) = -(n : Int) := by
  unfold int32_t_cast
  split <;> omega

theorem int8_t_cast_of_lt (n : Nat) (h : n < 256) :
    int8_t_cast (n : Int) = if n < 128 then (n : Int) else (n : Int) - 256 := by
  unfold int8_t_cast
  have h1 : ((n : Int)) % 256 = n := by omega
  rw [h1]
  split <;> split <;> omega

theorem int16_t_cast_of_lt (n : Nat) (h : n < 65536) :
    int16_t_cast (n : Int) = if n < 32768 then (n : Int) else (n : Int) - 65536 := by
  unfold int16_t_cast
  have h1 : ((n : Int)) % 65536 = n := by omega
  rw [h1]
  split <;> split <;> omega

/-- Showing with `%d` what was stored into the `uint32_t` from a 32-bit signed
value gives that value back. -/
theorem printf_d_uint32_t_cast (i : Int) (h1 : -2147483648 ≤ i) (h2 : i < 2147483648) :
    printf_d (uint32_t_cast i) = i := by
  unfold printf_d uint32_t_cast int32_t_cast
  have e : ((i % 4294967296).toNat : Int) = i % 4294967296 :=
    Int.toNat_of_nonneg (by omega)
  rw [e]
  split <;> omega

theorem be32toh_top8 (buffer : Nat → Nat) :
    (be32toh_bytes buffer >>> 24) &&& 0xff = buffer 0 % 256 := by
  rw [be32toh_bytes_eq, and_0xff, Nat.shiftRight_eq_div_pow]
  have hA := Nat.mod_lt (buffer 0) (show 256 > 0 by decide)
  have hB := Nat.mod_lt (buffer 1) (show 256 > 0 by decide)
  have hC := Nat.mod_lt (buffer 2) (show 256 > 0 by decide)
  have hD := Nat.mod_lt (buffer 3) (show 256 > 0 by decide)
  omega

/-- C2 (signed fixed-point decoding).  For every accepted type name `spXY` and
every 16-bit big-endian raw value `V = b0 * 256 + b1`, with `W` being `V`
with bit 15 cleared: the bit counts stored satisfy `intb + fracb = 15`,
`fp_fraction = W & ((1 << (16 - intb)) - 1)` whatever the sign bit, and
`fp_int` is `W >> fracb` when bit 15 of `V` is clear and `-(W >> fracb)` when
it is set.  The instance `sp78`, `V = 0x8140` is `sp_decode_signed_sp78`. -/
theorem sp_decode_signed (X Y : Char) (of : output_format) (v : TypeVars) (b0 b1 : Nat)
    (hacc : validate_type (snprintf zero_buffer KEYBUFSIZE ['s', 'p', X, Y]) of = Except.ok v)
    (hb0 : b0 < 256) (hb1 : b1 < 256) :
    v.type = smctype.sp ∧ v.fp_int_bits + v.fp_fraction_bits = 15 ∧
    (decode v.type of v.fp_int_bits v.fp_fraction_bits
        (be32toh_bytes (bytes_mem [b0, b1]))).fp_fraction
      = ((b0 * 256 + b1) &&& 0x7fff) &&& ((1 <<< (16 - v.fp_int_bits)) - 1) ∧
    ((b0 * 256 + b1).testBit 15 = false →
      (decode v.type of v.fp_int_bits v.fp_fraction_bits
          (be32toh_bytes (bytes_mem [b0, b1]))).fp_int
        = ((((b0 * 256 + b1) &&& 0x7fff) >>> v.fp_fraction_bits : Nat) : Int)) ∧
    ((b0 * 256 + b1).testBit 15 = true →
      (decode v.type of v.fp_int_bits v.fp_fraction_bits
          (be32toh_bytes (bytes_mem [b0, b1]))).fp_int
        = -((((b0 * 256 + b1) &&& 0x7fff) >>> v.fp_fraction_bits : Nat) : Int)) := by
  rw [validate_type_sp] at hacc
  cases hx : fp_bits X with
  | none => simp [hx] at hacc
  | some x =>
    cases hy : fp_bits Y with
    | none => simp [hx, hy] at hacc
    | some y =>
      simp only [hx, hy] at hacc
      split at hacc
      · cases hacc
      · rename_i hsum
        have hsum : x + y = 15 := by simpa using hsum
        injection hacc with hv
        subst hv
        have hV : (be32toh_bytes (bytes_mem [b0, b1]) >>> 16) &&& 0xffff = b0 * 256 + b1 := by
          rw [be32toh_top16]
          simp [bytes_mem, Nat.mod_eq_of_lt hb0, Nat.mod_eq_of_lt hb1]
        have hVlt : b0 * 256 + b1 < 65536 := by omega
        have hW : (b0 * 256 + b1) &&& 0x7fff ≤ b0 * 256 + b1 := Nat.and_le_left
        have hsh : ((b0 * 256 + b1) &&& 0x7fff) >>> y ≤ (b0 * 256 + b1) &&& 0x7fff := by
          rw [Nat.shiftRight_eq_div_pow]
          exact Nat.div_le_self _ _
        refine ⟨rfl, hsum, ?_, ?_, ?_⟩
        · simp only [decode, hV, uint16_t_cast, clear_bit15 _ hVlt]
          rw [mask_eq x (by omega)]
          apply Nat.mod_eq_of_lt
          have : ((b0 * 256 + b1) &&& 0x7fff) &&& ((1 <<< (16 - x)) - 1)
              ≤ (b0 * 256 + b1) &&& 0x7fff := Nat.and_le_left
          omega
        · intro hbit
          simp only [decode, hV, clear_bit15 _ hVlt, sign_bit_eq, hbit, Bool.false_eq_true,
            if_false]
          exact int32_t_cast_of_lt _ (by omega)
        · intro hbit
          simp only [decode, hV, clear_bit15 _ hVlt, sign_bit_eq, hbit, if_true]
          rw [int32_t_cast_of_lt _ (by omega)]
          exact int32_t_cast_neg_of_lt _ (by omega)

/-- C2, the instance of the claim: `sp78` is accepted with 7 integer and 8
fraction bits, and the raw value `0x8140` decodes to `-1` and `320`. -/
theorem sp_decode_signed_sp78 :
    validate_type (snprintf zero_buffer KEYBUFSIZE ['s', 'p', '7', '8']) output_format.dec
      = Except.ok ⟨smctype.sp, 2, some "%d.%u", 7, 8⟩ ∧
    (0x81 : Nat) < 256 ∧ (0x40 : Nat) < 256 ∧
    (decode smctype.sp output_format.dec 7 8 (be32toh_bytes (bytes_mem [0x81, 0x40]))).fp_int
      = -1 ∧
    (decode smctype.sp output_format.dec 7 8
      (be32toh_bytes (bytes_mem [0x81, 0x40]))).fp_fraction = 320 := by
  have h : validate_type (snprintf zero_buffer KEYBUFSIZE ['s', 'p', '7', '8'])
      output_format.dec = Except.ok ⟨smctype.sp, 2, some "%d.%u", 7, 8⟩ := by
    have e1 : fp_bits '7' = some 7 := by decide
    have e2 : fp_bits '8' = some 8 := by decide
    rw [validate_type_sp, e1, e2]
    rfl
  have t := sp_decode_signed '7' '8' output_format.dec _ 0x81 0x40 h (by decide) (by decide)
  exact ⟨h, by decide, by decide, t.2.2.2.2 (by decide), t.2.2.1⟩

theorem validate_type_literal (name : List Char) (of : output_format) (v : TypeVars)
    (hlen : name.length ≤ 4) (hnn : ∀ c ∈ name, c ≠ NUL)
    (h : validate_type name of = Except.ok v) :
    validate_type (snprintf zero_buffer KEYBUFSIZE name) of = Except.ok v := by
  rw [validate_type_snprintf, cstr_of_no_nul _ hnn, List.take_of_length_le hlen]
  exact h

/-- C3 (signed integers, decimal against hexadecimal).  The names `si8` and
`si16` resolve to the `%d` format for decimal and to `0x%02x` / `0x%04x` for
hexadecimal output.  For `si8` with most-significant raw byte `b0`, what is
printed in decimal is the two's-complement value (`b0` below 128, else
`b0 - 256`), while for hexadecimal the value handed to `printf` is the
unsigned pattern `b0`; for `si16` with raw value `v = b0 * 256 + b1` decimal
shows `v` below 32768 and `v - 65536` otherwise, hexadecimal gets `v`.  The
instance raw byte `0xFF` is `signed_int_decode_ff`. -/
theorem signed_int_decode (b0 b1 : Nat) (hb0 : b0 < 256) (hb1 : b1 < 256) :
    validate_type (snprintf zero_buffer KEYBUFSIZE ['s', 'i', '8']) output_format.dec
      = Except.ok ⟨smctype.si8, 1, some "%d", 0, 0⟩ ∧
    validate_type (snprintf zero_buffer KEYBUFSIZE ['s', 'i', '8']) output_format.hex
      = Except.ok ⟨smctype.si8, 1, some "0x%02x", 0, 0⟩ ∧
    validate_type (snprintf zero_buffer KEYBUFSIZE ['s', 'i', '1', '6']) output_format.dec
      = Except.ok ⟨smctype.si16, 2, some "%d", 0, 0⟩ ∧
    validate_type (snprintf zero_buffer KEYBUFSIZE ['s', 'i', '1', '6']) output_format.hex
      = Except.ok ⟨smctype.si16, 2, some "0x%04x", 0, 0⟩ ∧
    printf_d (decode smctype.si8 output_format.dec 0 0 (be32toh_bytes (bytes_mem [b0]))).buf
      = (if b0 < 128 then (b0 : Int) else (b0 : Int) - 256) ∧
    (decode smctype.si8 output_format.hex 0 0 (be32toh_bytes (bytes_mem [b0]))).buf = b0 ∧
    printf_d (decode smctype.si16 output_format.dec 0 0
        (be32toh_bytes (bytes_mem [b0, b1]))).buf
      = (if b0 * 256 + b1 < 32768 then ((b0 * 256 + b1 : Nat) : Int)
         else ((b0 * 256 + b1 : Nat) : Int) - 65536) ∧
    (decode smctype.si16 output_format.hex 0 0 (be32toh_bytes (bytes_mem [b0, b1]))).buf
      = b0 * 256 + b1 := by
  have h8 : (be32toh_bytes (bytes_mem [b0]) >>> 24) &&& 0xff = b0 := by
    rw [be32toh_top8]
    simp [bytes_mem, Nat.mod_eq_of_lt hb0]
  have h16 : (be32toh_bytes (bytes_mem [b0, b1]) >>> 16) &&& 0xffff = b0 * 256 + b1 := by
    rw [be32toh_top16]
    simp [bytes_mem, Nat.mod_eq_of_lt hb0, Nat.mod_eq_of_lt hb1]
  refine ⟨?_, ?_, ?_, ?_, ?_, ?_, ?_, ?_⟩
  · exact validate_type_literal _ _ _ (by decide) (by decide) rfl
  · exact validate_type_literal _ _ _ (by decide) (by decide) rfl
  · exact validate_type_literal _ _ _ (by decide) (by decide) rfl
  · exact validate_type_literal _ _ _ (by decide) (by decide) rfl
  · simp only [decode, h8, if_true]
    rw [int8_t_cast_of_lt _ hb0]
    apply printf_d_uint32_t_cast <;> split <;> omega
  · simp [decode, h8]
  · simp only [decode, h16, if_true]
    rw [int16_t_cast_of_lt _ (by omega)]
    apply printf_d_uint32_t_cast <;> split <;> omega
  · simp [decode, h16]

/-- C3, the instance of the claim: for `si8` the raw byte `0xFF` is shown as
`-1` in decimal and handed to `0x%02x` as `0xff` in hexadecimal. -/
theorem signed_int_decode_ff :
    (0xff : Nat) < 256 ∧ (0x00 : Nat) < 256 ∧
    printf_d (decode smctype.si8 output_format.dec 0 0 (be32toh_bytes (bytes_mem [0xff]))).buf
      = -1 ∧
    (decode smctype.si8 output_format.hex 0 0 (be32toh_bytes (bytes_mem [0xff]))).buf
      = 0xff := by
  have t := signed_int_decode 0xff 0x00 (by decide) (by decide)
  exact ⟨by decide, by decide, t.2.2.2.2.1, t.2.2.2.2.2.1⟩

/-! ### Rejection in `main` -/

theorem fp_bits_hex_digit (x : Nat) (hx : x < 16) : fp_bits (hex_digit x) = some x := by
  interval_cases x <;> decide

/-- A type name that validation refuses makes `main` exit with status 1 after a
single message on `stderr`, whatever the other inputs are. -/
theorem main_rejects_type (karg targ : List Char) (of : output_format) (euid : Nat)
    (io : Option (List Char)) (hw : Hw) (e : String × List Arg)
    (h : validate_type (snprintf zero_buffer KEYBUFSIZE targ) of = Except.error e) :
    ∃ fmt args, main karg targ of euid io hw = (Outcome.exit 1, fprintf_stderr fmt args hw) := by
  unfold main
  simp only []
  split
  · exact ⟨_, _, rfl⟩
  · rw [h]
    exact ⟨_, _, rfl⟩

/-- C4 (fixed-point type validation).  For lowercase hexadecimal digits `X`,
`Y` of values `x`, `y` below 16: the name `fpXY` is accepted iff `x + y = 16`
and `spXY` iff `x + y = 15`; an accepted name sets type, length 2,
integer bits `x` and fraction bits `y`; a name that is not accepted makes `main`
exit with status 1 after one message on `stderr`, the ports untouched. -/
theorem fixed_point_validation (x y : Nat) (hx : x < 16) (hy : y < 16) (of : output_format) :
    ((∃ v, validate_type (snprintf zero_buffer KEYBUFSIZE ['f', 'p', hex_digit x, hex_digit y])
        of = Except.ok v) ↔ x + y = 16) ∧
    ((∃ v, validate_type (snprintf zero_buffer KEYBUFSIZE ['s', 'p', hex_digit x, hex_digit y])
        of = Except.ok v) ↔ x + y = 15) ∧
    (∀ v, validate_type (snprintf zero_buffer KEYBUFSIZE ['f', 'p', hex_digit x, hex_digit y])
        of = Except.ok v → v = ⟨smctype.fp, 2, some "%d.%u", x, y⟩) ∧
    (∀ v, validate_type (snprintf zero_buffer KEYBUFSIZE ['s', 'p', hex_digit x, hex_digit y])
        of = Except.ok v → v = ⟨smctype.sp, 2, some "%d.%u", x, y⟩) ∧
    (x + y ≠ 16 → ∀ karg euid io hw, ∃ fmt args,
      main karg ['f', 'p', hex_digit x, hex_digit y] of euid io hw
        = (Outcome.exit 1, ⟨hw.input, hw.trace ++ [Event.stderr fmt args]⟩)) ∧
    (x + y ≠ 15 → ∀ karg euid io hw, ∃ fmt args,
      main karg ['s', 'p', hex_digit x, hex_digit y] of euid io hw
        = (Outcome.exit 1, ⟨hw.input, hw.trace ++ [Event.stderr fmt args]⟩)) := by
  have hf : validate_type (snprintf zero_buffer KEYBUFSIZE ['f', 'p', hex_digit x, hex_digit y])
      of = if x + y ≠ 16 then Except.error ("Invalid unsigned fixed point data type.\n", [])
        else Except.ok ⟨smctype.fp, 2, some "%d.%u", x, y⟩ := by
    rw [validate_type_fp, fp_bits_hex_digit x hx, fp_bits_hex_digit y hy]
  have hs : validate_type (snprintf zero_buffer KEYBUFSIZE ['s', 'p', hex_digit x, hex_digit y])
      of = if x + y ≠ 15 then Except.error ("Invalid signed fixed point data type.\n", [])
        else Except.ok ⟨smctype.sp, 2, some "%d.%u", x, y⟩ := by
    rw [validate_type_sp, fp_bits_hex_digit x hx, fp_bits_hex_digit y hy]
  refine ⟨?_, ?_, ?_, ?_, ?_, ?_⟩
  · rw [hf]
    by_cases h : x + y = 16 <;> simp [h]
  · rw [hs]
    by_cases h : x + y = 15 <;> simp [h]
  · intro v hv
    rw [hf] at hv
    by_cases h : x + y = 16
    · simp only [h, ne_eq, not_true_eq_false, if_false] at hv
      injection hv with hv
      exact hv.symm
    · simp [h] at hv
  · intro v hv
    rw [hs] at hv
    by_cases h : x + y = 15
    · simp only [h, ne_eq, not_true_eq_false, if_false] at hv
      injection hv with hv
      exact hv.symm
    · simp [h] at hv
  · intro h karg euid io hw
    rw [if_pos h] at hf
    exact main_rejects_type karg _ of euid io hw _ hf
  · intro h karg euid io hw
    rw [if_pos h] at hs
    exact main_rejects_type karg _ of euid io hw _ hs

/-- C4 at the digits `e` and `2`: `fpe2` is accepted (14 + 2 = 16) while
`spe2` is refused before any port access. -/
theorem fixed_point_validation_e2 :
    (14 : Nat) < 16 ∧ (2 : Nat) < 16 ∧
    (∃ v, validate_type (snprintf zero_buffer KEYBUFSIZE ['f', 'p', 'e', '2'])
        output_format.dec = Except.ok v) ∧
    ¬ (∃ v, validate_type (snprintf zero_buffer KEYBUFSIZE ['s', 'p', 'e', '2'])
        output_format.dec = Except.ok v) := by
  have t := fixed_point_validation 14 2 (by decide) (by decide) output_format.dec
  exact ⟨by decide, by decide, t.1.mpr (by decide), fun h => absurd (t.2.1.mp h) (by decide)⟩

/-! ### The polling loops -/

theorem wait_read_loop_eq_iter (n us : Nat) (hus : 0 < us) (h : us * 2 ^ n = APPLESMC_MAX_WAIT)
    (status : Nat) (hw : Hw) :
    wait_read_loop us hus status hw = wait_read_iter n us status hw := by
  induction n generalizing us status hw with
  | zero =>
    rw [wait_read_loop, wait_read_iter]
    have : ¬ us < APPLESMC_MAX_WAIT := by simp at h; omega
    rw [dif_neg this]
  | succ n ih =>
    rw [wait_read_loop, wait_read_iter]
    have hlt : us < APPLESMC_MAX_WAIT := by
      have h2 : 0 < 2 ^ n := Nat.two_pow_pos n
      have e : us * 2 ^ (n + 1) = us * 2 ^ n + us * 2 ^ n := by rw [Nat.pow_succ]; ring
      have h3 : us ≤ us * 2 ^ n := Nat.le_mul_of_pos_right us h2
      omega
    rw [dif_pos hlt]
    have hnext : us <<< 1 * 2 ^ n = APPLESMC_MAX_WAIT := by
      rw [Nat.shiftLeft_eq, ← h, Nat.pow_succ]; ring
    have hpos : 0 < us <<< 1 := by rw [Nat.shiftLeft_eq]; omega
    simp only [ih (us <<< 1) hpos hnext]

theorem wait_read_eq_iter (hw : Hw) :
    wait_read hw = wait_read_iter 13 APPLESMC_MIN_WAIT 0 hw :=
  wait_read_loop_eq_iter 13 _ _ (by decide) 0 hw

theorem send_byte_loop_eq_iter (cmd port n us : Nat) (hus : 0 < us)
    (h : us * 2 ^ n = APPLESMC_MAX_WAIT) (status : Nat) (hw : Hw) :
    send_byte_loop cmd port us hus status hw = send_byte_iter cmd port n us status hw := by
  induction n generalizing us status hw with
  | zero =>
    rw [send_byte_loop, send_byte_iter]
    have : ¬ us < APPLESMC_MAX_WAIT := by simp at h; omega
    rw [dif_neg this]
  | succ n ih =>
    rw [send_byte_loop, send_byte_iter]
    have hlt : us < APPLESMC_MAX_WAIT := by
      have h2 : 0 < 2 ^ n := Nat.two_pow_pos n
      have e : us * 2 ^ (n + 1) = us * 2 ^ n + us * 2 ^ n := by rw [Nat.pow_succ]; ring
      have h3 : us ≤ us * 2 ^ n := Nat.le_mul_of_pos_right us h2
      omega
    rw [dif_pos hlt]
    have hnext : us <<< 1 * 2 ^ n = APPLESMC_MAX_WAIT := by
      rw [Nat.shiftLeft_eq, ← h, Nat.pow_succ]; ring
    have hpos : 0 < us <<< 1 := by rw [Nat.shiftLeft_eq]; omega
    simp only [ih (us <<< 1) hpos hnext]

theorem send_byte_eq_iter (cmd port : Nat) (hw : Hw) :
    send_byte cmd port hw
      = send_byte_iter cmd port 13 APPLESMC_MIN_WAIT 0 (outb cmd port hw) :=
  send_byte_loop_eq_iter cmd port 13 _ _ (by decide) 0 _


theorem skip_skip_one (k : Nat) (input : Nat → Nat) :
    skip k (skip 1 input) = skip (k + 1) input := rfl

theorem poll_trace_front (us : Nat) (input : Nat → Nat) (k : Nat) :
    poll_trace us input (k + 1)
      = Event.usleep us :: Event.inb APPLESMC_CMD_PORT (input 0 % 256)
        :: poll_trace (us <<< 1) (skip 1 input) k := by
  induction k with
  | zero => simp [poll_trace]
  | succ k ih =>
    have e : us <<< (k + 1) = us <<< 1 <<< k := by
      rw [Nat.add_comm, Nat.shiftLeft_add]
    rw [poll_trace, ih, e]
    rfl

/-- The loop of `wait_read` when the first status with bit 0 set is the one with
index `k`. -/
theorem wait_read_iter_ready (n us status : Nat) (hw : Hw) (k : Nat) (hk : k < n)
    (hnot : ∀ j, j < k → hw.input j % 256 &&& 0x01 = 0)
    (hr : hw.input k % 256 &&& 0x01 ≠ 0) :
    wait_read_iter n us status hw
      = (0, ⟨skip (k + 1) hw.input, hw.trace ++ poll_trace us hw.input (k + 1)⟩) := by
  induction n generalizing us status hw k with
  | zero => omega
  | succ n ih =>
    rw [wait_read_iter]
    cases k with
    | zero =>
      simp only [inb, usleep]
      rw [if_pos hr]
      simp only [poll_trace, List.nil_append, Nat.shiftLeft_zero, List.append_assoc,
        List.cons_append]
      rfl
    | succ k =>
      have h0 : hw.input 0 % 256 &&& 0x01 = 0 := hnot 0 (by omega)
      simp only [inb, usleep]
      rw [if_neg (by simpa using h0)]
      rw [ih (us <<< 1) _ _ k (by omega) (fun j hj => hnot (j + 1) (by omega)) hr]
      rw [poll_trace_front us hw.input (k + 1)]
      simp only [List.append_assoc, List.cons_append, List.nil_append]
      rfl

/-- The loop of `wait_read` when none of the `n` polls left sees bit 0 set. -/
theorem wait_read_iter_timeout (n us status : Nat) (hw : Hw)
    (hnot : ∀ j, j < n → hw.input j % 256 &&& 0x01 = 0) :
    wait_read_iter n us status hw
      = wait_read_fail (if n = 0 then status else hw.input (n - 1) % 256)
          ⟨skip n hw.input, hw.trace ++ poll_trace us hw.input n⟩ := by
  induction n generalizing us status hw with
  | zero =>
    simp only [wait_read_iter, poll_trace, List.append_nil, if_true]
    rfl
  | succ n ih =>
    rw [wait_read_iter]
    have h0 : hw.input 0 % 256 &&& 0x01 = 0 := hnot 0 (by omega)
    simp only [inb, usleep]
    rw [if_neg (by simpa using h0)]
    rw [ih (us <<< 1) _ _ (fun j hj => hnot (j + 1) (by omega))]
    rw [poll_trace_front us hw.input n]
    cases n with
    | zero =>
      simp only [poll_trace, List.append_nil, List.append_assoc, List.cons_append,
        List.nil_append]
      rfl
    | succ n =>
      simp only [List.append_assoc, List.cons_append, List.nil_append]
      rfl

theorem wait_read_iter_ret (n us status : Nat) (hw : Hw) :
    (wait_read_iter n us status hw).1 = 0 ∨ (wait_read_iter n us status hw).1 = - EIO_errno := by
  induction n generalizing us status hw with
  | zero => right; rfl
  | succ n ih =>
    rw [wait_read_iter]
    by_cases c : (inb APPLESMC_CMD_PORT (usleep us hw)).1 &&& 0x01 ≠ 0
    · left
      simp only [if_pos c]
    · simp only [if_neg c]
      exact ih _ _ _

/-- A stream either shows bit 0 within its first `n` bytes, at a first index
`k`, or not at all. -/
theorem first_ready (input : Nat → Nat) (n : Nat) :
    (∃ k, k < n ∧ (∀ j, j < k → input j % 256 &&& 0x01 = 0) ∧ input k % 256 &&& 0x01 ≠ 0)
      ∨ (∀ j, j < n → input j % 256 &&& 0x01 = 0) := by
  induction n with
  | zero => right; intro j hj; omega
  | succ n ih =>
    rcases ih with ⟨k, hk, h1, h2⟩ | h
    · exact Or.inl ⟨k, by omega, h1, h2⟩
    · by_cases hn : input n % 256 &&& 0x01 = 0
      · right
        intro j hj
        by_cases e : j = n
        · subst e; exact hn
        · exact h j (by omega)
      · exact Or.inl ⟨n, by omega, h, hn⟩

/-- C7 (`wait_read` terminates within 13 polls).  For every machine state:
if the first status byte with bit 0 set is the `k`-th coming one, `k < 13`,
`wait_read` returns 0 after exactly `k + 1` polls (sleeps of 16, 32, ...
microseconds, one status read after each) and consumes nothing further; if
none of the 13 coming status bytes has bit 0 set it returns `-EIO` after
exactly 13 polls (the last sleep being 65536 microseconds) and one
diagnostic; it returns 0 iff some poll among the 13 shows bit 0, and `-EIO`
iff none does. -/
theorem wait_read_terminates (hw : Hw) :
    (∀ k, k < 13 → (∀ j, j < k → hw.input j % 256 &&& 0x01 = 0) →
        hw.input k % 256 &&& 0x01 ≠ 0 →
        wait_read hw
          = (0, ⟨skip (k + 1) hw.input,
                 hw.trace ++ poll_trace APPLESMC_MIN_WAIT hw.input (k + 1)⟩)) ∧
    ((∀ j, j < 13 → hw.input j % 256 &&& 0x01 = 0) →
        wait_read hw
          = (- EIO_errno, ⟨skip 13 hw.input,
                 hw.trace ++ poll_trace APPLESMC_MIN_WAIT hw.input 13
                   ++ [Event.stderr "%s() fail: 0x%02x\n"
                        [Arg.str "wait_read".toList, Arg.num ((hw.input 12 % 256 : Nat) : Int)]]⟩)) ∧
    ((wait_read hw).1 = 0 ↔ ∃ k, k < 13 ∧ hw.input k % 256 &&& 0x01 ≠ 0) ∧
    ((wait_read hw).1 = - EIO_errno ↔ ∀ j, j < 13 → hw.input j % 256 &&& 0x01 = 0) ∧
    APPLESMC_MIN_WAIT <<< 12 = 65536 ∧ APPLESMC_MIN_WAIT <<< 13 = APPLESMC_MAX_WAIT := by
  have hA : ∀ k, k < 13 → (∀ j, j < k → hw.input j % 256 &&& 0x01 = 0) →
      hw.input k % 256 &&& 0x01 ≠ 0 →
      wait_read hw = (0, ⟨skip (k + 1) hw.input,
        hw.trace ++ poll_trace APPLESMC_MIN_WAIT hw.input (k + 1)⟩) := by
    intro k hk hnot hr
    rw [wait_read_eq_iter]
    exact wait_read_iter_ready 13 _ _ hw k hk hnot hr
  have hB : (∀ j, j < 13 → hw.input j % 256 &&& 0x01 = 0) →
      wait_read hw = (- EIO_errno, ⟨skip 13 hw.input,
        hw.trace ++ poll_trace APPLESMC_MIN_WAIT hw.input 13
          ++ [Event.stderr "%s() fail: 0x%02x\n"
                [Arg.str "wait_read".toList, Arg.num ((hw.input 12 % 256 : Nat) : Int)]]⟩) := by
    intro hnot
    rw [wait_read_eq_iter, wait_read_iter_timeout 13 _ _ hw hnot]
    rfl
  refine ⟨hA, hB, ?_, ?_, by decide, by decide⟩
  · constructor
    · intro h0
      rcases first_ready hw.input 13 with ⟨k, hk, _, h2⟩ | h
      · exact ⟨k, hk, h2⟩
      · rw [hB h] at h0
        simp at h0
    · rintro ⟨k, hk, hr⟩
      rcases first_ready hw.input 13 with ⟨k', hk', h1, h2⟩ | h
      · rw [hA k' hk' h1 h2]
      · exact absurd (h k hk) hr
  · constructor
    · intro h0
      rcases first_ready hw.input 13 with ⟨k, hk, h1, h2⟩ | h
      · rw [hA k hk h1 h2] at h0
        simp at h0
      · exact h
    · intro h
      rw [hB h]

theorem inb_usleep (port us : Nat) (hw : Hw) :
    inb port (usleep us hw)
      = (hw.input 0 % 256,
         ⟨skip 1 hw.input, hw.trace ++ [Event.usleep us, Event.inb port (hw.input 0 % 256)]⟩) := by
  simp only [inb, usleep, List.append_assoc, List.cons_append, List.nil_append]
  rfl

theorem outb_usleep (cmd port us : Nat) (hw : Hw) :
    outb cmd port (usleep us hw)
      = ⟨hw.input, hw.trace ++ [Event.usleep us, Event.outb cmd port]⟩ := by
  simp only [outb, usleep, List.append_assoc, List.cons_append, List.nil_append]

theorem send_byte_iter_ret (cmd port n us status : Nat) (hw : Hw) :
    (send_byte_iter cmd port n us status hw).1 = 0
      ∨ (send_byte_iter cmd port n us status hw).1 = - EIO_errno := by
  induction n generalizing us status hw with
  | zero => right; rfl
  | succ n ih =>
    rw [send_byte_iter]
    simp only []
    split
    · exact ih _ _ _
    · split
      · left; rfl
      · split
        · right; rfl
        · exact ih _ _ _

/-- The loop of `send_byte` succeeds iff one of the polls left shows bit 0x04 set
with bit 0x02 clear. -/
theorem send_byte_iter_ok_iff (cmd port n us status : Nat) (hw : Hw)
    (h : us * 2 ^ n = APPLESMC_MAX_WAIT) :
    (send_byte_iter cmd port n us status hw).1 = 0
      ↔ ∃ k, k < n ∧ hw.input k % 256 &&& 0x04 ≠ 0 ∧ hw.input k % 256 &&& 0x02 = 0 := by
  induction n generalizing us status hw with
  | zero =>
    constructor
    · intro h0
      simp [send_byte_iter, send_byte_fail] at h0
    · rintro ⟨k, hk, _⟩
      omega
  | succ n ih =>
    have hnext : us <<< 1 * 2 ^ n = APPLESMC_MAX_WAIT := by
      rw [Nat.shiftLeft_eq, ← h, Nat.pow_succ]; ring
    have shift : ∀ (P : Nat → Prop), ¬ P 0 →
        ((∃ k, k < n + 1 ∧ P k) ↔ ∃ k, k < n ∧ P (k + 1)) := by
      intro P h0
      constructor
      · rintro ⟨k, hk, hP⟩
        cases k with
        | zero => exact absurd hP h0
        | succ k => exact ⟨k, by omega, hP⟩
      · rintro ⟨k, hk, hP⟩
        exact ⟨k + 1, by omega, hP⟩
    rw [send_byte_iter]
    simp only [inb_usleep, outb_usleep]
    by_cases c2 : hw.input 0 % 256 &&& 0x02 ≠ 0
    · rw [if_pos c2, ih _ _ _ hnext]
      rw [shift (fun k => hw.input k % 256 &&& 0x04 ≠ 0 ∧ hw.input k % 256 &&& 0x02 = 0)
        (fun hP => c2 hP.2)]
      rfl
    · rw [if_neg c2]
      by_cases c4 : hw.input 0 % 256 &&& 0x04 ≠ 0
      · rw [if_pos c4]
        constructor
        · intro _
          exact ⟨0, by omega, c4, by simpa using c2⟩
        · intro _
          rfl
      · rw [if_neg c4]
        by_cases cm : us <<< 1 = APPLESMC_MAX_WAIT
        · rw [if_pos cm]
          have hn : n = 0 := by
            rw [cm] at hnext
            have : (2 : Nat) ^ n = 1 := by
              have hpos : 0 < APPLESMC_MAX_WAIT := by decide
              exact Nat.eq_of_mul_eq_mul_left hpos (by rw [hnext, Nat.mul_one])
            cases n with
            | zero => rfl
            | succ m =>
              rw [Nat.pow_succ] at this
              omega
          subst hn
          constructor
          · intro h0
            simp [send_byte_fail] at h0
          · rintro ⟨k, hk, hP4, _⟩
            have : k = 0 := by omega
            subst this
            exact absurd hP4 c4
        · rw [if_neg cm, ih _ _ _ hnext]
          rw [shift (fun k => hw.input k % 256 &&& 0x04 ≠ 0 ∧ hw.input k % 256 &&& 0x02 = 0)
            (fun hP => c4 hP.1)]
          rfl

/-- C8 (`send_byte`, poll by poll).  `send_byte` first writes the byte and
enters the loop at 16 microseconds.  At a poll with interval `us` below the
ceiling and status `s` (the next input byte): with bit 0x02 set the loop goes
on at the doubled interval without writing, also when bit 0x04 is set;
otherwise with bit 0x04 set it returns 0; otherwise, when the doubled
interval is the ceiling, it returns `-EIO` after its diagnostic; otherwise
it sleeps `APPLESMC_RETRY_WAIT` (256), writes the same byte to the same
port and goes on at the doubled interval.  At the ceiling the loop ends with
`-EIO`.  Hence `send_byte` returns 0 iff one of the 13 coming status bytes
has bit 0x04 set and bit 0x02 clear, and `-EIO` otherwise. -/
theorem send_byte_polls (cmd port : Nat) (hw : Hw) :
    send_byte cmd port hw
      = send_byte_loop cmd port APPLESMC_MIN_WAIT (by decide) 0
          ⟨hw.input, hw.trace ++ [Event.outb cmd port]⟩ ∧
    (∀ (us : Nat) (hus : 0 < us) (hus2 : 0 < us <<< 1) (st : Nat) (h : Hw),
      us < APPLESMC_MAX_WAIT →
      (h.input 0 % 256 &&& 0x02 ≠ 0 →
        send_byte_loop cmd port us hus st h
          = send_byte_loop cmd port (us <<< 1) hus2 (h.input 0 % 256)
              ⟨skip 1 h.input,
               h.trace ++ [Event.usleep us, Event.inb APPLESMC_CMD_PORT (h.input 0 % 256)]⟩) ∧
      (h.input 0 % 256 &&& 0x02 = 0 → h.input 0 % 256 &&& 0x04 ≠ 0 →
        send_byte_loop cmd port us hus st h
          = (0, ⟨skip 1 h.input,
               h.trace ++ [Event.usleep us, Event.inb APPLESMC_CMD_PORT (h.input 0 % 256)]⟩)) ∧
      (h.input 0 % 256 &&& 0x02 = 0 → h.input 0 % 256 &&& 0x04 = 0 →
        us <<< 1 = APPLESMC_MAX_WAIT →
        send_byte_loop cmd port us hus st h
          = (- EIO_errno, ⟨skip 1 h.input,
               h.trace ++ [Event.usleep us, Event.inb APPLESMC_CMD_PORT (h.input 0 % 256),
                 Event.stderr "%s(0x%02x, 0x%04x) fail: 0x%02x\n"
                   [Arg.str "send_byte".toList, Arg.num cmd, Arg.num port,
                    Arg.num ((h.input 0 % 256 : Nat) : Int)]]⟩)) ∧
      (h.input 0 % 256 &&& 0x02 = 0 → h.input 0 % 256 &&& 0x04 = 0 →
        us <<< 1 ≠ APPLESMC_MAX_WAIT →
        send_byte_loop cmd port us hus st h
          = send_byte_loop cmd port (us <<< 1) hus2 (h.input 0 % 256)
              ⟨skip 1 h.input,
               h.trace ++ [Event.usleep us, Event.inb APPLESMC_CMD_PORT (h.input 0 % 256),
                 Event.usleep APPLESMC_RETRY_WAIT, Event.outb cmd port]⟩)) ∧
    (∀ (us : Nat) (hus : 0 < us) (st : Nat) (h : Hw), ¬ us < APPLESMC_MAX_WAIT →
      send_byte_loop cmd port us hus st h
        = (- EIO_errno, ⟨h.input,
             h.trace ++ [Event.stderr "%s(0x%02x, 0x%04x) fail: 0x%02x\n"
               [Arg.str "send_byte".toList, Arg.num cmd, Arg.num port, Arg.num st]]⟩)) ∧
    APPLESMC_RETRY_WAIT = 256 ∧ APPLESMC_MIN_WAIT <<< 13 = APPLESMC_MAX_WAIT ∧
    ((send_byte cmd port hw).1 = 0
      ↔ ∃ k, k < 13 ∧ hw.input k % 256 &&& 0x04 ≠ 0 ∧ hw.input k % 256 &&& 0x02 = 0) ∧
    ((send_byte cmd port hw).1 = - EIO_errno
      ↔ ¬ ∃ k, k < 13 ∧ hw.input k % 256 &&& 0x04 ≠ 0 ∧ hw.input k % 256 &&& 0x02 = 0) := by
  have hiff : (send_byte cmd port hw).1 = 0
      ↔ ∃ k, k < 13 ∧ hw.input k % 256 &&& 0x04 ≠ 0 ∧ hw.input k % 256 &&& 0x02 = 0 := by
    rw [send_byte_eq_iter]
    exact send_byte_iter_ok_iff cmd port 13 _ _ _ (by decide)
  refine ⟨rfl, ?_, ?_, rfl, by decide, hiff, ?_⟩
  · intro us hus hus2 st h hlt
    refine ⟨?_, ?_, ?_, ?_⟩
    · intro c2
      rw [send_byte_loop, dif_pos hlt]
      simp only [inb_usleep]
      rw [if_pos c2]
    · intro c2 c4
      rw [send_byte_loop, dif_pos hlt]
      simp only [inb_usleep]
      rw [if_neg (by simpa using c2), if_pos c4]
    · intro c2 c4 cm
      rw [send_byte_loop, dif_pos hlt]
      simp only [inb_usleep]
      rw [if_neg (by simpa using c2), if_neg (by simpa using c4), if_pos cm]
      simp only [send_byte_fail, fprintf_stderr, List.append_assoc, List.cons_append,
        List.nil_append]
    · intro c2 c4 cm
      rw [send_byte_loop, dif_pos hlt]
      simp only [inb_usleep, outb_usleep]
      rw [if_neg (by simpa using c2), if_neg (by simpa using c4), if_neg cm]
      simp only [List.append_assoc, List.cons_append, List.nil_append]
  · intro us hus st h hge
    rw [send_byte_loop, dif_neg hge]
    rfl
  · rw [← hiff]
    rw [send_byte_eq_iter]
    rcases send_byte_iter_ret cmd port 13 APPLESMC_MIN_WAIT 0 (outb cmd port hw) with h0 | h1
    · rw [h0]; simp
    · rw [h1]; simp

/-! ### Traces of the transport functions -/

theorem port_writes_append (a b : List Event) :
    port_writes (a ++ b) = port_writes a ++ port_writes b := by
  simp [port_writes, List.filterMap_append]

theorem data_reads_append (a b : List Event) :
    data_reads (a ++ b) = data_reads a ++ data_reads b := by
  simp [data_reads, List.filterMap_append]

theorem port_writes_poll_trace (us : Nat) (input : Nat → Nat) (k : Nat) :
    port_writes (poll_trace us input k) = [] := by
  induction k with
  | zero => rfl
  | succ k ih =>
    rw [poll_trace, port_writes_append, ih]
    rfl

theorem data_reads_poll_trace (us : Nat) (input : Nat → Nat) (k : Nat) :
    data_reads (poll_trace us input k) = [] := by
  induction k with
  | zero => rfl
  | succ k ih =>
    rw [poll_trace, data_reads_append, ih]
    rfl

/-- The loop of `send_byte` when the first accepting status is the one with index
`k`: it returns 0 having consumed `k + 1` status bytes; everything it writes
is the byte `cmd` to `port`, and it reads nothing from the data port. -/
theorem send_byte_iter_ok (cmd port n us status : Nat) (hw : Hw) (k : Nat)
    (h : us * 2 ^ n = APPLESMC_MAX_WAIT) (hk : k < n)
    (hacc : hw.input k % 256 &&& 0x02 = 0 ∧ hw.input k % 256 &&& 0x04 ≠ 0)
    (hnot : ∀ j, j < k → ¬ (hw.input j % 256 &&& 0x02 = 0 ∧ hw.input j % 256 &&& 0x04 ≠ 0)) :
    ∃ T m, send_byte_iter cmd port n us status hw
        = (0, ⟨skip (k + 1) hw.input, hw.trace ++ T⟩) ∧
      port_writes T = List.replicate m (cmd, port) ∧ data_reads T = [] := by
  induction n generalizing us status hw k with
  | zero => omega
  | succ n ih =>
    have hnext : us <<< 1 * 2 ^ n = APPLESMC_MAX_WAIT := by
      rw [Nat.shiftLeft_eq, ← h, Nat.pow_succ]; ring
    rw [send_byte_iter]
    simp only [inb_usleep, outb_usleep]
    cases k with
    | zero =>
      rw [if_neg (by simpa using hacc.1), if_pos hacc.2]
      exact ⟨_, 0, rfl, rfl, rfl⟩
    | succ k =>
      have h0 := hnot 0 (by omega)
      by_cases c2 : hw.input 0 % 256 &&& 0x02 ≠ 0
      · rw [if_pos c2]
        obtain ⟨T, m, e, hw1, hd1⟩ := ih (us <<< 1) (hw.input 0 % 256)
          ⟨skip 1 hw.input,
            hw.trace ++ [Event.usleep us, Event.inb APPLESMC_CMD_PORT (hw.input 0 % 256)]⟩
          k hnext (by omega) hacc (fun j hj => hnot (j + 1) (by omega))
        refine ⟨[Event.usleep us, Event.inb APPLESMC_CMD_PORT (hw.input 0 % 256)] ++ T, m,
          ?_, ?_, ?_⟩
        · rw [e]
          simp only [List.append_assoc]
          rfl
        · rw [port_writes_append, hw1]
          rfl
        · rw [data_reads_append, hd1]
          rfl
      · rw [if_neg c2]
        have c4 : ¬ hw.input 0 % 256 &&& 0x04 ≠ 0 := fun c => h0 ⟨by simpa using c2, c⟩
        rw [if_neg c4]
        have cm : ¬ us <<< 1 = APPLESMC_MAX_WAIT := by
          intro cm
          rw [cm] at hnext
          have hpos : 0 < APPLESMC_MAX_WAIT := by decide
          have : (2 : Nat) ^ n = 1 :=
            Nat.eq_of_mul_eq_mul_left hpos (by rw [hnext, Nat.mul_one])
          cases n with
          | zero => omega
          | succ m =>
            rw [Nat.pow_succ] at this
            omega
        rw [if_neg cm]
        obtain ⟨T, m, e, hw1, hd1⟩ := ih (us <<< 1) (hw.input 0 % 256)
          ⟨skip 1 hw.input,
            (hw.trace ++ [Event.usleep us, Event.inb APPLESMC_CMD_PORT (hw.input 0 % 256)])
              ++ [Event.usleep APPLESMC_RETRY_WAIT, Event.outb cmd port]⟩
          k hnext (by omega) hacc (fun j hj => hnot (j + 1) (by omega))
        refine ⟨[Event.usleep us, Event.inb APPLESMC_CMD_PORT (hw.input 0 % 256),
          Event.usleep APPLESMC_RETRY_WAIT, Event.outb cmd port] ++ T, m + 1, ?_, ?_, ?_⟩
        · rw [e]
          simp only [List.append_assoc, List.cons_append, List.nil_append]
          rfl
        · rw [port_writes_append, hw1]
          rfl
        · rw [data_reads_append, hd1]
          rfl

/-- A `send_byte` call that is answered at poll `k`. -/
theorem send_byte_ok (cmd port : Nat) (hw : Hw) (k : Nat) (h : SendOk hw.input k) :
    ∃ T m, send_byte cmd port hw = (0, ⟨skip (k + 1) hw.input, hw.trace ++ T⟩) ∧
      1 ≤ m ∧ port_writes T = List.replicate m (cmd, port) ∧ data_reads T = [] := by
  obtain ⟨hk, hacc, hnot⟩ := h
  rw [send_byte_eq_iter]
  obtain ⟨T, m, e, hw1, hd1⟩ := send_byte_iter_ok cmd port 13 APPLESMC_MIN_WAIT 0
    (outb cmd port hw) k (by decide) hk hacc hnot
  refine ⟨Event.outb cmd port :: T, m + 1, ?_, by omega, ?_, ?_⟩
  · rw [e]
    simp only [outb, List.append_assoc, List.cons_append, List.nil_append]
  · show port_writes ([Event.outb cmd port] ++ T) = _
    rw [port_writes_append, hw1]
    rfl
  · show data_reads ([Event.outb cmd port] ++ T) = _
    rw [data_reads_append, hd1]
    rfl

/-- A `wait_read` call that is answered at poll `k`. -/
theorem wait_read_ok (hw : Hw) (k : Nat) (h : WaitOk hw.input k) :
    wait_read hw
      = (0, ⟨skip (k + 1) hw.input,
             hw.trace ++ poll_trace APPLESMC_MIN_WAIT hw.input (k + 1)⟩) := by
  obtain ⟨hk, hr, hnot⟩ := h
  rw [wait_read_eq_iter]
  exact wait_read_iter_ready 13 _ _ hw k hk hnot hr

theorem read_smc_data_below (key : List Char) (n i : Nat) (buffer : Nat → Nat) (hw : Hw)
    (j : Nat) (hj : j < i) : (read_smc_data key n i buffer hw).buffer j = buffer j := by
  induction n generalizing i buffer hw with
  | zero => rfl
  | succ n ih =>
    rw [read_smc_data]
    simp only []
    split
    · rfl
    · rw [ih (i + 1) _ _ (by omega)]
      exact Function.update_noteq (by omega) _ _

/-- The payload loop of `read_smc` when every `wait_read` is answered. -/
theorem read_smc_data_ok (key : List Char) (ws : List Nat) (i : Nat) (buffer : Nat → Nat)
    (hw : Hw) (h : ReadsOk ws hw.input) :
    (read_smc_data key ws.length i buffer hw).ret = 0 ∧
    (read_smc_data key ws.length i buffer hw).hw.trace
      = hw.trace ++ payload_trace ws hw.input ∧
    ∀ j, j < ws.length →
      (data_reads (payload_trace ws hw.input))[j]?
        = some ((read_smc_data key ws.length i buffer hw).buffer (i + j)) := by
  induction ws generalizing i buffer hw with
  | nil =>
    refine ⟨rfl, ?_, ?_⟩
    · simp [read_smc_data, payload_trace]
    · intro j hj
      simp at hj
  | cons w ws ih =>
    obtain ⟨hw0, hrest⟩ := h
    have e := wait_read_ok hw w hw0
    simp only [List.length_cons]
    rw [read_smc_data]
    simp only [e, ne_eq, not_true_eq_false, if_false, inb]
    have hskip : (fun n => skip (w + 1) hw.input (n + 1)) = skip (w + 2) hw.input := by
      funext n
      simp only [skip]
      congr 1
      omega
    simp only [hskip]
    have hv : skip (w + 1) hw.input 0 = hw.input (w + 1) := by simp [skip]
    simp only [hv]
    obtain ⟨r1, r2, r3⟩ := ih (i + 1)
      (Function.update buffer i (hw.input (w + 1) % 256))
      ⟨skip (w + 2) hw.input,
        hw.trace ++ poll_trace APPLESMC_MIN_WAIT hw.input (w + 1)
          ++ [Event.inb APPLESMC_DATA_PORT (hw.input (w + 1) % 256)]⟩ hrest
    refine ⟨r1, ?_, ?_⟩
    · rw [r2]
      simp only [payload_trace, List.append_assoc, List.cons_append, List.nil_append]
    · intro j hj
      have hd : data_reads (payload_trace (w :: ws) hw.input)
          = (hw.input (w + 1) % 256) :: data_reads (payload_trace ws (skip (w + 2) hw.input)) := by
        rw [payload_trace, data_reads_append, data_reads_poll_trace]
        rfl
      rw [hd]
      cases j with
      | zero =>
        simp only [List.getElem?_cons_zero, Nat.add_zero]
        rw [read_smc_data_below key _ (i + 1) _ _ i (by omega)]
        simp
      | succ j =>
        simp only [List.getElem?_cons_succ]
        rw [r3 j (by simpa using hj)]
        congr 2
        omega

theorem port_writes_payload_trace (ws : List Nat) (input : Nat → Nat) :
    port_writes (payload_trace ws input) = [] := by
  induction ws generalizing input with
  | nil => rfl
  | cons w ws ih =>
    rw [payload_trace, port_writes_append, port_writes_poll_trace]
    show port_writes ([Event.inb APPLESMC_DATA_PORT (input (w + 1) % 256)]
      ++ payload_trace ws (skip (w + 2) input)) = []
    rw [port_writes_append, ih]
    rfl

/-- The flush loop of `read_smc` only appends to the trace and writes to no
port. -/
theorem read_smc_flush_trace (n i data : Nat) (hw : Hw) :
    ∃ F, (read_smc_flush n i data hw).2.2.trace = hw.trace ++ F ∧ port_writes F = [] := by
  induction n generalizing i data hw with
  | zero => exact ⟨[], by simp [read_smc_flush], rfl⟩
  | succ n ih =>
    rw [read_smc_flush]
    simp only [inb_usleep]
    split
    · exact ⟨_, rfl, rfl⟩
    · obtain ⟨F, e, hF⟩ := ih (i + 1)
        (inb APPLESMC_DATA_PORT ⟨skip 1 hw.input,
          hw.trace ++ [Event.usleep APPLESMC_MIN_WAIT,
            Event.inb APPLESMC_CMD_PORT (hw.input 0 % 256)]⟩).1
        (inb APPLESMC_DATA_PORT ⟨skip 1 hw.input,
          hw.trace ++ [Event.usleep APPLESMC_MIN_WAIT,
            Event.inb APPLESMC_CMD_PORT (hw.input 0 % 256)]⟩).2
      refine ⟨[Event.usleep APPLESMC_MIN_WAIT, Event.inb APPLESMC_CMD_PORT (hw.input 0 % 256),
        Event.inb APPLESMC_DATA_PORT (skip 1 hw.input 0 % 256)] ++ F, ?_, ?_⟩
      · rw [e]
        simp only [inb, List.append_assoc, List.cons_append, List.nil_append]
      · rw [port_writes_append, hF]
        rfl


/-- Result of `send_argument` when each of its four `send_byte` calls is answered. -/
theorem send_argument_ok (key : List Char) (hw : Hw) (k1 k2 k3 k4 : Nat)
    (h : SendsOk [k1, k2, k3, k4] hw.input) :
    ∃ T n1 n2 n3 n4, send_argument key hw
        = (0, ⟨after_sends [k1, k2, k3, k4] hw.input, hw.trace ++ T⟩) ∧
      1 ≤ n1 ∧ 1 ≤ n2 ∧ 1 ≤ n3 ∧ 1 ≤ n4 ∧
      port_writes T
        = List.replicate n1 (key_byte key 0, APPLESMC_DATA_PORT)
          ++ List.replicate n2 (key_byte key 1, APPLESMC_DATA_PORT)
          ++ List.replicate n3 (key_byte key 2, APPLESMC_DATA_PORT)
          ++ List.replicate n4 (key_byte key 3, APPLESMC_DATA_PORT) ∧
      data_reads T = [] := by
  obtain ⟨h1, h2, h3, h4, _⟩ := h
  obtain ⟨T1, m1, e1, p1, w1, d1⟩ :=
    send_byte_ok (key_byte key 0) APPLESMC_DATA_PORT hw k1 h1
  obtain ⟨T2, m2, e2, p2, w2, d2⟩ :=
    send_byte_ok (key_byte key 1) APPLESMC_DATA_PORT
      ⟨skip (k1 + 1) hw.input, hw.trace ++ T1⟩ k2 h2
  obtain ⟨T3, m3, e3, p3, w3, d3⟩ :=
    send_byte_ok (key_byte key 2) APPLESMC_DATA_PORT
      ⟨skip (k2 + 1) (skip (k1 + 1) hw.input), hw.trace ++ T1 ++ T2⟩ k3 h3
  obtain ⟨T4, m4, e4, p4, w4, d4⟩ :=
    send_byte_ok (key_byte key 3) APPLESMC_DATA_PORT
      ⟨skip (k3 + 1) (skip (k2 + 1) (skip (k1 + 1) hw.input)), hw.trace ++ T1 ++ T2 ++ T3⟩
      k4 h4
  simp only [List.append_assoc] at e2 e3 e4
  refine ⟨T1 ++ T2 ++ T3 ++ T4, m1, m2, m3, m4, ?_, p1, p2, p3, p4, ?_, ?_⟩
  · simp only [send_argument, send_argument_loop, e1, e2, e3, e4, ne_eq, not_true_eq_false,
      if_false, Nat.zero_add, Nat.reduceAdd, after_sends, List.append_assoc]
  · simp only [port_writes_append, w1, w2, w3, w4]
  · simp only [data_reads_append, d1, d2, d3, d4, List.append_nil]

/-- C9 (`read_smc`, order and result).  Take any port behaviour under which
each `send_byte` and each `wait_read` of the transaction succeeds: the six
sends are answered at polls `k0 ... k5` and the `len = ws.length` payload
waits at polls `ws`.  Then `read_smc` returns 0, and its actions are a send
part `S`, the payload part and a flush part `F` such that: everything
written, in order, is `cmd` to the command port, then `key[0]`, `key[1]`,
`key[2]`, `key[3]` and then `len` to the data port, each at least once;
`S` reads nothing from the data port; the payload part is, per byte, the polls
of a successful `wait_read` followed by one read of the data port; and
`buffer[i]` is the `i`-th byte read from the data port, for every
`i < len`. -/
theorem read_smc_transaction (cmd : Nat) (key : List Char) (buffer : Nat → Nat) (hw : Hw)
    (k0 k1 k2 k3 k4 k5 : Nat) (ws : List Nat)
    (hs : SendsOk [k0, k1, k2, k3, k4, k5] hw.input)
    (hr : ReadsOk ws (after_sends [k0, k1, k2, k3, k4, k5] hw.input)) :
    (read_smc cmd key buffer ws.length hw).ret = 0 ∧
    ∃ S F n0 n1 n2 n3 n4 n5,
      (read_smc cmd key buffer ws.length hw).hw.trace
        = hw.trace ++ (S ++ payload_trace ws (after_sends [k0, k1, k2, k3, k4, k5] hw.input)
            ++ F) ∧
      1 ≤ n0 ∧ 1 ≤ n1 ∧ 1 ≤ n2 ∧ 1 ≤ n3 ∧ 1 ≤ n4 ∧ 1 ≤ n5 ∧
      port_writes (S ++ payload_trace ws (after_sends [k0, k1, k2, k3, k4, k5] hw.input) ++ F)
        = List.replicate n0 (cmd, APPLESMC_CMD_PORT)
          ++ List.replicate n1 (key_byte key 0, APPLESMC_DATA_PORT)
          ++ List.replicate n2 (key_byte key 1, APPLESMC_DATA_PORT)
          ++ List.replicate n3 (key_byte key 2, APPLESMC_DATA_PORT)
          ++ List.replicate n4 (key_byte key 3, APPLESMC_DATA_PORT)
          ++ List.replicate n5 (ws.length, APPLESMC_DATA_PORT) ∧
      data_reads S = [] ∧
      ∀ i, i < ws.length →
        (data_reads (S ++ payload_trace ws (after_sends [k0, k1, k2, k3, k4, k5] hw.input)
            ++ F))[i]?
          = some ((read_smc cmd key buffer ws.length hw).buffer i) := by
  obtain ⟨h0, h1, h2, h3, h4, h5, _⟩ := hs
  obtain ⟨T0, m0, e0, p0, w0, d0⟩ := send_byte_ok cmd APPLESMC_CMD_PORT hw k0 h0
  obtain ⟨TA, m1, m2, m3, m4, eA, p1, p2, p3, p4, wA, dA⟩ :=
    send_argument_ok key ⟨skip (k0 + 1) hw.input, hw.trace ++ T0⟩ k1 k2 k3 k4
      ⟨h1, h2, h3, h4, trivial⟩
  obtain ⟨T5, m5, e5, p5, w5, d5⟩ := send_byte_ok ws.length APPLESMC_DATA_PORT
    ⟨after_sends [k1, k2, k3, k4] (skip (k0 + 1) hw.input), hw.trace ++ T0 ++ TA⟩ k5 h5
  obtain ⟨r1, r2, r3⟩ := read_smc_data_ok key ws 0 buffer
    ⟨skip (k5 + 1) (after_sends [k1, k2, k3, k4] (skip (k0 + 1) hw.input)),
      hw.trace ++ T0 ++ TA ++ T5⟩ hr
  obtain ⟨F, eF, wF⟩ := read_smc_flush_trace 16 0 0
    (read_smc_data key ws.length 0 buffer
      ⟨skip (k5 + 1) (after_sends [k1, k2, k3, k4] (skip (k0 + 1) hw.input)),
        hw.trace ++ T0 ++ TA ++ T5⟩).hw
  simp only [List.append_assoc, Nat.zero_add] at eA e5 r1 r2 r3 eF
  have hpay : after_sends [k0, k1, k2, k3, k4, k5] hw.input
      = skip (k5 + 1) (after_sends [k1, k2, k3, k4] (skip (k0 + 1) hw.input)) := rfl
  rw [hpay]
  have hrun : read_smc cmd key buffer ws.length hw
      = ⟨0, (read_smc_data key ws.length 0 buffer
          ⟨skip (k5 + 1) (after_sends [k1, k2, k3, k4] (skip (k0 + 1) hw.input)),
            hw.trace ++ (T0 ++ (TA ++ T5))⟩).buffer,
        if (read_smc_flush 16 0 0 (read_smc_data key ws.length 0 buffer
            ⟨skip (k5 + 1) (after_sends [k1, k2, k3, k4] (skip (k0 + 1) hw.input)),
              hw.trace ++ (T0 ++ (TA ++ T5))⟩).hw).1 ≠ 0
        then fprintf_stderr "flushed %d bytes, last value is: %d\n"
          [Arg.num (read_smc_flush 16 0 0 (read_smc_data key ws.length 0 buffer
            ⟨skip (k5 + 1) (after_sends [k1, k2, k3, k4] (skip (k0 + 1) hw.input)),
              hw.trace ++ (T0 ++ (TA ++ T5))⟩).hw).1,
           Arg.num (read_smc_flush 16 0 0 (read_smc_data key ws.length 0 buffer
            ⟨skip (k5 + 1) (after_sends [k1, k2, k3, k4] (skip (k0 + 1) hw.input)),
              hw.trace ++ (T0 ++ (TA ++ T5))⟩).hw).2.1]
          (read_smc_flush 16 0 0 (read_smc_data key ws.length 0 buffer
            ⟨skip (k5 + 1) (after_sends [k1, k2, k3, k4] (skip (k0 + 1) hw.input)),
              hw.trace ++ (T0 ++ (TA ++ T5))⟩).hw).2.2
        else (read_smc_flush 16 0 0 (read_smc_data key ws.length 0 buffer
            ⟨skip (k5 + 1) (after_sends [k1, k2, k3, k4] (skip (k0 + 1) hw.input)),
              hw.trace ++ (T0 ++ (TA ++ T5))⟩).hw).2.2⟩ := by
    simp only [read_smc, send_command, e0, eA, e5, r1, ne_eq, not_true_eq_false, if_false,
      List.append_assoc]
  rw [hrun]
  generalize read_smc_data key ws.length 0 buffer
      ⟨skip (k5 + 1) (after_sends [k1, k2, k3, k4] (skip (k0 + 1) hw.input)),
        hw.trace ++ (T0 ++ (TA ++ T5))⟩ = D at r1 r2 r3 eF
  refine ⟨rfl, ?_⟩
  have hreads : ∀ i, i < ws.length →
      (data_reads ((T0 ++ TA ++ T5) ++ payload_trace ws
          (skip (k5 + 1) (after_sends [k1, k2, k3, k4] (skip (k0 + 1) hw.input))) ++ F))[i]?
        = some (D.buffer i) := by
    intro i hi
    simp only [data_reads_append, d0, dA, d5, List.nil_append, List.append_nil]
    have := r3 i hi
    rw [List.getElem?_append_left, this]
    have hsome : ((data_reads (payload_trace ws
        (skip (k5 + 1) (after_sends [k1, k2, k3, k4] (skip (k0 + 1) hw.input)))))[i]?).isSome := by
      rw [this]; rfl
    exact (List.getElem?_eq_some_iff.mp (Option.eq_some_of_isSome hsome)).1
  have hwrites : port_writes ((T0 ++ TA ++ T5) ++ payload_trace ws
        (skip (k5 + 1) (after_sends [k1, k2, k3, k4] (skip (k0 + 1) hw.input))) ++ F)
      = List.replicate m0 (cmd, APPLESMC_CMD_PORT)
        ++ List.replicate m1 (key_byte key 0, APPLESMC_DATA_PORT)
        ++ List.replicate m2 (key_byte key 1, APPLESMC_DATA_PORT)
        ++ List.replicate m3 (key_byte key 2, APPLESMC_DATA_PORT)
        ++ List.replicate m4 (key_byte key 3, APPLESMC_DATA_PORT)
        ++ List.replicate m5 (ws.length, APPLESMC_DATA_PORT) := by
    simp only [port_writes_append, w0, wA, w5, wF, port_writes_payload_trace,
      List.append_assoc, List.append_nil]
  have hS : data_reads (T0 ++ TA ++ T5) = [] := by
    simp only [data_reads_append, d0, dA, d5, List.append_nil]
  by_cases hfl : (read_smc_flush 16 0 0 D.hw).1 ≠ 0
  · refine ⟨T0 ++ TA ++ T5, F ++ [Event.stderr "flushed %d bytes, last value is: %d\n"
      [Arg.num (read_smc_flush 16 0 0 D.hw).1, Arg.num (read_smc_flush 16 0 0 D.hw).2.1]],
      m0, m1, m2, m3, m4, m5, ?_, p0, p1, p2, p3, p4, p5, ?_, hS, ?_⟩
    · simp only [if_pos hfl, fprintf_stderr, eF, r2, List.append_assoc]
    · rw [← List.append_assoc, port_writes_append, hwrites]
      exact List.append_nil _
    · intro i hi
      rw [← List.append_assoc, data_reads_append]
      have h1 := hreads i hi
      rw [List.getElem?_append_left, h1]
      exact (List.getElem?_eq_some_iff.mp h1).1
  · refine ⟨T0 ++ TA ++ T5, F, m0, m1, m2, m3, m4, m5, ?_, p0, p1, p2, p3, p4, p5, hwrites,
      hS, hreads⟩
    simp only [if_neg hfl, eF, r2, List.append_assoc]

/-- C9 on a concrete run: every send is accepted at its first poll (status
0x04), both payload bytes are ready at the first poll (status 0x01) and are
0x03 and 0x02; the hypotheses of `read_smc_transaction` hold there and
`read_smc` returns 0. -/
theorem read_smc_transaction_run :
    SendsOk [0, 0, 0, 0, 0, 0] (fun n => [4, 4, 4, 4, 4, 4, 1, 0x03, 1, 0x02].getD n 0) ∧
    ReadsOk [0, 0]
      (after_sends [0, 0, 0, 0, 0, 0] (fun n => [4, 4, 4, 4, 4, 4, 1, 0x03, 1, 0x02].getD n 0)) ∧
    (read_smc APPLESMC_READ_CMD ['T', 'C', '0', 'P'] (fun _ => 0) 2
      ⟨fun n => [4, 4, 4, 4, 4, 4, 1, 0x03, 1, 0x02].getD n 0, []⟩).ret = 0 := by
  have hs : SendsOk [0, 0, 0, 0, 0, 0]
      (fun n => [4, 4, 4, 4, 4, 4, 1, 0x03, 1, 0x02].getD n 0) := by
    simp only [SendsOk, SendOk, skip]
    decide
  have hr : ReadsOk [0, 0] (after_sends [0, 0, 0, 0, 0, 0]
      (fun n => [4, 4, 4, 4, 4, 4, 1, 0x03, 1, 0x02].getD n 0)) := by
    simp only [ReadsOk, WaitOk, after_sends, skip]
    decide
  exact ⟨hs, hr, (read_smc_transaction APPLESMC_READ_CMD ['T', 'C', '0', 'P'] (fun _ => 0)
    ⟨fun n => [4, 4, 4, 4, 4, 4, 1, 0x03, 1, 0x02].getD n 0, []⟩ 0 0 0 0 0 0 [0, 0] hs hr).1⟩

/-! ### Over-long option arguments -/

theorem port_writes_output_result (name : List Char) (of : output_format) (v : TypeVars)
    (d : Decoded) (hw : Hw) (h : of ≠ output_format.bin) :
    port_writes (output_result name of v d hw).trace = port_writes hw.trace := by
  unfold output_result
  rw [if_pos h]
  simp only []
  split <;> simp [printf, port_writes_append, port_writes]

theorem strlen_snprintf (s : List Char) :
    strlen (snprintf zero_buffer KEYBUFSIZE s) = min 4 (strlen s) := by
  unfold strlen
  rw [cstr_snprintf, List.length_take]

/-- A key argument shorter than 4 characters is refused before any port
access. -/
theorem key_too_short_rejected (karg targ : List Char) (of : output_format) (euid : Nat)
    (io : Option (List Char)) (hw : Hw) (h : strlen karg < 4) :
    main karg targ of euid io hw
      = (Outcome.exit 1,
         ⟨hw.input, hw.trace ++ [Event.stderr "Key name must be 4 characters long.\n" []]⟩) := by
  have h1 : strlen (snprintf zero_buffer KEYBUFSIZE karg) ≠ 4 := by
    rw [strlen_snprintf]; omega
  simp only [main, if_pos h1]
  rfl

/-- A key argument longer than 4 characters is not refused: `main` runs exactly
as it does for the argument's first 4 characters. -/
theorem key_too_long_truncated (karg targ : List Char) (of : output_format) (euid : Nat)
    (io : Option (List Char)) (hw : Hw) :
    main karg targ of euid io hw = main ((cstr karg).take 4) targ of euid io hw := by
  have e : snprintf zero_buffer KEYBUFSIZE ((cstr karg).take 4)
      = snprintf zero_buffer KEYBUFSIZE karg := by
    rw [snprintf_zero_buffer, snprintf_zero_buffer,
      cstr_of_no_nul _ (take_cstr_no_nul karg 4), List.take_take, Nat.min_self]
  simp only [main, e]

/-- A type argument longer than 4 characters is validated as its first 4
characters are. -/
theorem type_too_long_truncated (targ : List Char) (of : output_format) :
    validate_type (snprintf zero_buffer KEYBUFSIZE targ) of
      = validate_type (snprintf zero_buffer KEYBUFSIZE ((cstr targ).take 4)) of := by
  rw [validate_type_snprintf, validate_type_snprintf,
    cstr_of_no_nul _ (take_cstr_no_nul targ 4), List.take_take, Nat.min_self]

/-- C5, evaluated on a key of five characters.  With `-k ABCDE -t ui8`, run as
root with port access granted, on an SMC that answers every read with 0x05,
`main` does not refuse the key: the stored name has length 4, the run ends
with `return 0`, and the transaction for the key `ABCD` has gone out to the
ports (the read command, the bytes `A`, `B`, `C`, `D`, the length 1). -/
theorem long_key_accepted :
    ['A', 'B', 'C', 'D', 'E'].length = 5 ∧
    strlen (snprintf zero_buffer KEYBUFSIZE ['A', 'B', 'C', 'D', 'E']) = 4 ∧
    (main ['A', 'B', 'C', 'D', 'E'] ['u', 'i', '8'] output_format.dec 0 Option.none
        ⟨fun _ => 0x05, []⟩).1 = Outcome.ret 0 ∧
    port_writes (main ['A', 'B', 'C', 'D', 'E'] ['u', 'i', '8'] output_format.dec 0 Option.none
        ⟨fun _ => 0x05, []⟩).2.trace
      = [(0x10, 0x304), (0x41, 0x300), (0x42, 0x300), (0x43, 0x300), (0x44, 0x300),
         (1, 0x300)] := by
  have h1 : strlen (snprintf zero_buffer KEYBUFSIZE ['A', 'B', 'C', 'D', 'E']) = 4 := by decide
  have h2 : validate_type (snprintf zero_buffer KEYBUFSIZE ['u', 'i', '8']) output_format.dec
      = Except.ok ⟨smctype.ui8, 1, some "%u", 0, 0⟩ :=
    validate_type_literal _ _ _ (by decide) (by decide) rfl
  have h3 : (read_smc APPLESMC_READ_CMD (snprintf zero_buffer KEYBUFSIZE ['A', 'B', 'C', 'D', 'E'])
      (fun _ => 0) 1 ⟨fun _ => 0x05, []⟩).ret = 0 := by
    simp only [read_smc, send_command, send_argument, send_argument_loop, read_smc_data,
      send_byte_eq_iter, wait_read_eq_iter]
    decide
  have h4 : port_writes (read_smc APPLESMC_READ_CMD
      (snprintf zero_buffer KEYBUFSIZE ['A', 'B', 'C', 'D', 'E'])
      (fun _ => 0) 1 ⟨fun _ => 0x05, []⟩).hw.trace
      = [(0x10, 0x304), (0x41, 0x300), (0x42, 0x300), (0x43, 0x300), (0x44, 0x300),
         (1, 0x300)] := by
    simp only [read_smc, send_command, send_argument, send_argument_loop, read_smc_data,
      send_byte_eq_iter, wait_read_eq_iter]
    decide
  refine ⟨rfl, h1, ?_, ?_⟩
  · simp only [main, h1, h2, h3, ne_eq, not_true_eq_false, if_false]
  · simp only [main, h1, h2, h3, ne_eq, not_true_eq_false, if_false]
    rw [port_writes_output_result _ _ _ _ _ (by decide)]
    exact h4

/-- C6, evaluated on names that merely begin with an accepted name.  The
arguments `ui16x`, `flagged` and `fpe2zz` are none of the accepted names, yet
validation accepts them as `ui16`, `flag` and `fpe2`; with `-t ui16x` the run
of `main` (as root, every read answered with 0x05) ends with `return 0` after
a two-byte read transaction. -/
theorem long_type_name_accepted :
    validate_type (snprintf zero_buffer KEYBUFSIZE ['u', 'i', '1', '6', 'x']) output_format.dec
      = Except.ok ⟨smctype.ui16, 2, some "%u", 0, 0⟩ ∧
    validate_type (snprintf zero_buffer KEYBUFSIZE ['f', 'l', 'a', 'g', 'g', 'e', 'd'])
        output_format.dec
      = Except.ok ⟨smctype.flag, 1, some "%u", 0, 0⟩ ∧
    validate_type (snprintf zero_buffer KEYBUFSIZE ['f', 'p', 'e', '2', 'z', 'z'])
        output_format.dec
      = Except.ok ⟨smctype.fp, 2, some "%d.%u", 14, 2⟩ ∧
    (main ['A', 'B', 'C', 'D'] ['u', 'i', '1', '6', 'x'] output_format.dec 0 Option.none
        ⟨fun _ => 0x05, []⟩).1 = Outcome.ret 0 ∧
    port_writes (main ['A', 'B', 'C', 'D'] ['u', 'i', '1', '6', 'x'] output_format.dec 0
        Option.none ⟨fun _ => 0x05, []⟩).2.trace
      = [(0x10, 0x304), (0x41, 0x300), (0x42, 0x300), (0x43, 0x300), (0x44, 0x300),
         (2, 0x300)] := by
  have t1 : validate_type (snprintf zero_buffer KEYBUFSIZE ['u', 'i', '1', '6', 'x'])
      output_format.dec = Except.ok ⟨smctype.ui16, 2, some "%u", 0, 0⟩ := by
    rw [type_too_long_truncated]
    exact validate_type_literal ['u', 'i', '1', '6'] _ _ (by decide) (by decide) rfl
  have t2 : validate_type (snprintf zero_buffer KEYBUFSIZE ['f', 'l', 'a', 'g', 'g', 'e', 'd'])
      output_format.dec = Except.ok ⟨smctype.flag, 1, some "%u", 0, 0⟩ := by
    rw [type_too_long_truncated]
    exact validate_type_literal ['f', 'l', 'a', 'g'] _ _ (by decide) (by decide) rfl
  have t3 : validate_type (snprintf zero_buffer KEYBUFSIZE ['f', 'p', 'e', '2', 'z', 'z'])
      output_format.dec = Except.ok ⟨smctype.fp, 2, some "%d.%u", 14, 2⟩ := by
    rw [type_too_long_truncated]
    exact validate_type_literal ['f', 'p', 'e', '2'] _ _ (by decide) (by decide) rfl
  have h1 : strlen (snprintf zero_buffer KEYBUFSIZE ['A', 'B', 'C', 'D']) = 4 := by decide
  have h3 : (read_smc APPLESMC_READ_CMD (snprintf zero_buffer KEYBUFSIZE ['A', 'B', 'C', 'D'])
      (fun _ => 0) 2 ⟨fun _ => 0x05, []⟩).ret = 0 := by
    simp only [read_smc, send_command, send_argument, send_argument_loop, read_smc_data,
      send_byte_eq_iter, wait_read_eq_iter]
    decide
  have h4 : port_writes (read_smc APPLESMC_READ_CMD
      (snprintf zero_buffer KEYBUFSIZE ['A', 'B', 'C', 'D'])
      (fun _ => 0) 2 ⟨fun _ => 0x05, []⟩).hw.trace
      = [(0x10, 0x304), (0x41, 0x300), (0x42, 0x300), (0x43, 0x300), (0x44, 0x300),
         (2, 0x300)] := by
    simp only [read_smc, send_command, send_argument, send_argument_loop, read_smc_data,
      send_byte_eq_iter, wait_read_eq_iter]
    decide
  refine ⟨t1, t2, t3, ?_, ?_⟩
  · simp only [main, h1, t1, h3, ne_eq, not_true_eq_false, if_false]
  · simp only [main, h1, t1, h3, ne_eq, not_true_eq_false, if_false]
    rw [port_writes_output_result _ _ _ _ _ (by decide)]
    exact h4

/-! ### Failure reports of the transactions -/

theorem getLast?_stderr (hw : Hw) (fmt : String) (args : List Arg) :
    (fprintf_stderr fmt args hw).trace.getLast? = some (Event.stderr fmt args) := by
  simp [fprintf_stderr]

theorem read_smc_data_ret (key : List Char) (n i : Nat) (buffer : Nat → Nat) (hw : Hw) :
    (read_smc_data key n i buffer hw).ret = 0 ∨
    ((read_smc_data key n i buffer hw).ret = - EIO_errno ∧
      ∃ j : Nat, (read_smc_data key n i buffer hw).hw.trace.getLast?
        = some (Event.stderr "%.4s: read data[%d] fail\n" [Arg.str key, Arg.num j])) := by
  induction n generalizing i buffer hw with
  | zero => left; rfl
  | succ n ih =>
    rw [read_smc_data]
    simp only []
    split
    · right
      exact ⟨rfl, i, getLast?_stderr _ _ _⟩
    · exact ih _ _ _

theorem write_smc_data_ret (key : List Char) (buffer : Nat → Nat) (n i : Nat) (hw : Hw) :
    (write_smc_data key buffer n i hw).1 = 0 ∨
    ((write_smc_data key buffer n i hw).1 = - EIO_errno ∧
      (write_smc_data key buffer n i hw).2.trace.getLast?
        = some (Event.stderr "%s: write data fail\n" [Arg.str key])) := by
  induction n generalizing i hw with
  | zero => left; rfl
  | succ n ih =>
    rw [write_smc_data]
    split
    · right
      exact ⟨rfl, getLast?_stderr _ _ _⟩
    · exact ih _ _

/-- C10 as the code has it.  A failing `read_smc` or `write_smc` returns the
one value `-EIO` whichever phase failed.  The phase shows only in the
diagnostic written to `stderr` last: when the command send fails, and
likewise when the key send fails, it is `read arg fail` (`write arg fail`);
when the length send fails it is `read len fail` (`write len fail`); a
failure after these three phases is a payload failure reported as
`read data[i] fail` (`write data fail`). -/
theorem smc_failure_is_generic (cmd : Nat) (key : List Char) (buffer : Nat → Nat) (len : Nat)
    (hw : Hw) :
    /- `read_smc` -/
    ((read_smc cmd key buffer len hw).ret = 0
      ∨ (read_smc cmd key buffer len hw).ret = - EIO_errno) ∧
    ((send_command cmd hw).1 ≠ 0 →
      (read_smc cmd key buffer len hw).ret = - EIO_errno ∧
      (read_smc cmd key buffer len hw).hw.trace
        = (send_command cmd hw).2.trace
          ++ [Event.stderr "%.4s: read arg fail\n" [Arg.str key]]) ∧
    ((send_command cmd hw).1 = 0 → (send_argument key (send_command cmd hw).2).1 ≠ 0 →
      (read_smc cmd key buffer len hw).ret = - EIO_errno ∧
      (read_smc cmd key buffer len hw).hw.trace
        = (send_argument key (send_command cmd hw).2).2.trace
          ++ [Event.stderr "%.4s: read arg fail\n" [Arg.str key]]) ∧
    ((send_command cmd hw).1 = 0 → (send_argument key (send_command cmd hw).2).1 = 0 →
      (send_byte len APPLESMC_DATA_PORT (send_argument key (send_command cmd hw).2).2).1 ≠ 0 →
      (read_smc cmd key buffer len hw).ret = - EIO_errno ∧
      (read_smc cmd key buffer len hw).hw.trace
        = (send_byte len APPLESMC_DATA_PORT
            (send_argument key (send_command cmd hw).2).2).2.trace
          ++ [Event.stderr "%.4s: read len fail\n" [Arg.str key]]) ∧
    ((send_command cmd hw).1 = 0 → (send_argument key (send_command cmd hw).2).1 = 0 →
      (send_byte len APPLESMC_DATA_PORT (send_argument key (send_command cmd hw).2).2).1 = 0 →
      (read_smc cmd key buffer len hw).ret ≠ 0 →
      (read_smc cmd key buffer len hw).ret = - EIO_errno ∧
      ∃ i : Nat, (read_smc cmd key buffer len hw).hw.trace.getLast?
        = some (Event.stderr "%.4s: read data[%d] fail\n" [Arg.str key, Arg.num i])) ∧
    /- `write_smc` -/
    ((write_smc cmd key buffer len hw).1 = 0
      ∨ (write_smc cmd key buffer len hw).1 = - EIO_errno) ∧
    ((send_command cmd hw).1 ≠ 0 →
      (write_smc cmd key buffer len hw).1 = - EIO_errno ∧
      (write_smc cmd key buffer len hw).2.trace
        = (send_command cmd hw).2.trace
          ++ [Event.stderr "%s: write arg fail\n" [Arg.str key]]) ∧
    ((send_command cmd hw).1 = 0 → (send_argument key (send_command cmd hw).2).1 ≠ 0 →
      (write_smc cmd key buffer len hw).1 = - EIO_errno ∧
      (write_smc cmd key buffer len hw).2.trace
        = (send_argument key (send_command cmd hw).2).2.trace
          ++ [Event.stderr "%s: write arg fail\n" [Arg.str key]]) ∧
    ((send_command cmd hw).1 = 0 → (send_argument key (send_command cmd hw).2).1 = 0 →
      (send_byte len APPLESMC_DATA_PORT (send_argument key (send_command cmd hw).2).2).1 ≠ 0 →
      (write_smc cmd key buffer len hw).1 = - EIO_errno ∧
      (write_smc cmd key buffer len hw).2.trace
        = (send_byte len APPLESMC_DATA_PORT
            (send_argument key (send_command cmd hw).2).2).2.trace
          ++ [Event.stderr "%.4s: write len fail\n" [Arg.str key]]) ∧
    ((send_command cmd hw).1 = 0 → (send_argument key (send_command cmd hw).2).1 = 0 →
      (send_byte len APPLESMC_DATA_PORT (send_argument key (send_command cmd hw).2).2).1 = 0 →
      (write_smc cmd key buffer len hw).1 ≠ 0 →
      (write_smc cmd key buffer len hw).1 = - EIO_errno ∧
      (write_smc cmd key buffer len hw).2.trace.getLast?
        = some (Event.stderr "%s: write data fail\n" [Arg.str key])) := by
  have hrd := read_smc_data_ret key len 0 buffer
    (send_byte len APPLESMC_DATA_PORT (send_argument key (send_command cmd hw).2).2).2
  have hwd := write_smc_data_ret key buffer len 0
    (send_byte len APPLESMC_DATA_PORT (send_argument key (send_command cmd hw).2).2).2
  refine ⟨?_, ?_, ?_, ?_, ?_, ?_, ?_, ?_, ?_, ?_⟩
  · unfold read_smc
    simp only []
    split
    · exact Or.inr rfl
    · split
      · exact Or.inr rfl
      · split
        · exact Or.inr rfl
        · split
          · rename_i hd
            rcases hrd with h0 | ⟨h1, _⟩
            · exact absurd h0 hd
            · exact Or.inr h1
          · exact Or.inl rfl
  · intro hc
    simp only [read_smc, if_pos hc, fprintf_stderr, and_self]
  · intro hc ha
    simp only [read_smc, hc, ne_eq, not_true_eq_false, if_false, if_pos ha, fprintf_stderr,
      and_self]
  · intro hc ha hl
    simp only [read_smc, hc, ha, ne_eq, not_true_eq_false, if_false, if_pos hl, fprintf_stderr,
      and_self]
  · intro hc ha hl hne
    have e : read_smc cmd key buffer len hw = read_smc_data key len 0 buffer
        (send_byte len APPLESMC_DATA_PORT (send_argument key (send_command cmd hw).2).2).2 := by
      by_cases hd : (read_smc_data key len 0 buffer
          (send_byte len APPLESMC_DATA_PORT
            (send_argument key (send_command cmd hw).2).2).2).ret ≠ 0
      · simp only [read_smc, hc, ha, hl, ne_eq, not_true_eq_false, if_false, if_pos hd]
      · exfalso
        apply hne
        simp only [read_smc, hc, ha, hl, ne_eq, not_true_eq_false, if_false, if_neg hd]
    rw [e] at hne ⊢
    rcases hrd with h0 | ⟨h1, j, h2⟩
    · exact absurd h0 hne
    · exact ⟨h1, j, h2⟩
  · unfold write_smc
    simp only []
    split
    · exact Or.inr rfl
    · split
      · exact Or.inr rfl
      · split
        · exact Or.inr rfl
        · rcases hwd with h0 | ⟨h1, _⟩
          · exact Or.inl h0
          · exact Or.inr h1
  · intro hc
    simp only [write_smc, if_pos hc, fprintf_stderr, and_self]
  · intro hc ha
    simp only [write_smc, hc, ne_eq, not_true_eq_false, if_false, if_pos ha, fprintf_stderr,
      and_self]
  · intro hc ha hl
    simp only [write_smc, hc, ha, ne_eq, not_true_eq_false, if_false, if_pos hl, fprintf_stderr,
      and_self]
  · intro hc ha hl hne
    have e : write_smc cmd key buffer len hw = write_smc_data key buffer len 0
        (send_byte len APPLESMC_DATA_PORT (send_argument key (send_command cmd hw).2).2).2 := by
      simp only [write_smc, hc, ha, hl, ne_eq, not_true_eq_false, if_false]
    rw [e] at hne ⊢
    rcases hwd with h0 | ⟨h1, h2⟩
    · exact absurd h0 hne
    · exact ⟨h1, h2⟩

/-- C10 refuted on concrete runs.  Reading one byte of key `TC0P`: on an SMC
whose status is always 0 the command phase fails, on one that accepts the
command and then only answers 0 the key phase fails, on one that accepts all
six bytes sent and then only answers 0 the payload phase fails.  Each time
the diagnostic tells so, yet the three calls return the same value `-5`: the
value returned for a command failure equals the one for a payload failure.
A write of one byte fails on these SMCs in the command, the key and the
payload phase alike with `-5`. -/
theorem smc_failures_indistinguishable :
    (read_smc 0x10 ['T', 'C', '0', 'P'] (fun _ => 0) 1 ⟨fun _ => 0, []⟩).ret = -5 ∧
    (read_smc 0x10 ['T', 'C', '0', 'P'] (fun _ => 0) 1 ⟨fun _ => 0, []⟩).hw.trace.getLast?
      = some (Event.stderr "%.4s: read arg fail\n" [Arg.str ['T', 'C', '0', 'P']]) ∧
    (read_smc 0x10 ['T', 'C', '0', 'P'] (fun _ => 0) 1
        ⟨fun n => [4].getD n 0, []⟩).ret = -5 ∧
    (read_smc 0x10 ['T', 'C', '0', 'P'] (fun _ => 0) 1
        ⟨fun n => [4].getD n 0, []⟩).hw.trace.getLast?
      = some (Event.stderr "%.4s: read arg fail\n" [Arg.str ['T', 'C', '0', 'P']]) ∧
    (read_smc 0x10 ['T', 'C', '0', 'P'] (fun _ => 0) 1
        ⟨fun n => [4, 4, 4, 4, 4, 4].getD n 0, []⟩).ret = -5 ∧
    (read_smc 0x10 ['T', 'C', '0', 'P'] (fun _ => 0) 1
        ⟨fun n => [4, 4, 4, 4, 4, 4].getD n 0, []⟩).hw.trace.getLast?
      = some (Event.stderr "%.4s: read data[%d] fail\n"
          [Arg.str ['T', 'C', '0', 'P'], Arg.num 0]) ∧
    (read_smc 0x10 ['T', 'C', '0', 'P'] (fun _ => 0) 1 ⟨fun _ => 0, []⟩).ret
      = (read_smc 0x10 ['T', 'C', '0', 'P'] (fun _ => 0) 1
          ⟨fun n => [4, 4, 4, 4, 4, 4].getD n 0, []⟩).ret ∧
    (write_smc 0x11 ['T', 'C', '0', 'P'] (fun _ => 7) 1 ⟨fun _ => 0, []⟩).1 = -5 ∧
    (write_smc 0x11 ['T', 'C', '0', 'P'] (fun _ => 7) 1 ⟨fun n => [4].getD n 0, []⟩).1 = -5 ∧
    (write_smc 0x11 ['T', 'C', '0', 'P'] (fun _ => 7) 1
        ⟨fun n => [4, 4, 4, 4, 4, 4].getD n 0, []⟩).1 = -5 ∧
    (write_smc 0x11 ['T', 'C', '0', 'P'] (fun _ => 7) 1
        ⟨fun n => [4, 4, 4, 4, 4, 4].getD n 0, []⟩).2.trace.getLast?
      = some (Event.stderr "%s: write data fail\n" [Arg.str ['T', 'C', '0', 'P']]) := by
  have hA : (read_smc 0x10 ['T', 'C', '0', 'P'] (fun _ => 0) 1 ⟨fun _ => 0, []⟩).ret = -5 := by
    simp only [read_smc, send_command, send_byte_eq_iter]
    decide
  have hC : (read_smc 0x10 ['T', 'C', '0', 'P'] (fun _ => 0) 1
      ⟨fun n => [4, 4, 4, 4, 4, 4].getD n 0, []⟩).ret = -5 := by
    simp only [read_smc, send_command, send_argument, send_argument_loop, read_smc_data,
      send_byte_eq_iter, wait_read_eq_iter]
    decide
  refine ⟨hA, ?_, ?_, ?_, hC, ?_, hA.trans hC.symm, ?_, ?_, ?_, ?_⟩ <;>
    simp only [read_smc, write_smc, write_smc_data, send_command, send_argument,
      send_argument_loop, read_smc_data, send_byte_eq_iter, wait_read_eq_iter] <;>
    decide

/-! ### The type names that are accepted -/

theorem fp_bits_eq_some (c : Char) (x : Nat) (h : fp_bits c = some x) :
    x < 16 ∧ c = hex_digit x := by
  refine ⟨fp_bits_lt c x h, ?_⟩
  have hc : c = Char.ofNat c.toNat := (Char.ofNat_toNat c).symm
  unfold fp_bits at h
  split at h
  · rename_i hr
    injection h with h
    subst h
    generalize c.toNat = n at hc hr
    subst hc
    simp only [Char.reduceToNat] at hr
    rcases hr with ⟨h1, h2⟩ | ⟨h1, h2⟩
    · interval_cases n <;> decide
    · interval_cases n <;> decide
  · cases h

theorem char_at_ne_NUL_lt (t : List Char) (i : Nat) (h : char_at t i ≠ NUL) : i < t.length := by
  by_contra hlt
  apply h
  unfold char_at
  rw [List.getD_eq_getElem?_getD, List.getElem?_eq_none (by omega)]
  rfl

theorem list_eq_of_length_four (t : List Char) (h : t.length = 4) :
    t = [char_at t 0, char_at t 1, char_at t 2, char_at t 3] := by
  match t, h with
  | [a, b, c, d], _ => rfl

/-- The six literal type names. -/
theorem lookup_type_some (t : List Char) (of : output_format) (v : TypeVars)
    (hnn : ∀ c ∈ t, c ≠ NUL) (h : lookup_type t of = some v) :
    t ∈ types.map (fun row => row.str) := by
  unfold lookup_type at h
  cases hf : types.find? (fun row => strcmp t row.str == 0) with
  | none => simp [hf] at h
  | some row =>
    have hp := List.find?_some hf
    have hm := List.mem_of_find?_eq_some hf
    have hs : cstr t = cstr row.str := by
      unfold strcmp at hp
      by_contra hne
      simp [hne] at hp
    rw [cstr_of_no_nul t hnn] at hs
    have hrow : cstr row.str = row.str := by
      simp only [types, List.mem_cons, List.mem_singleton, List.not_mem_nil, or_false] at hm
      rcases hm with rfl | rfl | rfl | rfl | rfl | rfl <;> decide
    rw [hrow] at hs
    rw [hs]
    exact List.mem_map_of_mem _ hm

/-- Exactly which arguments of `-t` are accepted: those whose first four
characters (the part `snprintf` stores) are one of the six literal names or a
fixed-point name `fpXY` / `spXY` over `[0-9a-f]` with the right bit count. -/
theorem type_accepted_iff (targ : List Char) (of : output_format) :
    (∃ v, validate_type (snprintf zero_buffer KEYBUFSIZE targ) of = Except.ok v) ↔
      ((cstr targ).take 4 ∈ types.map (fun row => row.str) ∨
       ∃ x y, x < 16 ∧ y < 16 ∧
        (((cstr targ).take 4 = ['f', 'p', hex_digit x, hex_digit y] ∧ x + y = 16) ∨
         ((cstr targ).take 4 = ['s', 'p', hex_digit x, hex_digit y] ∧ x + y = 15))) := by
  have hnn := take_cstr_no_nul targ 4
  have hlen : ((cstr targ).take 4).length ≤ 4 := by
    rw [List.length_take]; omega
  rw [validate_type_snprintf]
  generalize (cstr targ).take 4 = t at hnn hlen
  constructor
  · rintro ⟨v, hv⟩
    unfold validate_type at hv
    cases hfp : validate_fixed_point t with
    | none =>
      rw [hfp] at hv
      simp only [] at hv
      cases hl : lookup_type t of with
      | none => simp [hl] at hv
      | some w => exact Or.inl (lookup_type_some t of w hnn hl)
    | some r =>
      rw [hfp] at hv
      simp only [] at hv
      subst hv
      right
      unfold validate_fixed_point at hfp
      split at hfp
      · rename_i hhead
        cases h2 : fp_bits (char_at t 2) with
        | none => simp [h2] at hfp
        | some x =>
          cases h3 : fp_bits (char_at t 3) with
          | none => simp [h2, h3] at hfp
          | some y =>
            simp only [h2, h3] at hfp
            obtain ⟨hx, ex⟩ := fp_bits_eq_some _ _ h2
            obtain ⟨hy, ey⟩ := fp_bits_eq_some _ _ h3
            have hne3 : char_at t 3 ≠ NUL := by
              intro e
              rw [e, fp_bits_NUL] at h3
              cases h3
            have hl4 : t.length = 4 := by
              have := char_at_ne_NUL_lt t 3 hne3
              omega
            have ht := list_eq_of_length_four t hl4
            refine ⟨x, y, hx, hy, ?_⟩
            split at hfp
            · simp at hfp
            · rename_i hf
              split at hfp
              · simp at hfp
              · rename_i hs
                rcases hhead.1 with h0 | h0
                · left
                  refine ⟨?_, ?_⟩
                  · rw [ht, h0, hhead.2, ← ex, ← ey]
                  · by_contra hne
                    exact hf ⟨h0, hne⟩
                · right
                  refine ⟨?_, ?_⟩
                  · rw [ht, h0, hhead.2, ← ex, ← ey]
                  · by_contra hne
                    exact hs ⟨h0, hne⟩
      · cases hfp
  · rintro (hmem | ⟨x, y, hx, hy, ⟨ht, hsum⟩ | ⟨ht, hsum⟩⟩)
    · simp only [types, List.map_cons, List.map_nil, List.mem_cons, List.mem_singleton,
        List.not_mem_nil, or_false] at hmem
      rcases hmem with rfl | rfl | rfl | rfl | rfl | rfl <;> cases of <;> exact ⟨_, rfl⟩
    · have h := validate_type_fp (hex_digit x) (hex_digit y) of
      rw [fp_bits_hex_digit x hx, fp_bits_hex_digit y hy] at h
      simp only [hsum, ne_eq, not_true_eq_false, if_false] at h
      rw [validate_type_snprintf] at h
      have hc : (cstr ['f', 'p', hex_digit x, hex_digit y]).take 4 = t := by
        subst ht
        rw [cstr_of_no_nul _ hnn]
        rfl
      rw [hc] at h
      exact ⟨_, h⟩
    · have h := validate_type_sp (hex_digit x) (hex_digit y) of
      rw [fp_bits_hex_digit x hx, fp_bits_hex_digit y hy] at h
      simp only [hsum, ne_eq, not_true_eq_false, if_false] at h
      rw [validate_type_snprintf] at h
      have hc : (cstr ['s', 'p', hex_digit x, hex_digit y]).take 4 = t := by
        subst ht
        rw [cstr_of_no_nul _ hnn]
        rfl
      rw [hc] at h
      exact ⟨_, h⟩

/-! ### Unsigned, flag and length claims -/

theorem bytes_mem_four (b0 b1 b2 b3 : Nat) :
    bytes_mem [b0, b1, b2, b3] 0 = b0 ∧ bytes_mem [b0, b1, b2, b3] 1 = b1 ∧
    bytes_mem [b0, b1, b2, b3] 2 = b2 ∧ bytes_mem [b0, b1, b2, b3] 3 = b3 :=
  ⟨rfl, rfl, rfl, rfl⟩

/-- C14 (unsigned and flag decoding).  For every buffer of four bytes
`b0 b1 b2 b3` in read order (those beyond the requested length being 0 in a
run of `main`) and every output format: `ui8` decodes to `b0`, `ui16` to
`b0 * 256 + b1`, `ui32` to `b0 * 2^24 + b1 * 2^16 + b2 * 2^8 + b3`, and
`flag` to `b0 & 1`, which is 0 or 1. -/
theorem unsigned_flag_decode (b0 b1 b2 b3 : Nat) (hb0 : b0 < 256) (hb1 : b1 < 256)
    (hb2 : b2 < 256) (hb3 : b3 < 256) (of : output_format) :
    (decode smctype.ui8 of 0 0 (be32toh_bytes (bytes_mem [b0, b1, b2, b3]))).buf = b0 ∧
    (decode smctype.ui16 of 0 0 (be32toh_bytes (bytes_mem [b0, b1, b2, b3]))).buf
      = b0 * 256 + b1 ∧
    (decode smctype.ui32 of 0 0 (be32toh_bytes (bytes_mem [b0, b1, b2, b3]))).buf
      = b0 * 2 ^ 24 + b1 * 2 ^ 16 + b2 * 2 ^ 8 + b3 ∧
    (decode smctype.flag of 0 0 (be32toh_bytes (bytes_mem [b0, b1, b2, b3]))).buf
      = b0 &&& 1 ∧
    (b0 &&& 1 = 0 ∨ b0 &&& 1 = 1) := by
  obtain ⟨e0, e1, e2, e3⟩ := bytes_mem_four b0 b1 b2 b3
  have h8 : (be32toh_bytes (bytes_mem [b0, b1, b2, b3]) >>> 24) &&& 0xff = b0 := by
    rw [be32toh_top8, e0, Nat.mod_eq_of_lt hb0]
  have h16 : (be32toh_bytes (bytes_mem [b0, b1, b2, b3]) >>> 16) &&& 0xffff
      = b0 * 256 + b1 := by
    rw [be32toh_top16, e0, e1, Nat.mod_eq_of_lt hb0, Nat.mod_eq_of_lt hb1]
  have h32 : be32toh_bytes (bytes_mem [b0, b1, b2, b3])
      = b0 * 2 ^ 24 + b1 * 2 ^ 16 + b2 * 2 ^ 8 + b3 := by
    rw [be32toh_bytes_eq, e0, e1, e2, e3, Nat.mod_eq_of_lt hb0, Nat.mod_eq_of_lt hb1,
      Nat.mod_eq_of_lt hb2, Nat.mod_eq_of_lt hb3]
  have hflag : (be32toh_bytes (bytes_mem [b0, b1, b2, b3]) >>> 24) &&& 1 = b0 &&& 1 := by
    rw [h32, Nat.and_one_is_mod, Nat.and_one_is_mod, Nat.shiftRight_eq_div_pow]
    omega
  refine ⟨?_, ?_, ?_, ?_, ?_⟩
  · simp only [decode, h8]
  · simp only [decode, h16]
  · simp only [decode, h32]
  · simp only [decode, hflag]
  · rw [Nat.and_one_is_mod]
    omega

/-- C14 on the bytes `0x12 0x34 0x56 0x78`. -/
theorem unsigned_flag_decode_run :
    (0x12 : Nat) < 256 ∧ (0x34 : Nat) < 256 ∧ (0x56 : Nat) < 256 ∧ (0x78 : Nat) < 256 ∧
    (decode smctype.ui8 output_format.dec 0 0
      (be32toh_bytes (bytes_mem [0x12, 0x34, 0x56, 0x78]))).buf = 0x12 ∧
    (decode smctype.ui16 output_format.dec 0 0
      (be32toh_bytes (bytes_mem [0x12, 0x34, 0x56, 0x78]))).buf = 0x1234 ∧
    (decode smctype.ui32 output_format.dec 0 0
      (be32toh_bytes (bytes_mem [0x12, 0x34, 0x56, 0x78]))).buf = 0x12345678 ∧
    (decode smctype.flag output_format.dec 0 0
      (be32toh_bytes (bytes_mem [0x12, 0x34, 0x56, 0x78]))).buf = 0 := by
  have t := unsigned_flag_decode 0x12 0x34 0x56 0x78 (by decide) (by decide) (by decide)
    (by decide) output_format.dec
  exact ⟨by decide, by decide, by decide, by decide, t.1, t.2.1, t.2.2.1, t.2.2.2.1⟩

/-- Type and length that validation can set. -/
theorem validate_type_ok_cases (t : List Char) (of : output_format) (v : TypeVars)
    (h : validate_type t of = Except.ok v) :
    (v.type, v.len) ∈ [(smctype.ui8, 1), (smctype.ui16, 2), (smctype.ui32, 4),
      (smctype.si8, 1), (smctype.si16, 2), (smctype.flag, 1), (smctype.fp, 2),
      (smctype.sp, 2)] := by
  unfold validate_type at h
  cases hfp : validate_fixed_point t with
  | none =>
    rw [hfp] at h
    simp only [] at h
    cases hl : lookup_type t of with
    | none => simp [hl] at h
    | some w =>
      rw [hl] at h
      simp only [] at h
      injection h with h
      subst h
      unfold lookup_type at hl
      cases hf : types.find? (fun row => strcmp t row.str == 0) with
      | none => simp [hf] at hl
      | some row =>
        rw [hf] at hl
        simp only [] at hl
        injection hl with hl
        subst hl
        have hm := List.mem_of_find?_eq_some hf
        simp only [types, List.mem_cons, List.mem_singleton, List.not_mem_nil, or_false] at hm
        rcases hm with rfl | rfl | rfl | rfl | rfl | rfl <;> simp
  | some r =>
    rw [hfp] at h
    simp only [] at h
    subst h
    unfold validate_fixed_point at hfp
    split at hfp
    · cases h2 : fp_bits (char_at t 2) with
      | none => simp [h2] at hfp
      | some x =>
        cases h3 : fp_bits (char_at t 3) with
        | none => simp [h2, h3] at hfp
        | some y =>
          simp only [h2, h3] at hfp
          split at hfp
          · simp at hfp
          · split at hfp
            · simp at hfp
            · injection hfp with hfp
              injection hfp with hfp
              subst hfp
              by_cases c : char_at t 0 = 'f' <;> simp [c]
    · cases hfp

/-- When key, type, privilege and port access are in order, `main` runs the
read transaction with the length that validation has set. -/
theorem main_reads_len (karg targ : List Char) (of : output_format) (v : TypeVars) (hw : Hw)
    (hk : strlen (snprintf zero_buffer KEYBUFSIZE karg) = 4)
    (ht : validate_type (snprintf zero_buffer KEYBUFSIZE targ) of = Except.ok v) :
    main karg targ of 0 Option.none hw
      = if (read_smc APPLESMC_READ_CMD (snprintf zero_buffer KEYBUFSIZE karg) (fun _ => 0)
              v.len hw).ret ≠ 0
        then (Outcome.abort,
              (read_smc APPLESMC_READ_CMD (snprintf zero_buffer KEYBUFSIZE karg) (fun _ => 0)
                v.len hw).hw)
        else (Outcome.ret 0,
              output_result (snprintf zero_buffer KEYBUFSIZE karg) of v
                (decode v.type of v.fp_int_bits v.fp_fraction_bits
                  (be32toh_bytes
                    (read_smc APPLESMC_READ_CMD (snprintf zero_buffer KEYBUFSIZE karg)
                      (fun _ => 0) v.len hw).buffer))
                (read_smc APPLESMC_READ_CMD (snprintf zero_buffer KEYBUFSIZE karg) (fun _ => 0)
                  v.len hw).hw) := by
  simp only [main, hk, ht, ne_eq, not_true_eq_false, if_false]

/-- C13 (type-to-length mapping).  Whenever validation accepts a type argument
it sets one of the pairs type/length `ui8`/1, `si8`/1, `flag`/1, `ui16`/2,
`si16`/2, `fp`/2, `sp`/2, `ui32`/4, so the length is 1, 2 or 4 and lies
within `1 .. APPLESMC_MAX_DATA_LENGTH`; the six literal names get the type of
their name and every accepted `fpXY` / `spXY` gets `fp` / `sp`; and this
length is the `len` argument of the `read_smc` call that `main` makes. -/
theorem type_length (targ : List Char) (of : output_format) (v : TypeVars)
    (h : validate_type (snprintf zero_buffer KEYBUFSIZE targ) of = Except.ok v) :
    (((v.type = smctype.ui8 ∨ v.type = smctype.si8 ∨ v.type = smctype.flag) ∧ v.len = 1) ∨
     ((v.type = smctype.ui16 ∨ v.type = smctype.si16 ∨ v.type = smctype.fp
        ∨ v.type = smctype.sp) ∧ v.len = 2) ∨
     (v.type = smctype.ui32 ∧ v.len = 4)) ∧
    (v.len = 1 ∨ v.len = 2 ∨ v.len = 4) ∧
    (1 ≤ v.len ∧ v.len ≤ APPLESMC_MAX_DATA_LENGTH) ∧
    (∀ w, validate_type (snprintf zero_buffer KEYBUFSIZE ['u', 'i', '8']) of = Except.ok w →
      w.type = smctype.ui8 ∧ w.len = 1) ∧
    (∀ w, validate_type (snprintf zero_buffer KEYBUFSIZE ['s', 'i', '8']) of = Except.ok w →
      w.type = smctype.si8 ∧ w.len = 1) ∧
    (∀ w, validate_type (snprintf zero_buffer KEYBUFSIZE ['f', 'l', 'a', 'g']) of = Except.ok w →
      w.type = smctype.flag ∧ w.len = 1) ∧
    (∀ w, validate_type (snprintf zero_buffer KEYBUFSIZE ['u', 'i', '1', '6']) of = Except.ok w →
      w.type = smctype.ui16 ∧ w.len = 2) ∧
    (∀ w, validate_type (snprintf zero_buffer KEYBUFSIZE ['s', 'i', '1', '6']) of = Except.ok w →
      w.type = smctype.si16 ∧ w.len = 2) ∧
    (∀ w, validate_type (snprintf zero_buffer KEYBUFSIZE ['u', 'i', '3', '2']) of = Except.ok w →
      w.type = smctype.ui32 ∧ w.len = 4) ∧
    (∀ X Y w, validate_type (snprintf zero_buffer KEYBUFSIZE ['f', 'p', X, Y]) of = Except.ok w →
      w.type = smctype.fp ∧ w.len = 2) ∧
    (∀ X Y w, validate_type (snprintf zero_buffer KEYBUFSIZE ['s', 'p', X, Y]) of = Except.ok w →
      w.type = smctype.sp ∧ w.len = 2) ∧
    (∀ karg hw, strlen (snprintf zero_buffer KEYBUFSIZE karg) = 4 →
      main karg targ of 0 Option.none hw
        = if (read_smc APPLESMC_READ_CMD (snprintf zero_buffer KEYBUFSIZE karg) (fun _ => 0)
                v.len hw).ret ≠ 0
          then (Outcome.abort,
                (read_smc APPLESMC_READ_CMD (snprintf zero_buffer KEYBUFSIZE karg)
                  (fun _ => 0) v.len hw).hw)
          else (Outcome.ret 0,
                output_result (snprintf zero_buffer KEYBUFSIZE karg) of v
                  (decode v.type of v.fp_int_bits v.fp_fraction_bits
                    (be32toh_bytes
                      (read_smc APPLESMC_READ_CMD (snprintf zero_buffer KEYBUFSIZE karg)
                        (fun _ => 0) v.len hw).buffer))
                  (read_smc APPLESMC_READ_CMD (snprintf zero_buffer KEYBUFSIZE karg)
                    (fun _ => 0) v.len hw).hw)) := by
  have hc := validate_type_ok_cases _ of v h
  have lit : ∀ (name : List Char) (ty : smctype) (n : Nat) (w : TypeVars),
      name.length ≤ 4 → (∀ c ∈ name, c ≠ NUL) →
      (∀ o, ∃ f, validate_type name o = Except.ok ⟨ty, n, f, 0, 0⟩) →
      validate_type (snprintf zero_buffer KEYBUFSIZE name) of = Except.ok w →
      w.type = ty ∧ w.len = n := by
    intro name ty n w hl hn hval hw
    obtain ⟨f, hf⟩ := hval of
    rw [validate_type_literal name of _ hl hn hf] at hw
    injection hw with hw
    subst hw
    exact ⟨rfl, rfl⟩
  have hfix : ∀ (X Y : Char) (w : TypeVars),
      validate_type (snprintf zero_buffer KEYBUFSIZE ['f', 'p', X, Y]) of = Except.ok w →
      w.type = smctype.fp ∧ w.len = 2 := by
    intro X Y w hw
    rw [validate_type_fp] at hw
    cases hx : fp_bits X with
    | none => simp [hx] at hw
    | some x =>
      cases hy : fp_bits Y with
      | none => simp [hx, hy] at hw
      | some y =>
        simp only [hx, hy] at hw
        split at hw
        · cases hw
        · injection hw with hw
          subst hw
          exact ⟨rfl, rfl⟩
  have hsix : ∀ (X Y : Char) (w : TypeVars),
      validate_type (snprintf zero_buffer KEYBUFSIZE ['s', 'p', X, Y]) of = Except.ok w →
      w.type = smctype.sp ∧ w.len = 2 := by
    intro X Y w hw
    rw [validate_type_sp] at hw
    cases hx : fp_bits X with
    | none => simp [hx] at hw
    | some x =>
      cases hy : fp_bits Y with
      | none => simp [hx, hy] at hw
      | some y =>
        simp only [hx, hy] at hw
        split at hw
        · cases hw
        · injection hw with hw
          subst hw
          exact ⟨rfl, rfl⟩
  refine ⟨?_, ?_, ?_, ?_, ?_, ?_, ?_, ?_, ?_, hfix, hsix, ?_⟩
  · simp only [List.mem_cons, List.mem_singleton, List.not_mem_nil, or_false, Prod.mk.injEq]
      at hc
    rcases hc with ⟨a, b⟩ | ⟨a, b⟩ | ⟨a, b⟩ | ⟨a, b⟩ | ⟨a, b⟩ | ⟨a, b⟩ | ⟨a, b⟩ | ⟨a, b⟩ <;>
      simp [a, b]
  · simp only [List.mem_cons, List.mem_singleton, List.not_mem_nil, or_false, Prod.mk.injEq]
      at hc
    rcases hc with ⟨_, b⟩ | ⟨_, b⟩ | ⟨_, b⟩ | ⟨_, b⟩ | ⟨_, b⟩ | ⟨_, b⟩ | ⟨_, b⟩ | ⟨_, b⟩ <;>
      simp [b]
  · simp only [List.mem_cons, List.mem_singleton, List.not_mem_nil, or_false, Prod.mk.injEq]
      at hc
    rcases hc with ⟨_, b⟩ | ⟨_, b⟩ | ⟨_, b⟩ | ⟨_, b⟩ | ⟨_, b⟩ | ⟨_, b⟩ | ⟨_, b⟩ | ⟨_, b⟩ <;>
      simp [b, APPLESMC_MAX_DATA_LENGTH]
  · intro w
    exact lit _ _ _ w (by decide) (by decide) (fun o => by cases o <;> exact ⟨_, rfl⟩)
  · intro w
    exact lit _ _ _ w (by decide) (by decide) (fun o => by cases o <;> exact ⟨_, rfl⟩)
  · intro w
    exact lit _ _ _ w (by decide) (by decide) (fun o => by cases o <;> exact ⟨_, rfl⟩)
  · intro w
    exact lit _ _ _ w (by decide) (by decide) (fun o => by cases o <;> exact ⟨_, rfl⟩)
  · intro w
    exact lit _ _ _ w (by decide) (by decide) (fun o => by cases o <;> exact ⟨_, rfl⟩)
  · intro w
    exact lit _ _ _ w (by decide) (by decide) (fun o => by cases o <;> exact ⟨_, rfl⟩)
  · intro karg hw hk
    exact main_reads_len karg targ of v hw hk h

/-- C13 on the name `ui32`: it is accepted, with length 4. -/
theorem type_length_ui32 :
    validate_type (snprintf zero_buffer KEYBUFSIZE ['u', 'i', '3', '2']) output_format.dec
      = Except.ok ⟨smctype.ui32, 4, some "%u", 0, 0⟩ ∧
    ((4 : Nat) = 1 ∨ (4 : Nat) = 2 ∨ (4 : Nat) = 4) := by
  have h : validate_type (snprintf zero_buffer KEYBUFSIZE ['u', 'i', '3', '2'])
      output_format.dec = Except.ok ⟨smctype.ui32, 4, some "%u", 0, 0⟩ :=
    validate_type_literal _ _ _ (by decide) (by decide) rfl
  exact ⟨h, (type_length ['u', 'i', '3', '2'] output_format.dec _ h).2.1⟩

/-! ### Algebra of the fixed-point decodings -/

/-- What validation stores for an accepted name `fpXY`. -/
theorem fp_accepted_vars (X Y : Char) (of : output_format) (v : TypeVars)
    (hacc : validate_type (snprintf zero_buffer KEYBUFSIZE ['f', 'p', X, Y]) of = Except.ok v) :
    ∃ x y, x + y = 16 ∧ x < 16 ∧ y < 16 ∧ v = ⟨smctype.fp, 2, some "%d.%u", x, y⟩ := by
  rw [validate_type_fp] at hacc
  cases hx : fp_bits X with
  | none => simp [hx] at hacc
  | some x =>
    cases hy : fp_bits Y with
    | none => simp [hx, hy] at hacc
    | some y =>
      simp only [hx, hy] at hacc
      split at hacc
      · cases hacc
      · rename_i hsum
        injection hacc with hv
        exact ⟨x, y, by simpa using hsum, fp_bits_lt X x hx, fp_bits_lt Y y hy, hv.symm⟩

/-- What validation stores for an accepted name `spXY`. -/
theorem sp_accepted_vars (X Y : Char) (of : output_format) (v : TypeVars)
    (hacc : validate_type (snprintf zero_buffer KEYBUFSIZE ['s', 'p', X, Y]) of = Except.ok v) :
    ∃ x y, x + y = 15 ∧ x < 16 ∧ y < 16 ∧ v = ⟨smctype.sp, 2, some "%d.%u", x, y⟩ := by
  rw [validate_type_sp] at hacc
  cases hx : fp_bits X with
  | none => simp [hx] at hacc
  | some x =>
    cases hy : fp_bits Y with
    | none => simp [hx, hy] at hacc
    | some y =>
      simp only [hx, hy] at hacc
      split at hacc
      · cases hacc
      · rename_i hsum
        injection hacc with hv
        exact ⟨x, y, by simpa using hsum, fp_bits_lt X x hx, fp_bits_lt Y y hy, hv.symm⟩

/-- The buffer holding the 16-bit raw value `V` in big-endian order. -/
theorem be32toh_raw16 (V : Nat) (hV : V < 65536) :
    (be32toh_bytes (bytes_mem [V / 256, V % 256]) >>> 16) &&& 0xffff = V := by
  rw [be32toh_top16]
  show V / 256 % 256 * 256 + V % 256 % 256 = V
  omega

/-- The `fp` case of the decode step in closed form. -/
theorem decode_fp_raw (of : output_format) (x y V : Nat) (hx : x ≤ 16) (hV : V < 65536) :
    decode smctype.fp of x y (be32toh_bytes (bytes_mem [V / 256, V % 256]))
      = ⟨V, ((V / 2 ^ y : Nat) : Int), V % 2 ^ (16 - x), false⟩ := by
  have hsh : V >>> y ≤ V := by
    rw [Nat.shiftRight_eq_div_pow]
    exact Nat.div_le_self _ _
  have hm : V &&& (0xffff >>> x) = V % 2 ^ (16 - x) := by
    rw [mask_eq x hx, Nat.shiftLeft_eq, Nat.one_mul, Nat.and_pow_two_sub_one_eq_mod]
  have hml : V % 2 ^ (16 - x) ≤ V := Nat.mod_le _ _
  simp only [decode, be32toh_raw16 V hV, hm, uint16_t_cast]
  rw [int32_t_cast_of_lt _ (by omega), Nat.shiftRight_eq_div_pow,
    Nat.mod_eq_of_lt (show V % 2 ^ (16 - x) < 65536 by omega)]

/-- C17 (unsigned fixed-point decoding is lossless).  For every accepted
`fpXY` and every 16-bit raw value `V` (stored big-endian), the decoded pair
satisfies `fp_int * 2^fracb + fp_fraction = V` with
`0 ≤ fp_fraction < 2^fracb` and `0 ≤ fp_int < 2^intb`; hence two raw values
that decode to the same pair are equal. -/
theorem fp_decode_lossless (X Y : Char) (of : output_format) (v : TypeVars) (V : Nat)
    (hacc : validate_type (snprintf zero_buffer KEYBUFSIZE ['f', 'p', X, Y]) of = Except.ok v)
    (hV : V < 65536) :
    (decode v.type of v.fp_int_bits v.fp_fraction_bits
        (be32toh_bytes (bytes_mem [V / 256, V % 256]))).fp_int * 2 ^ v.fp_fraction_bits
      + ((decode v.type of v.fp_int_bits v.fp_fraction_bits
          (be32toh_bytes (bytes_mem [V / 256, V % 256]))).fp_fraction : Int) = (V : Int) ∧
    (decode v.type of v.fp_int_bits v.fp_fraction_bits
        (be32toh_bytes (bytes_mem [V / 256, V % 256]))).fp_fraction < 2 ^ v.fp_fraction_bits ∧
    0 ≤ (decode v.type of v.fp_int_bits v.fp_fraction_bits
        (be32toh_bytes (bytes_mem [V / 256, V % 256]))).fp_int ∧
    (decode v.type of v.fp_int_bits v.fp_fraction_bits
        (be32toh_bytes (bytes_mem [V / 256, V % 256]))).fp_int < 2 ^ v.fp_int_bits ∧
    (∀ V2, V2 < 65536 →
      (decode v.type of v.fp_int_bits v.fp_fraction_bits
          (be32toh_bytes (bytes_mem [V2 / 256, V2 % 256]))).fp_int
        = (decode v.type of v.fp_int_bits v.fp_fraction_bits
          (be32toh_bytes (bytes_mem [V / 256, V % 256]))).fp_int →
      (decode v.type of v.fp_int_bits v.fp_fraction_bits
          (be32toh_bytes (bytes_mem [V2 / 256, V2 % 256]))).fp_fraction
        = (decode v.type of v.fp_int_bits v.fp_fraction_bits
          (be32toh_bytes (bytes_mem [V / 256, V % 256]))).fp_fraction →
      V2 = V) := by
  obtain ⟨x, y, hsum, hx, hy, hv⟩ := fp_accepted_vars X Y of v hacc
  subst hv
  have hxy : 16 - x = y := by omega
  have hd : ∀ W, W < 65536 →
      decode smctype.fp of x y (be32toh_bytes (bytes_mem [W / 256, W % 256]))
        = ⟨W, ((W / 2 ^ y : Nat) : Int), W % 2 ^ y, false⟩ := by
    intro W hW
    rw [decode_fp_raw of x y W (by omega) hW, hxy]
  have hpos : 0 < 2 ^ y := Nat.two_pow_pos y
  have hsplit : ∀ W : Nat, W / 2 ^ y * 2 ^ y + W % 2 ^ y = W := fun W => by
    rw [Nat.mul_comm]; exact Nat.div_add_mod W (2 ^ y)
  simp only [hd V hV]
  refine ⟨?_, Nat.mod_lt _ hpos, ?_, ?_, ?_⟩
  · exact_mod_cast hsplit V
  · exact_mod_cast Nat.zero_le _
  · have h16 : (2 : Nat) ^ 16 = 2 ^ x * 2 ^ y := by rw [← Nat.pow_add, hsum]
    have hlt : V / 2 ^ y < 2 ^ x := by
      rw [Nat.div_lt_iff_lt_mul hpos, ← h16]
      exact hV
    exact_mod_cast hlt
  · intro V2 hV2 e1 e2
    simp only [hd V2 hV2] at e1 e2
    have e1' : V2 / 2 ^ y = V / 2 ^ y := by exact_mod_cast e1
    rw [← hsplit V2, ← hsplit V, e1', e2]

/-- C17 on `fpe2` and the raw value `0x0302`: 192 * 4 + 2 = 0x0302. -/
theorem fp_decode_lossless_fpe2 :
    validate_type (snprintf zero_buffer KEYBUFSIZE ['f', 'p', 'e', '2']) output_format.dec
      = Except.ok ⟨smctype.fp, 2, some "%d.%u", 14, 2⟩ ∧
    (0x0302 : Nat) < 65536 ∧
    (decode smctype.fp output_format.dec 14 2
        (be32toh_bytes (bytes_mem [0x0302 / 256, 0x0302 % 256]))).fp_int * 2 ^ 2
      + ((decode smctype.fp output_format.dec 14 2
          (be32toh_bytes (bytes_mem [0x0302 / 256, 0x0302 % 256]))).fp_fraction : Int)
      = ((0x0302 : Nat) : Int) := by
  have h : validate_type (snprintf zero_buffer KEYBUFSIZE ['f', 'p', 'e', '2'])
      output_format.dec = Except.ok ⟨smctype.fp, 2, some "%d.%u", 14, 2⟩ := by
    have e1 : fp_bits 'e' = some 14 := by decide
    have e2 : fp_bits '2' = some 2 := by decide
    rw [validate_type_fp, e1, e2]
    rfl
  exact ⟨h, by decide,
    (fp_decode_lossless 'e' '2' output_format.dec _ 0x0302 h (by decide)).1⟩

/-- Flipping bit 15 of a 16-bit value, arithmetically. -/
theorem xor_bit15 (V : Nat) (hV : V < 65536) : V ^^^ 0x8000 = (V + 32768) % 65536 := by
  apply Nat.eq_of_testBit_eq
  intro i
  have h15 : (0x8000 : Nat) = 2 ^ 15 := by decide
  have h16 : (65536 : Nat) = 2 ^ 16 := by decide
  rw [Nat.testBit_xor, h15, h16, Nat.testBit_mod_two_pow, Nat.testBit_two_pow,
    Nat.add_comm V (2 ^ 15)]
  by_cases hi : i < 15
  · rw [Nat.testBit_two_pow_add_gt hi]
    have : ¬ 15 = i := by omega
    simp [this]
    omega
  · by_cases he : i = 15
    · subst he
      rw [Nat.testBit_two_pow_add_eq]
      simp
    · have hgt : 16 ≤ i := by omega
      have hlt : V < 2 ^ i :=
        Nat.lt_of_lt_of_le (by rw [← h16]; exact hV) (Nat.pow_le_pow_right (by decide) hgt)
      have hne : ¬ 15 = i := by omega
      have hnl : ¬ i < 16 := by omega
      simp [Nat.testBit_lt_two_pow hlt, hne, hnl]

theorem flip_bit15 (V : Nat) (hV : V < 65536) :
    V ^^^ 0x8000 < 65536 ∧ (V ^^^ 0x8000) % 32768 = V % 32768 ∧
    (V ^^^ 0x8000).testBit 15 = !V.testBit 15 := by
  rw [xor_bit15 V hV]
  refine ⟨by omega, by omega, ?_⟩
  rw [Nat.testBit_to_div_mod, Nat.testBit_to_div_mod]
  by_cases h : V < 32768
  · have a : (V + 32768) % 65536 / 2 ^ 15 % 2 = 1 := by omega
    have b : ¬ V / 2 ^ 15 % 2 = 1 := by omega
    rw [decide_eq_true a, decide_eq_false b]
    rfl
  · have a : ¬ (V + 32768) % 65536 / 2 ^ 15 % 2 = 1 := by omega
    have b : V / 2 ^ 15 % 2 = 1 := by omega
    rw [decide_eq_false a, decide_eq_true b]
    rfl

/-- The `sp` case of the decode step in closed form. -/
theorem decode_sp_raw (of : output_format) (x y V : Nat) (hx : x ≤ 16) (hV : V < 65536) :
    decode smctype.sp of x y (be32toh_bytes (bytes_mem [V / 256, V % 256]))
      = ⟨V % 32768,
         if V.testBit 15 then -((V % 32768 / 2 ^ y : Nat) : Int)
         else ((V % 32768 / 2 ^ y : Nat) : Int),
         V % 32768 % 2 ^ (16 - x), V.testBit 15⟩ := by
  have hW : V &&& 0x7fff = V % 32768 := Nat.and_pow_two_sub_one_eq_mod V 15
  have hWlt : V % 32768 < 32768 := Nat.mod_lt _ (by decide)
  have hsh : (V % 32768) >>> y ≤ V % 32768 := by
    rw [Nat.shiftRight_eq_div_pow]
    exact Nat.div_le_self _ _
  have hm : (V % 32768) &&& (0xffff >>> x) = V % 32768 % 2 ^ (16 - x) := by
    rw [mask_eq x hx, Nat.shiftLeft_eq, Nat.one_mul, Nat.and_pow_two_sub_one_eq_mod]
  have hml : V % 32768 % 2 ^ (16 - x) ≤ V % 32768 := Nat.mod_le _ _
  simp only [decode, be32toh_raw16 V hV, clear_bit15 V hV, hW, hm, uint16_t_cast, sign_bit_eq]
  rw [int32_t_cast_of_lt _ (by omega), Nat.shiftRight_eq_div_pow,
    Nat.mod_eq_of_lt (show V % 32768 % 2 ^ (16 - x) < 65536 by omega)]
  cases hb : V.testBit 15
  · simp
  · simp only [if_true]
    rw [int32_t_cast_neg_of_lt _ (by
      have := Nat.div_le_self (V % 32768) (2 ^ y)
      omega)]

/-- C18 (signed fixed-point decoding and the sign bit).  For every accepted
`spXY` and every 16-bit raw value `V`, let `V'` be `V` with bit 15 flipped.
The two decode to the same pair `(fp_int, fp_fraction)` iff
`(V & 0x7fff) >> fracb = 0`; the fractions always agree and the integer
parts are each other's negatives, so with a non-zero integer part the
decodings differ only in the sign of `fp_int`; and with 15 fraction bits
(`sp0f`) every raw value decodes as its sign-flipped counterpart does. -/
theorem sp_sign_lost_iff (X Y : Char) (of : output_format) (v : TypeVars) (V : Nat)
    (hacc : validate_type (snprintf zero_buffer KEYBUFSIZE ['s', 'p', X, Y]) of = Except.ok v)
    (hV : V < 65536) :
    V ^^^ 0x8000 < 65536 ∧
    (((decode v.type of v.fp_int_bits v.fp_fraction_bits
          (be32toh_bytes (bytes_mem [(V ^^^ 0x8000) / 256, (V ^^^ 0x8000) % 256]))).fp_int
        = (decode v.type of v.fp_int_bits v.fp_fraction_bits
          (be32toh_bytes (bytes_mem [V / 256, V % 256]))).fp_int ∧
      (decode v.type of v.fp_int_bits v.fp_fraction_bits
          (be32toh_bytes (bytes_mem [(V ^^^ 0x8000) / 256, (V ^^^ 0x8000) % 256]))).fp_fraction
        = (decode v.type of v.fp_int_bits v.fp_fraction_bits
          (be32toh_bytes (bytes_mem [V / 256, V % 256]))).fp_fraction)
      ↔ (V &&& 0x7fff) >>> v.fp_fraction_bits = 0) ∧
    (decode v.type of v.fp_int_bits v.fp_fraction_bits
        (be32toh_bytes (bytes_mem [(V ^^^ 0x8000) / 256, (V ^^^ 0x8000) % 256]))).fp_fraction
      = (decode v.type of v.fp_int_bits v.fp_fraction_bits
        (be32toh_bytes (bytes_mem [V / 256, V % 256]))).fp_fraction ∧
    (decode v.type of v.fp_int_bits v.fp_fraction_bits
        (be32toh_bytes (bytes_mem [(V ^^^ 0x8000) / 256, (V ^^^ 0x8000) % 256]))).fp_int
      = - (decode v.type of v.fp_int_bits v.fp_fraction_bits
        (be32toh_bytes (bytes_mem [V / 256, V % 256]))).fp_int ∧
    (v.fp_fraction_bits = 15 →
      (decode v.type of v.fp_int_bits v.fp_fraction_bits
          (be32toh_bytes (bytes_mem [(V ^^^ 0x8000) / 256, (V ^^^ 0x8000) % 256]))).fp_int
        = (decode v.type of v.fp_int_bits v.fp_fraction_bits
          (be32toh_bytes (bytes_mem [V / 256, V % 256]))).fp_int) := by
  obtain ⟨x, y, hsum, hx, hy, hv⟩ := sp_accepted_vars X Y of v hacc
  subst hv
  obtain ⟨hF, hmod, hbit⟩ := flip_bit15 V hV
  have hW : V &&& 0x7fff = V % 32768 := Nat.and_pow_two_sub_one_eq_mod V 15
  simp only [decode_sp_raw of x y V (by omega) hV,
    decode_sp_raw of x y (V ^^^ 0x8000) (by omega) hF, hmod, hbit, hW,
    Nat.shiftRight_eq_div_pow]
  have hneg : (if (!V.testBit 15) = true then -((V % 32768 / 2 ^ y : Nat) : Int)
        else ((V % 32768 / 2 ^ y : Nat) : Int))
      = - (if V.testBit 15 = true then -((V % 32768 / 2 ^ y : Nat) : Int)
        else ((V % 32768 / 2 ^ y : Nat) : Int)) := by
    cases V.testBit 15 <;> simp
  refine ⟨hF, ?_, trivial, hneg, ?_⟩
  · rw [hneg]
    constructor
    · rintro ⟨h, _⟩
      cases hb : V.testBit 15 <;> simp only [hb, if_true, Bool.false_eq_true, if_false] at h <;>
        omega
    · intro h
      rw [h]
      simp
  · intro h15
    have hz : V % 32768 / 2 ^ y = 0 := by
      rw [h15]
      have : V % 32768 < 32768 := Nat.mod_lt _ (by decide)
      omega
    rw [hneg, hz]
    simp

/-- C18 on `sp0f`: it is accepted, and the raw values `0x1234` and `0x9234`
(bit 15 flipped) both decode to integer part 0. -/
theorem sp_sign_lost_sp0f :
    validate_type (snprintf zero_buffer KEYBUFSIZE ['s', 'p', '0', 'f']) output_format.dec
      = Except.ok ⟨smctype.sp, 2, some "%d.%u", 0, 15⟩ ∧
    (0x1234 : Nat) < 65536 ∧
    (decode smctype.sp output_format.dec 0 15
        (be32toh_bytes (bytes_mem [(0x1234 ^^^ 0x8000) / 256, (0x1234 ^^^ 0x8000) % 256]))).fp_int
      = (decode smctype.sp output_format.dec 0 15
        (be32toh_bytes (bytes_mem [0x1234 / 256, 0x1234 % 256]))).fp_int := by
  have h : validate_type (snprintf zero_buffer KEYBUFSIZE ['s', 'p', '0', 'f'])
      output_format.dec = Except.ok ⟨smctype.sp, 2, some "%d.%u", 0, 15⟩ := by
    have e1 : fp_bits '0' = some 0 := by decide
    have e2 : fp_bits 'f' = some 15 := by decide
    rw [validate_type_sp, e1, e2]
    rfl
  exact ⟨h, by decide,
    (sp_sign_lost_iff '0' 'f' output_format.dec _ 0x1234 h (by decide)).2.2.2.2 rfl⟩

/-! ### Classification of rejected type names -/

theorem char_at_of_getElem? (t : List Char) (i : Nat) (c : Char) (h : t[i]? = some c) :
    char_at t i = c := by
  unfold char_at
  rw [List.getD_eq_getElem?_getD, h]
  rfl

theorem getElem?_of_char_at (t : List Char) (i : Nat) (c : Char) (hc : c ≠ NUL)
    (h : char_at t i = c) : t[i]? = some c := by
  unfold char_at at h
  rw [List.getD_eq_getElem?_getD] at h
  cases ht : t[i]? with
  | none =>
    rw [ht] at h
    exact absurd h.symm hc
  | some d =>
    rw [ht] at h
    exact congrArg some h

theorem fp_bits_char_at_none (t : List Char) (i : Nat)
    (h : ¬ ∃ x, x < 16 ∧ t[i]? = some (hex_digit x)) : fp_bits (char_at t i) = Option.none := by
  cases hb : fp_bits (char_at t i) with
  | none => rfl
  | some x =>
    exfalso
    obtain ⟨hx, hc⟩ := fp_bits_eq_some _ _ hb
    have hne : hex_digit x ≠ NUL := by
      intro e
      rw [hc, e, fp_bits_NUL] at hb
      cases hb
    exact h ⟨x, hx, getElem?_of_char_at t i _ hne hc⟩

theorem fp_bits_char_at_some (t : List Char) (i x : Nat) (hx : x < 16)
    (h : t[i]? = some (hex_digit x)) : fp_bits (char_at t i) = some x := by
  rw [char_at_of_getElem? t i _ h]
  exact fp_bits_hex_digit x hx

theorem getElem?_take_four (l : List Char) (i : Nat) (hi : i < 4) :
    (l.take 4)[i]? = l[i]? := by
  rw [List.getElem?_take]
  exact if_pos hi

/-- The classification of the section "Validate key type" on any buffer
content `t` without a NUL character. -/
theorem validate_type_report (t : List Char) (of : output_format)
    (hnn : ∀ c ∈ t, c ≠ NUL) :
    ((t[0]? = some 'f' ∨ t[0]? = some 's') → t[1]? = some 'p' →
      ((¬ ∃ x, x < 16 ∧ t[2]? = some (hex_digit x)) ∨
       (¬ ∃ y, y < 16 ∧ t[3]? = some (hex_digit y))) →
      validate_type t of = Except.error ("Invalid fixed point data type.\n", [])) ∧
    (∀ x y, x < 16 → y < 16 → t[0]? = some 'f' → t[1]? = some 'p' →
      t[2]? = some (hex_digit x) → t[3]? = some (hex_digit y) → x + y ≠ 16 →
      validate_type t of = Except.error ("Invalid unsigned fixed point data type.\n", [])) ∧
    (∀ x y, x < 16 → y < 16 → t[0]? = some 's' → t[1]? = some 'p' →
      t[2]? = some (hex_digit x) → t[3]? = some (hex_digit y) → x + y ≠ 15 →
      validate_type t of = Except.error ("Invalid signed fixed point data type.\n", [])) ∧
    (¬ ((t[0]? = some 'f' ∨ t[0]? = some 's') ∧ t[1]? = some 'p') →
      t ∉ types.map (fun row => row.str) →
      validate_type t of = Except.error ("Key type \"%s\" is not known.\n", [Arg.str t])) ∧
    ((t[0]? = some 'f' ∨ t[0]? = some 's') → t[1]? = some 'p' →
      ∀ e, validate_type t of = Except.error e →
        e = ("Invalid fixed point data type.\n", []) ∨
        e = ("Invalid unsigned fixed point data type.\n", []) ∨
        e = ("Invalid signed fixed point data type.\n", [])) ∧
    (¬ ((t[0]? = some 'f' ∨ t[0]? = some 's') ∧ t[1]? = some 'p') →
      ∀ e, validate_type t of = Except.error e →
        e = ("Key type \"%s\" is not known.\n", [Arg.str t])) := by
  have hhead : (t[0]? = some 'f' ∨ t[0]? = some 's') → t[1]? = some 'p' →
      (char_at t 0 = 'f' ∨ char_at t 0 = 's') ∧ char_at t 1 = 'p' := by
    intro h0 h1
    refine ⟨?_, char_at_of_getElem? _ _ _ h1⟩
    rcases h0 with h | h
    · exact Or.inl (char_at_of_getElem? _ _ _ h)
    · exact Or.inr (char_at_of_getElem? _ _ _ h)
  have hnohead : ¬ ((t[0]? = some 'f' ∨ t[0]? = some 's') ∧ t[1]? = some 'p') →
      validate_fixed_point t = Option.none := by
    intro hh
    have hcond : ¬ ((char_at t 0 = 'f' ∨ char_at t 0 = 's') ∧ char_at t 1 = 'p') := by
      rintro ⟨c0, c1⟩
      apply hh
      refine ⟨?_, getElem?_of_char_at _ _ _ (by decide) c1⟩
      rcases c0 with c | c
      · exact Or.inl (getElem?_of_char_at _ _ _ (by decide) c)
      · exact Or.inr (getElem?_of_char_at _ _ _ (by decide) c)
    unfold validate_fixed_point
    rw [if_neg hcond]
  refine ⟨?_, ?_, ?_, ?_, ?_, ?_⟩
  · intro h0 h1 hbad
    have hc := hhead h0 h1
    simp only [validate_type, validate_fixed_point, if_pos hc]
    rcases hbad with h2 | h3
    · rw [fp_bits_char_at_none t 2 h2]
    · rw [fp_bits_char_at_none t 3 h3]
      cases fp_bits (char_at t 2) <;> rfl
  · intro x y hx hy h0 h1 h2 h3 hsum
    have hc := hhead (Or.inl h0) h1
    have c0 : char_at t 0 = 'f' := char_at_of_getElem? _ _ _ h0
    simp only [validate_type, validate_fixed_point, if_pos hc,
      fp_bits_char_at_some t 2 x hx h2, fp_bits_char_at_some t 3 y hy h3]
    rw [if_pos ⟨c0, hsum⟩]
  · intro x y hx hy h0 h1 h2 h3 hsum
    have hc := hhead (Or.inr h0) h1
    have c0 : char_at t 0 = 's' := char_at_of_getElem? _ _ _ h0
    have c0f : ¬ char_at t 0 = 'f' := by
      rw [c0]
      decide
    simp only [validate_type, validate_fixed_point, if_pos hc,
      fp_bits_char_at_some t 2 x hx h2, fp_bits_char_at_some t 3 y hy h3]
    rw [if_neg (fun h => c0f h.1), if_pos ⟨c0, hsum⟩]
  · intro hh hlit
    have hl : lookup_type t of = Option.none := by
      cases h : lookup_type t of with
      | none => rfl
      | some w => exact absurd (lookup_type_some t of w hnn h) hlit
    simp only [validate_type, hnohead hh, hl, cstr_of_no_nul _ hnn]
  · intro h0 h1 e he
    have hc := hhead h0 h1
    simp only [validate_type, validate_fixed_point, if_pos hc] at he
    cases h2 : fp_bits (char_at t 2) with
    | none =>
      rw [h2] at he
      injection he with he
      exact Or.inl he.symm
    | some x =>
      cases h3 : fp_bits (char_at t 3) with
      | none =>
        rw [h2, h3] at he
        injection he with he
        exact Or.inl he.symm
      | some y =>
        rw [h2, h3] at he
        by_cases ca : char_at t 0 = 'f' ∧ x + y ≠ 16
        · simp only [if_pos ca] at he
          injection he with he
          exact Or.inr (Or.inl he.symm)
        · by_cases cb : char_at t 0 = 's' ∧ x + y ≠ 15
          · simp only [if_neg ca, if_pos cb] at he
            injection he with he
            exact Or.inr (Or.inr he.symm)
          · simp only [if_neg ca, if_neg cb] at he
            cases he
  · intro hh e he
    simp only [validate_type, hnohead hh] at he
    cases hl : lookup_type t of with
    | none =>
      rw [hl] at he
      simp only [cstr_of_no_nul _ hnn] at he
      injection he with he
      exact he.symm
    | some w =>
      rw [hl] at he
      cases he

/-- C15 as the code has it, for every `-t` argument `targ` (the C string it
holds is `cstr targ`).  When the name starts with `f` or `s` followed by `p`:
if its third or fourth character is missing or is no lowercase hexadecimal
digit, the report is `Invalid fixed point data type.`; if both are such
digits and the bit counts do not add up to 16 (`f`) or 15 (`s`), the report
is `Invalid unsigned fixed point data type.` or
`Invalid signed fixed point data type.`; and whenever such a name is rejected
the report is one of these three.  When the name does not start that way, every
rejection is the report `Key type ... is not known.`, and that is the
outcome whenever the name as `main` stores it is none of the six literal
names. -/
theorem rejected_type_report (targ : List Char) (of : output_format) :
    (((cstr targ)[0]? = some 'f' ∨ (cstr targ)[0]? = some 's') →
      (cstr targ)[1]? = some 'p' →
      ((¬ ∃ x, x < 16 ∧ (cstr targ)[2]? = some (hex_digit x)) ∨
       (¬ ∃ y, y < 16 ∧ (cstr targ)[3]? = some (hex_digit y))) →
      validate_type (snprintf zero_buffer KEYBUFSIZE targ) of
        = Except.error ("Invalid fixed point data type.\n", [])) ∧
    (∀ x y, x < 16 → y < 16 → (cstr targ)[0]? = some 'f' → (cstr targ)[1]? = some 'p' →
      (cstr targ)[2]? = some (hex_digit x) → (cstr targ)[3]? = some (hex_digit y) →
      x + y ≠ 16 →
      validate_type (snprintf zero_buffer KEYBUFSIZE targ) of
        = Except.error ("Invalid unsigned fixed point data type.\n", [])) ∧
    (∀ x y, x < 16 → y < 16 → (cstr targ)[0]? = some 's' → (cstr targ)[1]? = some 'p' →
      (cstr targ)[2]? = some (hex_digit x) → (cstr targ)[3]? = some (hex_digit y) →
      x + y ≠ 15 →
      validate_type (snprintf zero_buffer KEYBUFSIZE targ) of
        = Except.error ("Invalid signed fixed point data type.\n", [])) ∧
    (((cstr targ)[0]? = some 'f' ∨ (cstr targ)[0]? = some 's') →
      (cstr targ)[1]? = some 'p' →
      ∀ e, validate_type (snprintf zero_buffer KEYBUFSIZE targ) of = Except.error e →
        e = ("Invalid fixed point data type.\n", []) ∨
        e = ("Invalid unsigned fixed point data type.\n", []) ∨
        e = ("Invalid signed fixed point data type.\n", [])) ∧
    (¬ (((cstr targ)[0]? = some 'f' ∨ (cstr targ)[0]? = some 's') ∧
        (cstr targ)[1]? = some 'p') →
      ∀ e, validate_type (snprintf zero_buffer KEYBUFSIZE targ) of = Except.error e →
        e = ("Key type \"%s\" is not known.\n", [Arg.str ((cstr targ).take 4)])) ∧
    (¬ (((cstr targ)[0]? = some 'f' ∨ (cstr targ)[0]? = some 's') ∧
        (cstr targ)[1]? = some 'p') →
      (cstr targ).take 4 ∉ types.map (fun row => row.str) →
      validate_type (snprintf zero_buffer KEYBUFSIZE targ) of
        = Except.error ("Key type \"%s\" is not known.\n",
            [Arg.str ((cstr targ).take 4)])) := by
  have H := validate_type_report ((cstr targ).take 4) of (take_cstr_no_nul targ 4)
  simp only [getElem?_take_four (cstr targ) 0 (by decide),
    getElem?_take_four (cstr targ) 1 (by decide),
    getElem?_take_four (cstr targ) 2 (by decide),
    getElem?_take_four (cstr targ) 3 (by decide)] at H
  rw [validate_type_snprintf]
  obtain ⟨H1, H2, H3, H4, H5, H6⟩ := H
  exact ⟨H1, H2, H3, H5, H6, H4⟩

/-- C15 refuted on concrete names.  `fpzz` (third and fourth character no
hexadecimal digits) and `fp` (third and fourth character missing) are
rejected, but reported with the fixed-point message, not as unknown types;
`main` exits with that message on `stderr`. -/
theorem malformed_fixed_point_report :
    (∀ x, x < 16 → hex_digit x ≠ 'z') ∧
    validate_type (snprintf zero_buffer KEYBUFSIZE ['f', 'p', 'z', 'z']) output_format.dec
      = Except.error ("Invalid fixed point data type.\n", []) ∧
    validate_type (snprintf zero_buffer KEYBUFSIZE ['f', 'p']) output_format.dec
      = Except.error ("Invalid fixed point data type.\n", []) ∧
    "Invalid fixed point data type.\n" ≠ "Key type \"%s\" is not known.\n" ∧
    main ['T', 'C', '0', 'P'] ['f', 'p', 'z', 'z'] output_format.dec 0 Option.none
        ⟨fun _ => 0, []⟩
      = (Outcome.exit 1,
         ⟨fun _ => 0, [Event.stderr "Invalid fixed point data type.\n" []]⟩) := by
  have h1 : validate_type (snprintf zero_buffer KEYBUFSIZE ['f', 'p', 'z', 'z'])
      output_format.dec = Except.error ("Invalid fixed point data type.\n", []) := by
    have e : fp_bits 'z' = Option.none := by decide
    rw [validate_type_fp, e]
  have h2 : validate_type (snprintf zero_buffer KEYBUFSIZE ['f', 'p'])
      output_format.dec = Except.error ("Invalid fixed point data type.\n", []) := by
    rw [validate_type_snprintf]
    rfl
  have hk : strlen (snprintf zero_buffer KEYBUFSIZE ['T', 'C', '0', 'P']) = 4 := by decide
  refine ⟨?_, h1, h2, by decide, ?_⟩
  · intro x hx
    interval_cases x <;> decide
  · simp only [main, hk, h1, ne_eq, not_true_eq_false, if_false]
    rfl

/-- C15 at the name `fpzzz`, longer than the option buffer: it starts with
`fp` and its third character is no hexadecimal digit, so
`rejected_type_report` gives the fixed-point report. -/
theorem rejected_type_report_fpzzz :
    validate_type (snprintf zero_buffer KEYBUFSIZE ['f', 'p', 'z', 'z', 'z']) output_format.hex
      = Except.error ("Invalid fixed point data type.\n", []) := by
  have hc : cstr ['f', 'p', 'z', 'z', 'z'] = ['f', 'p', 'z', 'z', 'z'] := by decide
  have hz : ¬ ∃ x, x < 16 ∧ (cstr ['f', 'p', 'z', 'z', 'z'])[2]? = some (hex_digit x) := by
    rw [hc]
    rintro ⟨x, hx, h⟩
    have : hex_digit x = 'z' := by
      simp at h
      exact h.symm
    revert this
    interval_cases x <;> decide
  exact (rejected_type_report ['f', 'p', 'z', 'z', 'z'] output_format.hex).1
    (Or.inl (by rw [hc]; rfl)) (by rw [hc]; rfl) (Or.inl hz)

/-! ### Bounds on one call of the polling functions -/

theorem total_sleep_append (a b : List Event) :
    total_sleep (a ++ b) = total_sleep a + total_sleep b := by
  simp [total_sleep, List.map_append, List.sum_append]

theorem status_reads_append (a b : List Event) :
    status_reads (a ++ b) = status_reads a ++ status_reads b := by
  simp [status_reads, List.filterMap_append]

theorem range_succ_map_skip (input : Nat → Nat) (p : Nat) :
    (List.range (p + 1)).map (fun j => input j % 256)
      = input 0 % 256 :: (List.range p).map (fun j => skip 1 input j % 256) := by
  rw [List.range_succ_eq_map, List.map_cons, List.map_map]
  rfl

theorem two_mul_le_of_mul_pow (us n : Nat) (h : us <<< 1 * 2 ^ n = APPLESMC_MAX_WAIT) :
    us + us ≤ APPLESMC_MAX_WAIT := by
  rw [← h, Nat.shiftLeft_eq]
  have : 0 < 2 ^ n := Nat.two_pow_pos n
  calc us + us = us * 2 ^ 1 * 1 := by ring
    _ ≤ us * 2 ^ 1 * 2 ^ n := Nat.mul_le_mul_left _ this

/-- Every run of the loop of `send_byte`, whatever the status bytes: it
consumes `p` status bytes, at most one per doubling left, reads nothing else,
writes only the byte `cmd` to `port`, `m` times with `m` below the number of
doublings left, and its sleeps add up to at most the rest of the backoff
schedule plus one retry sleep per write. -/
theorem send_byte_iter_run (cmd port n us status : Nat) (hw : Hw)
    (h : us * 2 ^ n = APPLESMC_MAX_WAIT) :
    ∃ T p m, (send_byte_iter cmd port n us status hw).2 = ⟨skip p hw.input, hw.trace ++ T⟩ ∧
      p ≤ n ∧ m ≤ n - 1 ∧
      status_reads T = (List.range p).map (fun j => hw.input j % 256) ∧
      data_reads T = [] ∧
      port_writes T = List.replicate m (cmd, port) ∧
      total_sleep T + us ≤ APPLESMC_MAX_WAIT + APPLESMC_RETRY_WAIT * m := by
  induction n generalizing us status hw with
  | zero =>
    refine ⟨[Event.stderr "%s(0x%02x, 0x%04x) fail: 0x%02x\n"
      [Arg.str "send_byte".toList, Arg.num cmd, Arg.num port, Arg.num status]], 0, 0,
      rfl, le_refl _, le_refl _, rfl, rfl, rfl, ?_⟩
    have : us = APPLESMC_MAX_WAIT := by simpa using h
    rw [this]
    simp [total_sleep]
  | succ n ih =>
    have hnext : us <<< 1 * 2 ^ n = APPLESMC_MAX_WAIT := by
      rw [Nat.shiftLeft_eq, ← h, Nat.pow_succ]; ring
    have h2 := two_mul_le_of_mul_pow us n hnext
    have hsh : us <<< 1 = us + us := by rw [Nat.shiftLeft_eq]; ring
    rw [send_byte_iter]
    simp only [inb_usleep, outb_usleep]
    by_cases c2 : hw.input 0 % 256 &&& 0x02 ≠ 0
    · rw [if_pos c2]
      obtain ⟨T, p, m, e, hp, hm, hs, hd, hwr, hsl⟩ := ih (us <<< 1) (hw.input 0 % 256)
        ⟨skip 1 hw.input,
          hw.trace ++ [Event.usleep us, Event.inb APPLESMC_CMD_PORT (hw.input 0 % 256)]⟩ hnext
      refine ⟨[Event.usleep us, Event.inb APPLESMC_CMD_PORT (hw.input 0 % 256)] ++ T,
        p + 1, m, ?_, by omega, by omega, ?_, ?_, ?_, ?_⟩
      · rw [e]
        simp only [List.append_assoc]
        rfl
      · rw [status_reads_append, hs, range_succ_map_skip]
        rfl
      · rw [data_reads_append, hd]
        rfl
      · rw [port_writes_append, hwr]
        rfl
      · rw [total_sleep_append]
        have : total_sleep [Event.usleep us,
            Event.inb APPLESMC_CMD_PORT (hw.input 0 % 256)] = us := by
          simp [total_sleep]
        rw [this]
        rw [hsh] at hsl
        omega
    · rw [if_neg c2]
      by_cases c4 : hw.input 0 % 256 &&& 0x04 ≠ 0
      · rw [if_pos c4]
        refine ⟨[Event.usleep us, Event.inb APPLESMC_CMD_PORT (hw.input 0 % 256)], 1, 0,
          rfl, by omega, by omega, rfl, rfl, rfl, ?_⟩
        have : total_sleep [Event.usleep us,
            Event.inb APPLESMC_CMD_PORT (hw.input 0 % 256)] = us := by
          simp [total_sleep]
        rw [this]
        omega
      · rw [if_neg c4]
        by_cases cm : us <<< 1 = APPLESMC_MAX_WAIT
        · rw [if_pos cm]
          refine ⟨[Event.usleep us, Event.inb APPLESMC_CMD_PORT (hw.input 0 % 256),
            Event.stderr "%s(0x%02x, 0x%04x) fail: 0x%02x\n"
              [Arg.str "send_byte".toList, Arg.num cmd, Arg.num port,
               Arg.num ((hw.input 0 % 256 : Nat) : Int)]], 1, 0,
            ?_, by omega, by omega, rfl, rfl, rfl, ?_⟩
          · simp only [send_byte_fail, fprintf_stderr, List.append_assoc, List.cons_append,
              List.nil_append]
          · have : total_sleep [Event.usleep us,
                Event.inb APPLESMC_CMD_PORT (hw.input 0 % 256),
                Event.stderr "%s(0x%02x, 0x%04x) fail: 0x%02x\n"
                  [Arg.str "send_byte".toList, Arg.num cmd, Arg.num port,
                   Arg.num ((hw.input 0 % 256 : Nat) : Int)]] = us := by
              simp [total_sleep]
            rw [this]
            omega
        · rw [if_neg cm]
          have hn : 1 ≤ n := by
            cases n with
            | zero =>
              exfalso
              apply cm
              simpa using hnext
            | succ k => omega
          obtain ⟨T, p, m, e, hp, hm, hs, hd, hwr, hsl⟩ := ih (us <<< 1) (hw.input 0 % 256)
            ⟨skip 1 hw.input,
              (hw.trace ++ [Event.usleep us, Event.inb APPLESMC_CMD_PORT (hw.input 0 % 256)])
                ++ [Event.usleep APPLESMC_RETRY_WAIT, Event.outb cmd port]⟩ hnext
          refine ⟨[Event.usleep us, Event.inb APPLESMC_CMD_PORT (hw.input 0 % 256),
            Event.usleep APPLESMC_RETRY_WAIT, Event.outb cmd port] ++ T, p + 1, m + 1,
            ?_, by omega, by omega, ?_, ?_, ?_, ?_⟩
          · rw [e]
            simp only [List.append_assoc, List.cons_append, List.nil_append]
            rfl
          · rw [status_reads_append, hs, range_succ_map_skip]
            rfl
          · rw [data_reads_append, hd]
            rfl
          · rw [port_writes_append, hwr]
            rfl
          · rw [total_sleep_append]
            have : total_sleep [Event.usleep us,
                Event.inb APPLESMC_CMD_PORT (hw.input 0 % 256),
                Event.usleep APPLESMC_RETRY_WAIT, Event.outb cmd port]
                = us + APPLESMC_RETRY_WAIT := by
              simp [total_sleep]
            rw [this]
            rw [hsh] at hsl
            simp only [APPLESMC_RETRY_WAIT, APPLESMC_MAX_WAIT] at *
            omega

/-- Every run of the loop of `wait_read`: it consumes `p` status bytes, at
most one per doubling left, writes nothing, reads no data, and its sleeps stay
within the rest of the backoff schedule. -/
theorem wait_read_iter_run (n us status : Nat) (hw : Hw)
    (h : us * 2 ^ n = APPLESMC_MAX_WAIT) :
    ∃ T p, (wait_read_iter n us status hw).2 = ⟨skip p hw.input, hw.trace ++ T⟩ ∧
      p ≤ n ∧
      status_reads T = (List.range p).map (fun j => hw.input j % 256) ∧
      data_reads T = [] ∧ port_writes T = [] ∧
      total_sleep T + us ≤ APPLESMC_MAX_WAIT := by
  induction n generalizing us status hw with
  | zero =>
    refine ⟨[Event.stderr "%s() fail: 0x%02x\n"
      [Arg.str "wait_read".toList, Arg.num status]], 0, rfl, le_refl _, rfl, rfl, rfl, ?_⟩
    have : us = APPLESMC_MAX_WAIT := by simpa using h
    rw [this]
    simp [total_sleep]
  | succ n ih =>
    have hnext : us <<< 1 * 2 ^ n = APPLESMC_MAX_WAIT := by
      rw [Nat.shiftLeft_eq, ← h, Nat.pow_succ]; ring
    have h2 := two_mul_le_of_mul_pow us n hnext
    have hsh : us <<< 1 = us + us := by rw [Nat.shiftLeft_eq]; ring
    have hts : total_sleep [Event.usleep us,
        Event.inb APPLESMC_CMD_PORT (hw.input 0 % 256)] = us := by
      simp [total_sleep]
    rw [wait_read_iter]
    simp only [inb_usleep]
    by_cases c1 : hw.input 0 % 256 &&& 0x01 ≠ 0
    · rw [if_pos c1]
      refine ⟨[Event.usleep us, Event.inb APPLESMC_CMD_PORT (hw.input 0 % 256)], 1,
        rfl, by omega, rfl, rfl, rfl, ?_⟩
      rw [hts]
      omega
    · rw [if_neg c1]
      obtain ⟨T, p, e, hp, hs, hd, hwr, hsl⟩ := ih (us <<< 1) (hw.input 0 % 256)
        ⟨skip 1 hw.input,
          hw.trace ++ [Event.usleep us, Event.inb APPLESMC_CMD_PORT (hw.input 0 % 256)]⟩ hnext
      refine ⟨[Event.usleep us, Event.inb APPLESMC_CMD_PORT (hw.input 0 % 256)] ++ T,
        p + 1, ?_, by omega, ?_, ?_, ?_, ?_⟩
      · rw [e]
        simp only [List.append_assoc]
        rfl
      · rw [status_reads_append, hs, range_succ_map_skip]
        rfl
      · rw [data_reads_append, hd]
        rfl
      · rw [port_writes_append, hwr]
        rfl
      · rw [total_sleep_append, hts]
        rw [hsh] at hsl
        omega

/-- Every call of `send_byte`, whatever the status bytes. -/
theorem send_byte_run (cmd port : Nat) (hw : Hw) :
    ∃ T p m, (send_byte cmd port hw).2 = ⟨skip p hw.input, hw.trace ++ T⟩ ∧
      p ≤ 13 ∧ m ≤ 12 ∧
      status_reads T = (List.range p).map (fun j => hw.input j % 256) ∧
      data_reads T = [] ∧
      port_writes T = List.replicate (m + 1) (cmd, port) ∧
      total_sleep T + APPLESMC_MIN_WAIT ≤ APPLESMC_MAX_WAIT + APPLESMC_RETRY_WAIT * m := by
  rw [send_byte_eq_iter]
  obtain ⟨T, p, m, e, hp, hm, hs, hd, hwr, hsl⟩ := send_byte_iter_run cmd port 13
    APPLESMC_MIN_WAIT 0 (outb cmd port hw) (by decide)
  refine ⟨Event.outb cmd port :: T, p, m, ?_, hp, by omega, ?_, ?_, ?_, ?_⟩
  · rw [e]
    simp only [outb, List.append_assoc, List.cons_append, List.nil_append]
  · show status_reads ([Event.outb cmd port] ++ T) = _
    rw [status_reads_append, hs]
    rfl
  · show data_reads ([Event.outb cmd port] ++ T) = _
    rw [data_reads_append, hd]
    rfl
  · show port_writes ([Event.outb cmd port] ++ T) = _
    rw [port_writes_append, hwr]
    rfl
  · show total_sleep ([Event.outb cmd port] ++ T) + _ ≤ _
    rw [total_sleep_append]
    have : total_sleep [Event.outb cmd port] = 0 := rfl
    rw [this]
    omega

/-- C19 (`send_byte` is bounded and sends what it was given).  For every byte
`cmd`, every `port` and every sequence of status bytes, the call returns (0 or
`-EIO`) having made `p ≤ 13` status polls, which are all its port reads, and
`m + 1 ≤ 13` port writes: the first one and `m ≤ 12` resends, each of the
byte `cmd` to `port` and none to any other port. -/
theorem send_byte_bounded (cmd port : Nat) (hw : Hw) :
    ((send_byte cmd port hw).1 = 0 ∨ (send_byte cmd port hw).1 = - EIO_errno) ∧
    ∃ T p m, (send_byte cmd port hw).2 = ⟨skip p hw.input, hw.trace ++ T⟩ ∧
      p ≤ 13 ∧ (status_reads T).length = p ∧
      status_reads T = (List.range p).map (fun j => hw.input j % 256) ∧
      data_reads T = [] ∧
      m ≤ 12 ∧ (port_writes T).length = m + 1 ∧ (port_writes T).length ≤ 13 ∧
      port_writes T = List.replicate (m + 1) (cmd, port) ∧
      (∀ e ∈ port_writes T, e = (cmd, port)) := by
  constructor
  · rw [send_byte_eq_iter]
    exact send_byte_iter_ret cmd port 13 APPLESMC_MIN_WAIT 0 (outb cmd port hw)
  · obtain ⟨T, p, m, e, hp, hm, hs, hd, hwr, _⟩ := send_byte_run cmd port hw
    refine ⟨T, p, m, e, hp, ?_, hs, hd, hm, ?_, ?_, hwr, ?_⟩
    · rw [hs]
      simp
    · rw [hwr]
      simp
    · rw [hwr]
      simp
      omega
    · intro x hx
      rw [hwr] at hx
      exact List.eq_of_mem_replicate hx

/-! ### Total sleeping time of one call -/

/-- C16 as the code has it.  For every sequence of status bytes the sleeps of
one `wait_read` add up to at most `APPLESMC_MAX_WAIT - APPLESMC_MIN_WAIT`
= 131056 microseconds, below the ceiling.  The sleeps of one `send_byte` add
up to at most that amount plus `APPLESMC_RETRY_WAIT` = 256 for each of its
`m ≤ 12` resends, hence to at most 134128 microseconds, and to at most
131056 when it does not resend. -/
theorem sleep_bound (cmd port : Nat) (hw : Hw) :
    (∃ T, (wait_read hw).2.trace = hw.trace ++ T ∧
      total_sleep T ≤ APPLESMC_MAX_WAIT - APPLESMC_MIN_WAIT ∧
      total_sleep T ≤ 131056 ∧ total_sleep T ≤ APPLESMC_MAX_WAIT) ∧
    (∃ T m, (send_byte cmd port hw).2.trace = hw.trace ++ T ∧
      port_writes T = List.replicate (m + 1) (cmd, port) ∧ m ≤ 12 ∧
      total_sleep T ≤ APPLESMC_MAX_WAIT - APPLESMC_MIN_WAIT + APPLESMC_RETRY_WAIT * m ∧
      total_sleep T ≤ 134128 ∧
      (m = 0 → total_sleep T ≤ APPLESMC_MAX_WAIT)) := by
  constructor
  · obtain ⟨T, p, e, _, _, _, _, hsl⟩ := wait_read_iter_run 13 APPLESMC_MIN_WAIT 0 hw
      (by decide)
    refine ⟨T, ?_, ?_, ?_, ?_⟩
    · rw [wait_read_eq_iter, e]
    all_goals simp only [APPLESMC_MAX_WAIT, APPLESMC_MIN_WAIT] at *
    all_goals omega
  · obtain ⟨T, p, m, e, _, hm, _, _, hwr, hsl⟩ := send_byte_run cmd port hw
    refine ⟨T, m, ?_, hwr, hm, ?_, ?_, ?_⟩
    · rw [e]
    all_goals simp only [APPLESMC_MAX_WAIT, APPLESMC_MIN_WAIT, APPLESMC_RETRY_WAIT] at *
    all_goals omega

/-- C16 refuted for `send_byte`.  On a controller whose status stays 0 (neither
settling nor accepting) one call of `send_byte` polls 13 times, resends 12
times and sleeps 134128 microseconds in all, more than
`APPLESMC_MAX_WAIT` = 131072; one call of `wait_read` on the same controller
sleeps 131056 microseconds. -/
theorem send_byte_sleeps_longer :
    total_sleep (send_byte APPLESMC_READ_CMD APPLESMC_CMD_PORT ⟨fun _ => 0, []⟩).2.trace
      = 134128 ∧
    APPLESMC_MAX_WAIT < 134128 ∧
    (send_byte APPLESMC_READ_CMD APPLESMC_CMD_PORT ⟨fun _ => 0, []⟩).1 = - EIO_errno ∧
    (port_writes
      (send_byte APPLESMC_READ_CMD APPLESMC_CMD_PORT ⟨fun _ => 0, []⟩).2.trace).length = 13 ∧
    (status_reads
      (send_byte APPLESMC_READ_CMD APPLESMC_CMD_PORT ⟨fun _ => 0, []⟩).2.trace).length = 13 ∧
    total_sleep (wait_read ⟨fun _ => 0, []⟩).2.trace = 131056 := by
  simp only [send_byte_eq_iter, wait_read_eq_iter]
  refine ⟨?_, ?_, ?_, ?_, ?_, ?_⟩ <;> decide

/-! ### The write transaction -/

theorem send_byte_ret (cmd port : Nat) (hw : Hw) :
    (send_byte cmd port hw).1 = 0 ∨ (send_byte cmd port hw).1 = - EIO_errno := by
  rw [send_byte_eq_iter]
  exact send_byte_iter_ret cmd port 13 APPLESMC_MIN_WAIT 0 (outb cmd port hw)

theorem send_byte_zero_iff (cmd port : Nat) (hw : Hw) :
    (send_byte cmd port hw).1 = 0 ↔ ∃ k, SendOk hw.input k := by
  rw [send_byte_eq_iter, send_byte_iter_ok_iff cmd port 13 _ _ _ (by decide)]
  constructor
  · rintro ⟨k, hk, h4, h2⟩
    classical
    have hex : ∃ k, k < 13 ∧ (hw.input k % 256 &&& 0x02 = 0 ∧ hw.input k % 256 &&& 0x04 ≠ 0) :=
      ⟨k, hk, h2, h4⟩
    refine ⟨Nat.find hex, (Nat.find_spec hex).1, (Nat.find_spec hex).2, ?_⟩
    intro j hj hacc
    have h13 := (Nat.find_spec hex).1
    exact Nat.find_min hex hj ⟨by omega, hacc⟩
  · rintro ⟨k, hk, ⟨h2, h4⟩, _⟩
    exact ⟨k, hk, h4, h2⟩

theorem send_all_cons (e : Nat × Nat) (rest : List (Nat × Nat)) (hw : Hw) :
    send_all (e :: rest) hw
      = if (send_byte e.1 e.2 hw).1 ≠ 0 then (- EIO_errno, (send_byte e.1 e.2 hw).2)
        else send_all rest (send_byte e.1 e.2 hw).2 := rfl

theorem send_all_ret (seq : List (Nat × Nat)) (hw : Hw) :
    (send_all seq hw).1 = 0 ∨ (send_all seq hw).1 = - EIO_errno := by
  induction seq generalizing hw with
  | nil => left; rfl
  | cons e rest ih =>
    rw [send_all_cons]
    split
    · right; rfl
    · exact ih _

theorem send_all_append (a b : List (Nat × Nat)) (hw : Hw) :
    send_all (a ++ b) hw
      = if (send_all a hw).1 ≠ 0 then send_all a hw else send_all b (send_all a hw).2 := by
  induction a generalizing hw with
  | nil => simp [send_all]
  | cons e rest ih =>
    rw [List.cons_append, send_all_cons, send_all_cons]
    by_cases c : (send_byte e.1 e.2 hw).1 ≠ 0
    · rw [if_pos c, if_pos c]
      have hne : (- EIO_errno : Int) ≠ 0 := by decide
      rw [if_pos (show (- EIO_errno, (send_byte e.1 e.2 hw).2).1 ≠ 0 from hne)]
    · rw [if_neg c, if_neg c]
      exact ih _

theorem send_argument_loop_eq (key : List Char) (n i : Nat) (hw : Hw) :
    send_argument_loop key n i hw
      = send_all ((List.range' i n).map (fun j => (key_byte key j, APPLESMC_DATA_PORT))) hw := by
  induction n generalizing i hw with
  | zero => rfl
  | succ n ih =>
    rw [send_argument_loop, List.range'_succ, List.map_cons, send_all_cons]
    simp only [ih]

theorem write_smc_data_eq (key : List Char) (buffer : Nat → Nat) (n i : Nat) (hw : Hw) :
    write_smc_data key buffer n i hw
      = if (send_all ((List.range' i n).map
            (fun j => (buffer j, APPLESMC_DATA_PORT))) hw).1 ≠ 0 then
          (- EIO_errno, fprintf_stderr "%s: write data fail\n" [Arg.str key]
            (send_all ((List.range' i n).map
              (fun j => (buffer j, APPLESMC_DATA_PORT))) hw).2)
        else send_all ((List.range' i n).map (fun j => (buffer j, APPLESMC_DATA_PORT))) hw := by
  induction n generalizing i hw with
  | zero => simp [write_smc_data, send_all]
  | succ n ih =>
    rw [write_smc_data, List.range'_succ, List.map_cons, send_all_cons]
    by_cases c : (send_byte (buffer i) APPLESMC_DATA_PORT hw).1 ≠ 0
    · rw [if_pos c, if_pos c]
      have hne : (- EIO_errno : Int) ≠ 0 := by decide
      rw [if_pos (show (- EIO_errno, (send_byte (buffer i) APPLESMC_DATA_PORT hw).2).1 ≠ 0
        from hne)]
    · rw [if_neg c, if_neg c]
      exact ih _ _

/-- The write transaction is the send phase over `write_sequence`, followed on
failure by one diagnostic line. -/
theorem write_smc_eq (cmd : Nat) (key : List Char) (buffer : Nat → Nat) (len : Nat) (hw : Hw) :
    ∃ fmt, write_smc cmd key buffer len hw
      = if (send_all (write_sequence cmd key buffer len) hw).1 ≠ 0 then
          (- EIO_errno, fprintf_stderr fmt [Arg.str key]
            (send_all (write_sequence cmd key buffer len) hw).2)
        else send_all (write_sequence cmd key buffer len) hw := by
  have hne : (- EIO_errno : Int) ≠ 0 := by decide
  simp only [write_smc, send_command, send_argument, send_argument_loop_eq, write_smc_data_eq,
    write_sequence, List.range_eq_range', send_all_cons, send_all_append]
  by_cases c : (send_byte cmd APPLESMC_CMD_PORT hw).1 ≠ 0
  · exact ⟨"%s: write arg fail\n", by simp only [c, if_true, hne, ne_eq, not_false_eq_true]⟩
  · simp only [c, if_false]
    by_cases a : (send_all (List.map (fun j => (key_byte key j, APPLESMC_DATA_PORT))
        (List.range' 0 4)) (send_byte cmd APPLESMC_CMD_PORT hw).2).1 ≠ 0
    · refine ⟨"%s: write arg fail\n", ?_⟩
      simp only [a, if_true, ne_eq, not_false_eq_true]
    · simp only [a, if_false]
      by_cases l : (send_byte len APPLESMC_DATA_PORT
          (send_all (List.map (fun j => (key_byte key j, APPLESMC_DATA_PORT))
            (List.range' 0 4)) (send_byte cmd APPLESMC_CMD_PORT hw).2).2).1 ≠ 0
      · exact ⟨"%.4s: write len fail\n", by simp only [l, if_true, hne, ne_eq, not_false_eq_true]⟩
      · simp only [l, if_false]
        exact ⟨"%s: write data fail\n", rfl⟩

theorem write_runs_nil_right (seq : List (Nat × Nat)) : write_runs seq [] = [] := by
  cases seq <;> rfl

/-- A send phase all of whose sends are answered, at the polls `ks`. -/
theorem send_all_ok (ks : List Nat) (seq : List (Nat × Nat)) (hw : Hw)
    (hs : SendsOk ks hw.input) (hl : ks.length = seq.length) :
    ∃ T ms, send_all seq hw = (0, ⟨after_sends ks hw.input, hw.trace ++ T⟩) ∧
      ms.length = seq.length ∧ (∀ m ∈ ms, 1 ≤ m) ∧
      port_writes T = write_runs seq ms ∧ data_reads T = [] := by
  induction ks generalizing seq hw with
  | nil =>
    cases seq with
    | nil => exact ⟨[], [], by simp [send_all, after_sends], rfl, by simp, rfl, rfl⟩
    | cons e rest => simp at hl
  | cons k ks ih =>
    cases seq with
    | nil => simp at hl
    | cons e rest =>
      obtain ⟨T0, m0, e0, p0, w0, d0⟩ := send_byte_ok e.1 e.2 hw k hs.1
      obtain ⟨T1, ms, e1, l1, p1, w1, d1⟩ := ih rest ⟨skip (k + 1) hw.input, hw.trace ++ T0⟩
        hs.2 (by simpa using hl)
      refine ⟨T0 ++ T1, m0 :: ms, ?_, by simp [l1], ?_, ?_, ?_⟩
      · rw [send_all_cons, e0]
        simp only [ne_eq, not_true_eq_false, if_false, e1, List.append_assoc, after_sends]
      · intro m hm
        rcases List.mem_cons.mp hm with h | h
        · omega
        · exact p1 m h
      · rw [port_writes_append, w0, w1]
        rfl
      · rw [data_reads_append, d0, d1]
        rfl

/-- A send phase whose sends are answered at the polls `ks` and whose next
send is not answered: it fails there, and nothing of the sequence beyond the
failing pair is written. -/
theorem send_all_fail_at (ks : List Nat) (seq : List (Nat × Nat)) (hw : Hw)
    (hs : SendsOk ks hw.input) (hlt : ks.length < seq.length)
    (hf : ¬ ∃ k, SendOk (after_sends ks hw.input) k) :
    (send_all seq hw).1 = - EIO_errno ∧
    ∃ T ms, (send_all seq hw).2.trace = hw.trace ++ T ∧
      ms.length = ks.length + 1 ∧ (∀ m ∈ ms, 1 ≤ m) ∧
      port_writes T = write_runs seq ms ∧ data_reads T = [] := by
  induction ks generalizing seq hw with
  | nil =>
    cases seq with
    | nil => simp at hlt
    | cons e rest =>
      have c : (send_byte e.1 e.2 hw).1 ≠ 0 := by
        rw [ne_eq, send_byte_zero_iff]
        exact hf
      obtain ⟨T, p, m, e0, _, _, _, hd, hwr, _⟩ := send_byte_run e.1 e.2 hw
      rw [send_all_cons, if_pos c]
      refine ⟨rfl, T, [m + 1], ?_, rfl, ?_, ?_, hd⟩
      · show (send_byte e.1 e.2 hw).2.trace = _
        rw [e0]
      · intro x hx
        simp at hx
        omega
      · rw [hwr]
        simp [write_runs, write_runs_nil_right]
  | cons k ks ih =>
    cases seq with
    | nil => simp at hlt
    | cons e rest =>
      obtain ⟨T0, m0, e0, p0, w0, d0⟩ := send_byte_ok e.1 e.2 hw k hs.1
      obtain ⟨r1, T1, ms, e1, l1, p1, w1, d1⟩ := ih rest
        ⟨skip (k + 1) hw.input, hw.trace ++ T0⟩ hs.2 (by simpa using hlt) hf
      rw [send_all_cons, e0]
      simp only [ne_eq, not_true_eq_false, if_false]
      refine ⟨r1, T0 ++ T1, m0 :: ms, ?_, by simp [l1], ?_, ?_, ?_⟩
      · rw [e1]
        simp only [List.append_assoc]
      · intro m hm
        rcases List.mem_cons.mp hm with h | h
        · omega
        · exact p1 m h
      · rw [port_writes_append, w0, w1]
        rfl
      · rw [data_reads_append, d0, d1]
        rfl

theorem send_all_zero_iff (seq : List (Nat × Nat)) (hw : Hw) :
    (send_all seq hw).1 = 0 ↔ ∃ ks, ks.length = seq.length ∧ SendsOk ks hw.input := by
  constructor
  · intro h
    induction seq generalizing hw with
    | nil => exact ⟨[], rfl, trivial⟩
    | cons e rest ih =>
      rw [send_all_cons] at h
      by_cases c : (send_byte e.1 e.2 hw).1 ≠ 0
      · rw [if_pos c] at h
        have hne : (- EIO_errno : Int) ≠ 0 := by decide
        exact absurd h hne
      · rw [if_neg c] at h
        obtain ⟨k, hk⟩ := (send_byte_zero_iff e.1 e.2 hw).mp (by simpa using c)
        obtain ⟨T0, m0, e0, _⟩ := send_byte_ok e.1 e.2 hw k hk
        rw [e0] at h
        obtain ⟨ks, hl, hks⟩ := ih _ h
        exact ⟨k :: ks, by simp [hl], hk, hks⟩
  · rintro ⟨ks, hl, hks⟩
    obtain ⟨T, ms, e, _⟩ := send_all_ok ks seq hw hks hl
    rw [e]

/-- Of `n` successive sends either all are answered, or there is a first one
that is not. -/
theorem sends_dichotomy (n : Nat) (input : Nat → Nat) :
    (∃ ks, ks.length = n ∧ SendsOk ks input) ∨
    (∃ ks, ks.length < n ∧ SendsOk ks input ∧ ¬ ∃ k, SendOk (after_sends ks input) k) := by
  induction n generalizing input with
  | zero => exact Or.inl ⟨[], rfl, trivial⟩
  | succ n ih =>
    by_cases h : ∃ k, SendOk input k
    · obtain ⟨k, hk⟩ := h
      rcases ih (skip (k + 1) input) with ⟨ks, hl, hks⟩ | ⟨ks, hl, hks, hf⟩
      · exact Or.inl ⟨k :: ks, by simp [hl], hk, hks⟩
      · exact Or.inr ⟨k :: ks, by simp; omega, ⟨hk, hks⟩, hf⟩
    · exact Or.inr ⟨[], by simp, trivial, h⟩

theorem write_sequence_length (cmd : Nat) (key : List Char) (buffer : Nat → Nat) (len : Nat) :
    (write_sequence cmd key buffer len).length = 6 + len := by
  simp [write_sequence]
  omega

/-- C11 (`write_smc`, order and abort at the first failure).  The sequence of
the transaction is `cmd` to the command port, then `key[0..3]`, `len` and
`buffer[0..len-1]` to the data port, `6 + len` pairs.  `write_smc` is the
send phase over that sequence, each pair going through `send_byte` in order,
plus one diagnostic line on failure.  It returns 0 iff every send of the
sequence is answered; then every pair is written, at least once each and in
the order of the sequence.  If the sends before pair number `j` are answered
and the send of pair `j` is not, it returns `-EIO` and what it has written are
the pairs `0 ... j` only, in order; no later pair is written.  One of the two
cases always applies, and no call reads the data port. -/
theorem write_smc_order (cmd : Nat) (key : List Char) (buffer : Nat → Nat) (len : Nat)
    (hw : Hw) :
    (write_sequence cmd key buffer len).length = 6 + len ∧
    (write_sequence cmd key buffer len)[0]? = some (cmd, APPLESMC_CMD_PORT) ∧
    (∀ i, i < 4 → (write_sequence cmd key buffer len)[1 + i]?
      = some (key_byte key i, APPLESMC_DATA_PORT)) ∧
    (write_sequence cmd key buffer len)[5]? = some (len, APPLESMC_DATA_PORT) ∧
    (∀ i, i < len → (write_sequence cmd key buffer len)[6 + i]?
      = some (buffer i, APPLESMC_DATA_PORT)) ∧
    (write_smc cmd key buffer len hw).1 = (send_all (write_sequence cmd key buffer len) hw).1 ∧
    port_writes (write_smc cmd key buffer len hw).2.trace
      = port_writes (send_all (write_sequence cmd key buffer len) hw).2.trace ∧
    ((write_smc cmd key buffer len hw).1 = 0
      ↔ ∃ ks, ks.length = 6 + len ∧ SendsOk ks hw.input) ∧
    ((write_smc cmd key buffer len hw).1 = 0 ∨
      (write_smc cmd key buffer len hw).1 = - EIO_errno) ∧
    (∀ ks, ks.length = 6 + len → SendsOk ks hw.input →
      (write_smc cmd key buffer len hw).1 = 0 ∧
      ∃ T ms, (write_smc cmd key buffer len hw).2.trace = hw.trace ++ T ∧
        ms.length = 6 + len ∧ (∀ m ∈ ms, 1 ≤ m) ∧
        port_writes T = write_runs (write_sequence cmd key buffer len) ms ∧
        data_reads T = []) ∧
    (∀ ks, ks.length < 6 + len → SendsOk ks hw.input →
      (¬ ∃ k, SendOk (after_sends ks hw.input) k) →
      (write_smc cmd key buffer len hw).1 = - EIO_errno ∧
      ∃ T ms, (write_smc cmd key buffer len hw).2.trace = hw.trace ++ T ∧
        ms.length = ks.length + 1 ∧ (∀ m ∈ ms, 1 ≤ m) ∧
        port_writes T = write_runs (write_sequence cmd key buffer len) ms ∧
        data_reads T = []) ∧
    ((∃ ks, ks.length = 6 + len ∧ SendsOk ks hw.input) ∨
     (∃ ks, ks.length < 6 + len ∧ SendsOk ks hw.input ∧
        ¬ ∃ k, SendOk (after_sends ks hw.input) k)) := by
  have hlen := write_sequence_length cmd key buffer len
  obtain ⟨fmt, hwr⟩ := write_smc_eq cmd key buffer len hw
  have hret : (write_smc cmd key buffer len hw).1
      = (send_all (write_sequence cmd key buffer len) hw).1 := by
    rw [hwr]
    split
    · rename_i c
      rcases send_all_ret (write_sequence cmd key buffer len) hw with h0 | h1
      · exact absurd h0 c
      · exact h1.symm
    · rfl
  have hok : (send_all (write_sequence cmd key buffer len) hw).1 = 0 →
      (write_smc cmd key buffer len hw).2 = (send_all (write_sequence cmd key buffer len) hw).2 := by
    intro h0
    rw [hwr, if_neg (by simpa using h0)]
  have hfail : (send_all (write_sequence cmd key buffer len) hw).1 ≠ 0 →
      (write_smc cmd key buffer len hw).2
        = fprintf_stderr fmt [Arg.str key] (send_all (write_sequence cmd key buffer len) hw).2 := by
    intro h0
    rw [hwr, if_pos h0]
  refine ⟨hlen, rfl, ?_, ?_, ?_, hret, ?_, ?_, ?_, ?_, ?_, sends_dichotomy _ _⟩
  · intro i hi
    interval_cases i <;> rfl
  · simp [write_sequence, List.range_succ]
  · intro i hi
    simp only [write_sequence]
    rw [show 6 + i = (5 + i) + 1 by omega, List.getElem?_cons_succ,
      List.getElem?_append_right (by simp only [List.length_map, List.length_range]; omega)]
    simp only [List.length_map, List.length_range]
    rw [show 5 + i - 4 = i + 1 by omega, List.getElem?_cons_succ, List.getElem?_map,
      List.getElem?_range hi]
    rfl
  · by_cases c : (send_all (write_sequence cmd key buffer len) hw).1 = 0
    · rw [hok c]
    · rw [hfail c]
      simp only [fprintf_stderr, port_writes_append]
      simp [port_writes]
  · rw [hret, send_all_zero_iff, hlen]
  · rw [hret]
    exact send_all_ret _ _
  · intro ks hl hs
    obtain ⟨T, ms, e, l1, p1, w1, d1⟩ := send_all_ok ks _ hw hs (by rw [hlen, hl])
    have h0 : (send_all (write_sequence cmd key buffer len) hw).1 = 0 := by rw [e]
    refine ⟨by rw [hret, h0], T, ms, ?_, by rw [l1, hlen], p1, w1, d1⟩
    rw [hok h0, e]
  · intro ks hl hs hf
    obtain ⟨r, T, ms, e, l1, p1, w1, d1⟩ := send_all_fail_at ks _ hw hs (by rw [hlen]; exact hl) hf
    have h0 : (send_all (write_sequence cmd key buffer len) hw).1 ≠ 0 := by
      rw [r]
      decide
    refine ⟨by rw [hret, r], T ++ [Event.stderr fmt [Arg.str key]], ms, ?_, l1, p1, ?_, ?_⟩
    · rw [hfail h0]
      simp only [fprintf_stderr, e, List.append_assoc]
    · rw [port_writes_append, w1]
      simp [port_writes]
    · rw [data_reads_append, d1]
      simp [data_reads]

/-! ### The flush after a read -/

theorem flush_trace_front (input : Nat → Nat) (j : Nat) :
    flush_trace input (j + 1)
      = [Event.usleep APPLESMC_MIN_WAIT,
          Event.inb APPLESMC_CMD_PORT (input 0 % 256),
          Event.inb APPLESMC_DATA_PORT (input 1 % 256)] ++ flush_trace (skip 2 input) j := by
  induction j with
  | zero => rfl
  | succ j ih =>
    rw [flush_trace, ih, flush_trace, List.append_assoc]
    rfl

theorem status_reads_flush_trace (input : Nat → Nat) (j : Nat) :
    (status_reads (flush_trace input j)).length = j := by
  induction j with
  | zero => rfl
  | succ j ih =>
    rw [flush_trace, status_reads_append, List.length_append, ih]
    rfl

theorem data_reads_flush_trace (input : Nat → Nat) (j : Nat) :
    (data_reads (flush_trace input j)).length = j := by
  induction j with
  | zero => rfl
  | succ j ih =>
    rw [flush_trace, data_reads_append, List.length_append, ih]
    rfl

theorem port_writes_flush_trace (input : Nat → Nat) (j : Nat) :
    port_writes (flush_trace input j) = [] := by
  induction j with
  | zero => rfl
  | succ j ih =>
    rw [flush_trace, port_writes_append, ih]
    rfl

/-- Every run of the flush loop with `n` iterations left: it makes `j ≤ n`
rounds in which the status has bit 0 set, each followed by one read of the
data port, and, when `j < n`, one more poll whose status has bit 0 clear. -/
theorem read_smc_flush_run (n i data : Nat) (hw : Hw) :
    ∃ j, j ≤ n ∧ (∀ t, t < j → hw.input (2 * t) % 256 &&& 0x01 ≠ 0) ∧
      (j < n → hw.input (2 * j) % 256 &&& 0x01 = 0) ∧
      (read_smc_flush n i data hw).1 = i + j ∧
      (read_smc_flush n i data hw).2.1
        = (if j = 0 then data else hw.input (2 * j - 1) % 256) ∧
      (read_smc_flush n i data hw).2.2.input
        = skip (2 * j + (if j < n then 1 else 0)) hw.input ∧
      (read_smc_flush n i data hw).2.2.trace
        = hw.trace ++ (flush_trace hw.input j
            ++ (if j < n then
                  [Event.usleep APPLESMC_MIN_WAIT,
                   Event.inb APPLESMC_CMD_PORT (hw.input (2 * j) % 256)]
                else [])) := by
  induction n generalizing i data hw with
  | zero =>
    refine ⟨0, le_refl _, ?_, ?_, rfl, rfl, rfl, ?_⟩
    · intro t ht
      omega
    · intro h
      omega
    · simp [read_smc_flush, flush_trace]
  | succ n ih =>
    rw [read_smc_flush]
    simp only [inb_usleep]
    by_cases c : hw.input 0 % 256 &&& 0x01 = 0
    · rw [if_pos c]
      refine ⟨0, by omega, ?_, fun _ => c, rfl, rfl, ?_, ?_⟩
      · intro t ht
        omega
      · simp
      · simp [flush_trace]
    · rw [if_neg c]
      obtain ⟨j, hj, hset, hclr, h1, h2, h3, h4⟩ := ih (i + 1)
        (inb APPLESMC_DATA_PORT ⟨skip 1 hw.input,
          hw.trace ++ [Event.usleep APPLESMC_MIN_WAIT,
            Event.inb APPLESMC_CMD_PORT (hw.input 0 % 256)]⟩).1
        (inb APPLESMC_DATA_PORT ⟨skip 1 hw.input,
          hw.trace ++ [Event.usleep APPLESMC_MIN_WAIT,
            Event.inb APPLESMC_CMD_PORT (hw.input 0 % 256)]⟩).2
      have hin : ∀ m, (inb APPLESMC_DATA_PORT ⟨skip 1 hw.input,
          hw.trace ++ [Event.usleep APPLESMC_MIN_WAIT,
            Event.inb APPLESMC_CMD_PORT (hw.input 0 % 256)]⟩).2.input m = hw.input (m + 2) :=
        fun m => rfl
      refine ⟨j + 1, by omega, ?_, ?_, ?_, ?_, ?_, ?_⟩
      · intro t ht
        cases t with
        | zero => exact c
        | succ t =>
          have := hset t (by omega)
          rw [hin] at this
          rw [show 2 * (t + 1) = 2 * t + 2 by ring]
          exact this
      · intro hlt
        have := hclr (by omega)
        rw [hin] at this
        rw [show 2 * (j + 1) = 2 * j + 2 by ring]
        exact this
      · rw [h1]
        omega
      · rw [h2, if_neg (Nat.succ_ne_zero j)]
        by_cases hj0 : j = 0
        · rw [if_pos hj0, hj0]
          rfl
        · rw [if_neg hj0, hin]
          congr 2
          omega
      · rw [h3]
        funext m
        simp only [skip, hin]
        by_cases hlt : j < n
        · rw [if_pos hlt, if_pos (by omega)]
          congr 1
        · rw [if_neg hlt, if_neg (by omega)]
          congr 1
      · rw [h4, flush_trace_front]
        have e2 : (fun m => (inb APPLESMC_DATA_PORT ⟨skip 1 hw.input,
            hw.trace ++ [Event.usleep APPLESMC_MIN_WAIT,
              Event.inb APPLESMC_CMD_PORT (hw.input 0 % 256)]⟩).2.input m)
            = skip 2 hw.input := rfl
        have e3 : (inb APPLESMC_DATA_PORT ⟨skip 1 hw.input,
            hw.trace ++ [Event.usleep APPLESMC_MIN_WAIT,
              Event.inb APPLESMC_CMD_PORT (hw.input 0 % 256)]⟩).2.input
            = skip 2 hw.input := rfl
        rw [e3]
        have e4 : skip 2 hw.input (2 * j) = hw.input (2 * (j + 1)) := by
          simp only [skip]
          congr 1
        rw [e4]
        by_cases hlt : j < n
        · rw [if_pos hlt, if_pos (by omega)]
          simp only [inb, List.append_assoc, List.cons_append, List.nil_append]
          rfl
        · rw [if_neg hlt, if_neg (by omega)]
          simp only [inb, List.append_assoc, List.cons_append, List.nil_append]
          rfl

/-- C12 (bounded flush after a read).  Let the command, key and length sends
and the `len` payload reads of `read_smc` succeed, and let `d` be the result
of the payload loop.  Then `read_smc` returns 0 with the buffer exactly as the
payload loop left it, and after the payload it does the following and no
more: `j ≤ 16` rounds of sleep, status poll with bit 0 set and one read
of the data port, then, when `j < 16`, one last poll whose status has bit 0
clear, then, when `j ≠ 0`, the `flushed` line on `stderr`.  So the flush
polls the status port at most 16 times, discards `j ≤ 16` bytes and writes
to no port. -/
theorem read_smc_flush_bounded (cmd : Nat) (key : List Char) (buffer : Nat → Nat) (len : Nat)
    (hw : Hw) (d : SmcResult)
    (hc : (send_command cmd hw).1 = 0)
    (ha : (send_argument key (send_command cmd hw).2).1 = 0)
    (hl : (send_byte len APPLESMC_DATA_PORT (send_argument key (send_command cmd hw).2).2).1 = 0)
    (hd : d = read_smc_data key len 0 buffer
      (send_byte len APPLESMC_DATA_PORT (send_argument key (send_command cmd hw).2).2).2)
    (hr : d.ret = 0) :
    (read_smc cmd key buffer len hw).ret = 0 ∧
    (read_smc cmd key buffer len hw).buffer = d.buffer ∧
    ∃ j F, j ≤ 16 ∧
      (∀ t, t < j → d.hw.input (2 * t) % 256 &&& 0x01 ≠ 0) ∧
      (j < 16 → d.hw.input (2 * j) % 256 &&& 0x01 = 0) ∧
      F = flush_trace d.hw.input j
            ++ (if j < 16 then
                  [Event.usleep APPLESMC_MIN_WAIT,
                   Event.inb APPLESMC_CMD_PORT (d.hw.input (2 * j) % 256)]
                else []) ∧
      (read_smc cmd key buffer len hw).hw.trace
        = d.hw.trace ++ F
            ++ (if j ≠ 0 then
                  [Event.stderr "flushed %d bytes, last value is: %d\n"
                    [Arg.num j, Arg.num ((d.hw.input (2 * j - 1) % 256 : Nat) : Int)]]
                else []) ∧
      (read_smc cmd key buffer len hw).hw.input
        = skip (2 * j + (if j < 16 then 1 else 0)) d.hw.input ∧
      (status_reads F).length = j + (if j < 16 then 1 else 0) ∧
      (status_reads F).length ≤ 16 ∧
      (data_reads F).length = j ∧ (data_reads F).length ≤ 16 ∧
      port_writes F = [] := by
  obtain ⟨j, hj, hset, hclr, h1, h2, h3, h4⟩ := read_smc_flush_run 16 0 0 d.hw
  have hr2 : ¬ (read_smc_data key len 0 buffer
      (send_byte len APPLESMC_DATA_PORT
        (send_argument key (send_command cmd hw).2).2).2).ret ≠ 0 := by
    rw [← hd]
    simpa using hr
  have hread : read_smc cmd key buffer len hw
      = ⟨0, d.buffer,
         if (read_smc_flush 16 0 0 d.hw).1 ≠ 0 then
           fprintf_stderr "flushed %d bytes, last value is: %d\n"
             [Arg.num (read_smc_flush 16 0 0 d.hw).1, Arg.num (read_smc_flush 16 0 0 d.hw).2.1]
             (read_smc_flush 16 0 0 d.hw).2.2
         else (read_smc_flush 16 0 0 d.hw).2.2⟩ := by
    rw [read_smc]
    simp only []
    rw [if_neg (by simpa using hc), if_neg (by simpa using ha), if_neg (by simpa using hl),
      if_neg hr2, ← hd]
  have hsr : (status_reads (flush_trace d.hw.input j
      ++ (if j < 16 then
            [Event.usleep APPLESMC_MIN_WAIT,
             Event.inb APPLESMC_CMD_PORT (d.hw.input (2 * j) % 256)]
          else []))).length = j + (if j < 16 then 1 else 0) := by
    rw [status_reads_append, List.length_append, status_reads_flush_trace]
    split <;> rfl
  have hdr : (data_reads (flush_trace d.hw.input j
      ++ (if j < 16 then
            [Event.usleep APPLESMC_MIN_WAIT,
             Event.inb APPLESMC_CMD_PORT (d.hw.input (2 * j) % 256)]
          else []))).length = j := by
    rw [data_reads_append, List.length_append, data_reads_flush_trace]
    split <;> rfl
  refine ⟨by rw [hread], by rw [hread], j, _, hj, hset, hclr, rfl, ?_, ?_, hsr, ?_, hdr, ?_, ?_⟩
  · rw [hread]
    simp only [h1, Nat.zero_add]
    by_cases hj0 : j = 0
    · subst hj0
      simp only [ne_eq, not_true_eq_false, if_false, h4, List.append_nil]
    · simp only [ne_eq, hj0, not_false_eq_true, if_true, if_false, fprintf_stderr, h4, h2,
        List.append_assoc]
  · rw [hread]
    simp only [h1, Nat.zero_add]
    by_cases hj0 : j = 0
    · subst hj0
      simp only [ne_eq, not_true_eq_false, if_false, h3]
    · simp only [ne_eq, hj0, not_false_eq_true, if_true, fprintf_stderr, h3]
  · rw [hsr]
    split <;> omega
  · rw [hdr]
    exact hj
  · rw [port_writes_append, port_writes_flush_trace]
    split <;> rfl

/-- C12 on a concrete run: all sends are accepted at their first poll, the two
payload bytes 0x03 and 0x02 are ready at once, then two more bytes 0xaa and
0xbb are ready before the status shows bit 0 clear.  The hypotheses of
`read_smc_flush_bounded` hold, `read_smc` returns 0, and all it read from the
data port are the two payload bytes and the two discarded ones. -/
theorem read_smc_flush_bounded_run :
    (send_command APPLESMC_READ_CMD
      ⟨fun n => [4, 4, 4, 4, 4, 4, 1, 0x03, 1, 0x02, 1, 0xaa, 1, 0xbb, 0].getD n 0, []⟩).1 = 0 ∧
    (read_smc_data ['T', 'C', '0', 'P'] 2 0 (fun _ => 0)
      (send_byte 2 APPLESMC_DATA_PORT (send_argument ['T', 'C', '0', 'P']
        (send_command APPLESMC_READ_CMD
          ⟨fun n => [4, 4, 4, 4, 4, 4, 1, 0x03, 1, 0x02, 1, 0xaa, 1, 0xbb, 0].getD n 0,
           []⟩).2).2).2).ret = 0 ∧
    (read_smc APPLESMC_READ_CMD ['T', 'C', '0', 'P'] (fun _ => 0) 2
      ⟨fun n => [4, 4, 4, 4, 4, 4, 1, 0x03, 1, 0x02, 1, 0xaa, 1, 0xbb, 0].getD n 0, []⟩).ret
      = 0 ∧
    data_reads (read_smc APPLESMC_READ_CMD ['T', 'C', '0', 'P'] (fun _ => 0) 2
      ⟨fun n => [4, 4, 4, 4, 4, 4, 1, 0x03, 1, 0x02, 1, 0xaa, 1, 0xbb, 0].getD n 0, []⟩).hw.trace
      = [0x03, 0x02, 0xaa, 0xbb] := by
  have hc : (send_command APPLESMC_READ_CMD
      ⟨fun n => [4, 4, 4, 4, 4, 4, 1, 0x03, 1, 0x02, 1, 0xaa, 1, 0xbb, 0].getD n 0, []⟩).1
      = 0 := by
    simp only [send_command, send_byte_eq_iter]
    decide
  have ha : (send_argument ['T', 'C', '0', 'P'] (send_command APPLESMC_READ_CMD
      ⟨fun n => [4, 4, 4, 4, 4, 4, 1, 0x03, 1, 0x02, 1, 0xaa, 1, 0xbb, 0].getD n 0,
       []⟩).2).1 = 0 := by
    simp only [send_command, send_argument, send_argument_loop, send_byte_eq_iter]
    decide
  have hl : (send_byte 2 APPLESMC_DATA_PORT (send_argument ['T', 'C', '0', 'P']
      (send_command APPLESMC_READ_CMD
        ⟨fun n => [4, 4, 4, 4, 4, 4, 1, 0x03, 1, 0x02, 1, 0xaa, 1, 0xbb, 0].getD n 0,
         []⟩).2).2).1 = 0 := by
    simp only [send_command, send_argument, send_argument_loop, send_byte_eq_iter]
    decide
  have hr : (read_smc_data ['T', 'C', '0', 'P'] 2 0 (fun _ => 0)
      (send_byte 2 APPLESMC_DATA_PORT (send_argument ['T', 'C', '0', 'P']
        (send_command APPLESMC_READ_CMD
          ⟨fun n => [4, 4, 4, 4, 4, 4, 1, 0x03, 1, 0x02, 1, 0xaa, 1, 0xbb, 0].getD n 0,
           []⟩).2).2).2).ret = 0 := by
    simp only [send_command, send_argument, send_argument_loop, read_smc_data,
      send_byte_eq_iter, wait_read_eq_iter]
    decide
  have ht : data_reads (read_smc APPLESMC_READ_CMD ['T', 'C', '0', 'P'] (fun _ => 0) 2
      ⟨fun n => [4, 4, 4, 4, 4, 4, 1, 0x03, 1, 0x02, 1, 0xaa, 1, 0xbb, 0].getD n 0, []⟩).hw.trace
      = [0x03, 0x02, 0xaa, 0xbb] := by
    simp only [read_smc, send_command, send_argument, send_argument_loop, read_smc_data,
      send_byte_eq_iter, wait_read_eq_iter]
    decide
  exact ⟨hc, hr,
    (read_smc_flush_bounded APPLESMC_READ_CMD ['T', 'C', '0', 'P'] (fun _ => 0) 2
      ⟨fun n => [4, 4, 4, 4, 4, 4, 1, 0x03, 1, 0x02, 1, 0xaa, 1, 0xbb, 0].getD n 0, []⟩
      _ hc ha hl rfl hr).1, ht⟩

end Smctool
